import Mathlib

/-! # RS object reference counting (`slang_rs_object_ref_count.cpp`)

A shallow embedding of the pass that zero-initialises RS object locals and
inserts `rsClearObject` calls at the end of every block, followed by the
properties proved about it.

Conventions of the embedding

* The clang syntax tree is an immutable tree; a function that mutates a node in
  place takes the node and returns the rewritten node.
* `assert` is fatal: a function that can hit a failing assertion (or an
  undefined operation such as `top()` of an empty stack) returns
  `Except Fatal _`.
* Pointers that are only compared or dereferenced for identity (a `VarDecl *`
  inside a `DeclRefExpr`, a `Scope *`) are natural-number addresses.
-/

namespace slang

/-! ## Part 1. Data model -/

/-- Fatal outcomes: the assertions of the source file, plus the operations whose
behaviour C++ leaves undefined. -/
inductive Fatal where
  /-- "Invalid rsSetObject function prototype (# params)" -/
  | InvalidSetObjectNumParams
  /-- "Invalid rsClearObject function prototype (# params)" -/
  | InvalidClearObjectNumParams
  /-- "Invalid rs{Set,Clear}Object function prototype (pointer param)" -/
  | InvalidPointerParam
  /-- "must be RS object type" -/
  | MustBeRSObjectType
  /-- "Should be RS object" -/
  | ShouldBeRSObject
  /-- "rsClearObject doesn't cover all RS object types" -/
  | ClearObjectNotCovered
  /-- "Not RS object type!" -/
  | NotRSObjectType
  /-- "Corrupted scope stack!" -/
  | CorruptedScopeStack
  /-- The closing assertion of `AppendToCompoundStatement`. -/
  | StmtCountMismatch
  /-- clang's own "Illegal param #" assertion in `FunctionDecl::getParamDecl`. -/
  | IllegalParam
  /-- A write or read outside the scratch array `StmtList`. -/
  | OutOfBounds
  /-- `mScopeStack.top()` on an empty stack. -/
  | EmptyScopeStack
  deriving DecidableEq

namespace RSExportPrimitiveType

/-- The enumerators of `RSExportPrimitiveType::DataType`, as listed by the
exhaustive `switch` of `CreateZeroInitializerForRSSpecificType`. -/
inductive DataType where
  | DataTypeUnknown
  | DataTypeFloat16
  | DataTypeFloat32
  | DataTypeFloat64
  | DataTypeSigned8
  | DataTypeSigned16
  | DataTypeSigned32
  | DataTypeSigned64
  | DataTypeUnsigned8
  | DataTypeUnsigned16
  | DataTypeUnsigned32
  | DataTypeUnsigned64
  | DataTypeBoolean
  | DataTypeUnsigned565
  | DataTypeUnsigned5551
  | DataTypeUnsigned4444
  | DataTypeRSMatrix2x2
  | DataTypeRSMatrix3x3
  | DataTypeRSMatrix4x4
  | DataTypeRSElement
  | DataTypeRSType
  | DataTypeRSAllocation
  | DataTypeRSSampler
  | DataTypeRSScript
  | DataTypeRSMesh
  | DataTypeRSProgramFragment
  | DataTypeRSProgramVertex
  | DataTypeRSProgramRaster
  | DataTypeRSProgramStore
  | DataTypeRSFont
  | DataTypeMax
  deriving DecidableEq

open DataType

/-- Modelled from the spec: the integer value of each enumerator. The
declaration of the enumeration (`slang_rs_export_type.h`) is not among the
sources; the spec says the object categories (element, type, allocation,
sampler, script, mesh, program-fragment, program-vertex, program-raster,
program-store, font) are contiguous between a first and a last object marker
and that the matrix categories fall outside that range. The values below are
consecutive in the order of the enumerators; nothing but the contiguity of the
object range and the position of the other enumerators outside it is used. -/
def DataType.toInt : DataType → Int
  | DataTypeUnknown => -1
  | DataTypeFloat16 => 0
  | DataTypeFloat32 => 1
  | DataTypeFloat64 => 2
  | DataTypeSigned8 => 3
  | DataTypeSigned16 => 4
  | DataTypeSigned32 => 5
  | DataTypeSigned64 => 6
  | DataTypeUnsigned8 => 7
  | DataTypeUnsigned16 => 8
  | DataTypeUnsigned32 => 9
  | DataTypeUnsigned64 => 10
  | DataTypeBoolean => 11
  | DataTypeUnsigned565 => 12
  | DataTypeUnsigned5551 => 13
  | DataTypeUnsigned4444 => 14
  | DataTypeRSMatrix2x2 => 15
  | DataTypeRSMatrix3x3 => 16
  | DataTypeRSMatrix4x4 => 17
  | DataTypeRSElement => 18
  | DataTypeRSType => 19
  | DataTypeRSAllocation => 20
  | DataTypeRSSampler => 21
  | DataTypeRSScript => 22
  | DataTypeRSMesh => 23
  | DataTypeRSProgramFragment => 24
  | DataTypeRSProgramVertex => 25
  | DataTypeRSProgramRaster => 26
  | DataTypeRSProgramStore => 27
  | DataTypeRSFont => 28
  | DataTypeMax => 29

/-- Modelled from the spec: the first object marker of the enumeration
(`slang_rs_export_type.h` is not among the sources). -/
def FirstRSObjectType : Int := DataType.toInt DataTypeRSElement

/-- Modelled from the spec: the last object marker of the enumeration
(`slang_rs_export_type.h` is not among the sources). -/
def LastRSObjectType : Int := DataType.toInt DataTypeRSFont

/-- Modelled from the spec: `IsRSObjectType`, membership of the contiguous
object range (`slang_rs_export_type.h` is not among the sources). -/
def IsRSObjectType (DT : DataType) : Bool :=
  decide (FirstRSObjectType ≤ DT.toInt) && decide (DT.toInt ≤ LastRSObjectType)

end RSExportPrimitiveType

open RSExportPrimitiveType RSExportPrimitiveType.DataType

namespace clang

/-- A `clang::SourceLocation`; `0` is the invalid location `SourceLocation()`. -/
abbrev SourceLocation := Nat

/-- The types the pass reads or builds (`clang::QualType`). -/
inductive QualType where
  /-- `C.IntTy` -/
  | IntTy
  /-- `C.FloatTy` -/
  | FloatTy
  /-- `C.NullPtrTy` -/
  | NullPtrTy
  /-- `void` -/
  | VoidTy
  /-- A named (record or typedef) type such as `rs_font`. -/
  | Named (name : String)
  /-- `C.getPointerType(pointee)` -/
  | Pointer (pointee : QualType)
  /-- `C.getConstantArrayType(EltTy, ArySize, ArrayType::Normal, 0)` -/
  | ConstantArray (EltTy : QualType) (ArySize : Nat)
  /-- A function type `result (params)`. -/
  | Function (result : QualType) (params : List QualType)

/-- The method `Type::isPointerType`. -/
def QualType.isPointerType : QualType → Bool
  | .Pointer _ => true
  | _ => false

/-- The method `Type::getPointeeType`; the null type is `none`. -/
def QualType.getPointeeType : QualType → Option QualType
  | .Pointer p => some p
  | _ => none

inductive CastKind where
  | CK_IntegralToPointer
  | CK_FunctionToPointerDecay
  | CK_Other (k : Nat)
  deriving DecidableEq

inductive ExprValueKind where
  | VK_RValue
  | VK_LValue
  | VK_XValue
  deriving DecidableEq

inductive UnaryOperatorKind where
  | UO_AddrOf
  | UO_Other (k : Nat)
  deriving DecidableEq

inductive BinaryOperatorKind where
  | BO_Assign
  | BO_Other (k : Nat)
  deriving DecidableEq

/-- The answer of `Stmt::getStmtClass`. -/
inductive StmtClass where
  | CompoundStmtClass
  | DeclStmtClass
  | ReturnStmtClass
  | BinaryOperatorClass
  | IntegerLiteralClass
  | FloatingLiteralClass
  | ImplicitCastExprClass
  | InitListExprClass
  | DeclRefExprClass
  | UnaryOperatorClass
  | CallExprClass
  | OtherClass (cls : Nat)
  deriving DecidableEq

structure ParmVarDecl where
  OriginalType : QualType

/-- A `clang::FunctionDecl`, with what the pass reads of it. -/
structure FunctionDecl where
  Name : String
  Params : List ParmVarDecl
  /-- `getType()`, the function type -/
  Ty : QualType
  /-- `getCallResultType()` -/
  CallResultType : QualType
  /-- `getLocation()` -/
  Loc : SourceLocation

def FunctionDecl.getName (FD : FunctionDecl) : String := FD.Name

def FunctionDecl.getNumParams (FD : FunctionDecl) : Nat := FD.Params.length

/-- The method `getParamDecl(i)`; clang asserts `i < getNumParams()`. -/
def FunctionDecl.getParamDecl (FD : FunctionDecl) (i : Nat) : Option ParmVarDecl :=
  FD.Params.get? i

/-- What a `DeclRefExpr` points at: a variable (by the address of its
`VarDecl`) or a function declaration. -/
inductive DeclRef where
  | Var (addr : Nat)
  | Function (FD : FunctionDecl)

mutual
/-- A `clang::Stmt` (expressions are statements, as in clang). -/
inductive Stmt where
  | CompoundStmt (body : List Stmt)
  | DeclStmt (decls : List Decl)
  | ReturnStmt (RetExpr : Option Stmt)
  | BinaryOperator (lhs rhs : Stmt) (opc : BinaryOperatorKind)
  /-- `IntegerLiteral::Create(C, V, type, l)` -/
  | IntegerLiteral (V : Nat) (type : QualType) (l : SourceLocation)
  /-- `FloatingLiteral::Create(C, V, isexact, Ty, L)`; `V` is the bit pattern
  of the value, `0` for the default-constructed `APFloat` (positive zero). -/
  | FloatingLiteral (V : Nat) (isexact : Bool) (Ty : QualType) (L : SourceLocation)
  /-- `ImplicitCastExpr::Create(C, T, Kind, Operand, NULL, Cat)` -/
  | ImplicitCastExpr (T : QualType) (Kind : CastKind) (Operand : Stmt) (Cat : ExprValueKind)
  /-- `InitListExpr(C, lbraceloc, initexprs, numinits, rbraceloc)`; the
  constructor leaves the type null (`none`) until `setType`. -/
  | InitListExpr (type : Option QualType) (lbraceloc : SourceLocation) (initexprs : List Stmt)
      (rbraceloc : SourceLocation)
  /-- `DeclRefExpr::Create(C, NULL, QualifierRange, D, NameLoc, T, NULL)` -/
  | DeclRefExpr (D : DeclRef) (NameLoc : SourceLocation) (T : QualType)
  /-- `UnaryOperator(input, opc, type, l)` -/
  | UnaryOperator (input : Stmt) (opc : UnaryOperatorKind) (type : QualType) (l : SourceLocation)
  /-- `CallExpr(C, fn, args, numargs, t, rparenloc)` -/
  | CallExpr (fn : Stmt) (args : List Stmt) (t : QualType) (rparenloc : SourceLocation)
  /-- Any other statement class, with its children (a child may be null). -/
  | Other (cls : Nat) (children : List (Option Stmt))
/-- A `clang::VarDecl`: its address (identity), declared type, location and
initializer. -/
inductive VarDecl where
  | mk (addr : Nat) (type : QualType) (Loc : SourceLocation) (Init : Option Stmt)
/-- A `clang::Decl`, by kind. -/
inductive Decl where
  | Var (VD : VarDecl)
  | Function (FD : FunctionDecl)
  | Other (kind : Nat)
end

def Stmt.getStmtClass : Stmt → StmtClass
  | .CompoundStmt _ => .CompoundStmtClass
  | .DeclStmt _ => .DeclStmtClass
  | .ReturnStmt _ => .ReturnStmtClass
  | .BinaryOperator _ _ _ => .BinaryOperatorClass
  | .IntegerLiteral _ _ _ => .IntegerLiteralClass
  | .FloatingLiteral _ _ _ _ => .FloatingLiteralClass
  | .ImplicitCastExpr _ _ _ _ => .ImplicitCastExprClass
  | .InitListExpr _ _ _ _ => .InitListExprClass
  | .DeclRefExpr _ _ _ => .DeclRefExprClass
  | .UnaryOperator _ _ _ _ => .UnaryOperatorClass
  | .CallExpr _ _ _ _ => .CallExprClass
  | .Other cls _ => .OtherClass cls

/-- The method `Expr::setType`; a statement that is no expression has no type
to set. -/
def Stmt.setType (T : QualType) : Stmt → Stmt
  | .IntegerLiteral v _ l => .IntegerLiteral v T l
  | .FloatingLiteral v e _ l => .FloatingLiteral v e T l
  | .ImplicitCastExpr _ k op c => .ImplicitCastExpr T k op c
  | .InitListExpr _ l es r => .InitListExpr (some T) l es r
  | .DeclRefExpr D l _ => .DeclRefExpr D l T
  | .UnaryOperator input opc _ l => .UnaryOperator input opc T l
  | .CallExpr fn args _ r => .CallExpr fn args T r
  | s => s

def VarDecl.addr : VarDecl → Nat
  | .mk a _ _ _ => a

def VarDecl.getType : VarDecl → QualType
  | .mk _ T _ _ => T

def VarDecl.getLocation : VarDecl → SourceLocation
  | .mk _ _ L _ => L

def VarDecl.getInit : VarDecl → Option Stmt
  | .mk _ _ _ I => I

def VarDecl.hasInit (VD : VarDecl) : Bool := VD.getInit.isSome

def VarDecl.setInit : VarDecl → Stmt → VarDecl
  | .mk a T L _, I => .mk a T L (some I)

end clang

open clang

/-- The external collaborators of the pass (the Resource-Category Catalog):
`RSExportPrimitiveType::GetRSSpecificType` and clang's type canonicalisation.
They are parameters of the embedding. -/
structure Catalog where
  GetRSSpecificType : QualType → DataType
  getCanonicalTypeInternal : QualType → QualType

/-- Modelled from the spec: `RSExportType::GetTypeOfDecl` (declared in
`slang_rs_export_type.h`, not among the sources) gives the declared type of the
variable, which the Catalog then classifies. -/
def RSExportType.GetTypeOfDecl (VD : VarDecl) : QualType := VD.getType

/-! ## Part 2. The registry of the runtime functions -/

namespace RSObjectRefCount

/-- The number of entries of each static table,
`LastRSObjectType - FirstRSObjectType + 1`. -/
def TableSize : Nat := Int.toNat (LastRSObjectType - FirstRSObjectType + 1)

/-- The index `DT - RSExportPrimitiveType::FirstRSObjectType` of an object
type into the static tables; it is below `TableSize` for an object type. -/
def objectIndex (DT : DataType) (h : IsRSObjectType DT = true) : Fin TableSize :=
  ⟨Int.toNat (DT.toInt - FirstRSObjectType), by
    cases DT <;> first | (exact absurd h (by decide)) | decide⟩

/-- The two static tables `Scope::RSSetObjectFD` and `Scope::RSClearObjectFD`;
a null entry is `none`. -/
structure Registry where
  RSSetObjectFD : Fin TableSize → Option FunctionDecl
  RSClearObjectFD : Fin TableSize → Option FunctionDecl

/-- The tables as static initialisation leaves them: every entry null. -/
def Registry.initial : Registry where
  RSSetObjectFD := fun _ => none
  RSClearObjectFD := fun _ => none

/-- The table the local pointer `RSObjectFD` points to. -/
inductive TableSel where
  | RSSetObjectFD
  | RSClearObjectFD
  deriving DecidableEq

/-- The assignment `RSObjectFD[i] = FD`. -/
def Registry.store (reg : Registry) (sel : TableSel) (i : Fin TableSize)
    (FD : Option FunctionDecl) : Registry :=
  match sel with
  | .RSSetObjectFD => { reg with RSSetObjectFD := Function.update reg.RSSetObjectFD i FD }
  | .RSClearObjectFD => { reg with RSClearObjectFD := Function.update reg.RSClearObjectFD i FD }

namespace Scope

/-- The reset loop of `GetRSRefCountingFunctions` (lines 39-44). -/
def resetTables (reg : Registry) : Registry :=
  (List.finRange TableSize).foldl
    (fun r i => (r.store .RSSetObjectFD i none).store .RSClearObjectFD i none) reg

/-- Lines 70-83 of `GetRSRefCountingFunctions`: classify the first parameter
of `FD` and record `FD` in the selected table. -/
def recordFD (X : Catalog) (reg : Registry) (sel : TableSel) (FD : FunctionDecl) :
    Except Fatal Registry :=
  match FD.getParamDecl 0 with
  | none => .error .IllegalParam
  | some PVD =>
    let PVT := PVD.OriginalType
    if PVT.isPointerType then
      match PVT.getPointeeType with
      | none => .error .InvalidPointerParam
      | some RST =>
        let DT := X.GetRSSpecificType RST
        if h : IsRSObjectType DT = true then
          .ok (reg.store sel (objectIndex DT h) (some FD))
        else
          .error .MustBeRSObjectType
    else
      .error .InvalidPointerParam

/-- The body of the loop over the declarations of the translation unit
(lines 50-84). -/
def visitTopLevelDecl (X : Catalog) (reg : Registry) : Decl → Except Fatal Registry
  | .Function FD =>
    if FD.getName = "rsSetObject" then
      if FD.getNumParams = 2 then recordFD X reg .RSSetObjectFD FD
      else .error .InvalidSetObjectNumParams
    else if FD.getName = "rsClearObject" then
      if FD.getNumParams = 1 then recordFD X reg .RSClearObjectFD FD
      else .error .InvalidClearObjectNumParams
    else
      .ok reg
  | _ => .ok reg

/-- The loop over the declarations of the translation unit (lines 48-85). -/
def visitTopLevelDecls (X : Catalog) : Registry → List Decl → Except Fatal Registry
  | reg, [] => .ok reg
  | reg, D :: rest =>
    match visitTopLevelDecl X reg D with
    | .error e => .error e
    | .ok reg1 => visitTopLevelDecls X reg1 rest

/-- `Scope::GetRSRefCountingFunctions` (lines 37-86). `reg` is the content of
the static tables before the call, `TUDecl` the declarations of the
translation unit. -/
def GetRSRefCountingFunctions (X : Catalog) (reg : Registry) (TUDecl : List Decl) :
    Except Fatal Registry :=
  visitTopLevelDecls X (resetTables reg) TUDecl

end Scope

end RSObjectRefCount

/-! ## Part 3. The Scope: splice of the cleanup calls -/

namespace RSObjectRefCount

/-- A `Scope` object. `addr` is the address of the heap object (`new Scope`),
`mRSO` the tracked variables. The member `mCS` points at the block the Scope
was created for; the methods that dereference it take the block's statement
list as an argument and return the new one. -/
structure Scope where
  addr : Nat
  mRSO : List VarDecl

namespace Scope

/-- The assignment `StmtList[UpdatedStmtCount++] = s` on the scratch array (a
slot is `none` until written). -/
def writeStmt (StmtList : List (Option Stmt)) (UpdatedStmtCount : Nat) (s : Stmt) :
    Except Fatal (List (Option Stmt) × Nat) :=
  if UpdatedStmtCount < StmtList.length then
    .ok (StmtList.set UpdatedStmtCount (some s), UpdatedStmtCount + 1)
  else
    .error .OutOfBounds

/-- The first copy loop (lines 108-113): copies statements until the iterator
meets a `ReturnStmt` or the end; returns the iterator position (the rest of the
body) with the array and the counter. -/
def copyUntilReturn : List Stmt → List (Option Stmt) → Nat →
    Except Fatal (List Stmt × List (Option Stmt) × Nat)
  | [], StmtList, n => .ok ([], StmtList, n)
  | s :: rest, StmtList, n =>
    if s.getStmtClass = StmtClass.ReturnStmtClass then
      .ok (s :: rest, StmtList, n)
    else
      match writeStmt StmtList n s with
      | .error e => .error e
      | .ok (StmtList1, n1) => copyUntilReturn rest StmtList1 n1

/-- The second and third copy loops (lines 116-121 and 124-126): copy every
element of the range. -/
def copyAll : List Stmt → List (Option Stmt) → Nat →
    Except Fatal (List (Option Stmt) × Nat)
  | [], StmtList, n => .ok (StmtList, n)
  | s :: rest, StmtList, n =>
    match writeStmt StmtList n s with
    | .error e => .error e
    | .ok (StmtList1, n1) => copyAll rest StmtList1 n1

/-- The call `mCS->setStmts(C, StmtList, NumStmts)`: the new body is the first
`NumStmts` slots of the array. -/
def setStmts : List (Option Stmt) → Nat → Except Fatal (List Stmt)
  | _, 0 => .ok []
  | [], _ + 1 => .error .OutOfBounds
  | none :: _, _ + 1 => .error .OutOfBounds
  | some s :: rest, n + 1 =>
    match setStmts rest n with
    | .error e => .error e
    | .ok body => .ok (s :: body)

/-- `Scope::AppendToCompoundStatement` (lines 88-134). `body` is the statement
list of `mCS`; the result is its new statement list. -/
def AppendToCompoundStatement (body : List Stmt) (ExprList : List Stmt) :
    Except Fatal (List Stmt) :=
  let OldStmtCount := body.length
  let NewExprCount := ExprList.length
  let StmtList : List (Option Stmt) := List.replicate (OldStmtCount + NewExprCount) none
  match copyUntilReturn body StmtList 0 with
  | .error e => .error e
  | .ok (bI, StmtList1, n1) =>
    match copyAll ExprList StmtList1 n1 with
    | .error e => .error e
    | .ok (StmtList2, n2) =>
      match copyAll bI StmtList2 n2 with
      | .error e => .error e
      | .ok (StmtList3, UpdatedStmtCount) =>
        match setStmts StmtList3 UpdatedStmtCount with
        | .error e => .error e
        | .ok newBody =>
          if UpdatedStmtCount = OldStmtCount + NewExprCount then .ok newBody
          else .error .StmtCountMismatch

/-- `Scope::ClearRSObject` (lines 157-227). The first component is the
returned pointer (`none` would be a null pointer); the second lists the nodes
the call has created in the `ASTContext`, in creation order. -/
def ClearRSObject (X : Catalog) (reg : Registry) (VD : VarDecl) :
    Except Fatal (Option Stmt) × List Stmt :=
  let Loc := VD.getLocation
  let T := RSExportType.GetTypeOfDecl VD
  let DT := X.GetRSSpecificType T
  if h : IsRSObjectType DT = true then
    match reg.RSClearObjectFD (objectIndex DT h) with
    | none => (.error .ClearObjectNotCovered, [])
    | some ClearObjectFD =>
      let ClearObjectFDType := ClearObjectFD.Ty
      match ClearObjectFD.getParamDecl 0 with
      | none => (.error .IllegalParam, [])
      | some PVD =>
        let ClearObjectFDArgType := PVD.OriginalType
        let RefRSVar := Stmt.DeclRefExpr (.Var VD.addr) Loc (X.getCanonicalTypeInternal T)
        let AddrRefRSVar := Stmt.UnaryOperator RefRSVar .UO_AddrOf ClearObjectFDArgType Loc
        let RefRSClearObjectFD :=
          Stmt.DeclRefExpr (.Function ClearObjectFD) ClearObjectFD.Loc ClearObjectFDType
        let RSClearObjectFP :=
          Stmt.ImplicitCastExpr (.Pointer ClearObjectFDType) .CK_FunctionToPointerDecay
            RefRSClearObjectFD .VK_RValue
        let RSClearObjectCall :=
          Stmt.CallExpr RSClearObjectFP [AddrRefRSVar] ClearObjectFD.CallResultType 0
        (.ok (some RSClearObjectCall),
          [RefRSVar, AddrRefRSVar, RefRSClearObjectFD, RSClearObjectFP, RSClearObjectCall])
  else
    (.error .ShouldBeRSObject, [])

/-- The loop of `InsertLocalVarDestructors` (lines 138-146): the clear calls of
the tracked variables, in the order of the list. -/
def collectClearCalls (X : Catalog) (reg : Registry) : List VarDecl → Except Fatal (List Stmt)
  | [] => .ok []
  | VD :: rest =>
    match (ClearRSObject X reg VD).1 with
    | .error e => .error e
    | .ok E =>
      match collectClearCalls X reg rest with
      | .error e => .error e
      | .ok calls =>
        match E with
        | some call => .ok (call :: calls)
        | none => .ok calls

/-- `Scope::InsertLocalVarDestructors` (lines 136-155). `body` is the statement
list of `mCS`; the result is its new statement list. -/
def InsertLocalVarDestructors (X : Catalog) (reg : Registry) (S : Scope) (body : List Stmt) :
    Except Fatal (List Stmt) :=
  match collectClearCalls X reg S.mRSO with
  | .error e => .error e
  | .ok RSClearObjectCalls =>
    if RSClearObjectCalls.length > 0 then
      AppendToCompoundStatement body RSClearObjectCalls
    else
      .ok body

/-- Modelled from the spec: `Scope::addRSObject` (declared in
`slang_rs_object_ref_count.h`, not among the sources) appends the variable to
the tracked list. -/
def addRSObject (S : Scope) (VD : VarDecl) : Scope :=
  { S with mRSO := S.mRSO ++ [VD] }

end Scope

/-! ## Part 4. Zero initializers -/

/-- `RSObjectRefCount::CreateZeroInitializerForRSSpecificType` (lines 255-352).
The result is the pointer `Res` (`none` would be a null pointer). -/
def CreateZeroInitializerForRSSpecificType (DT : DataType) (Loc : SourceLocation) :
    Except Fatal (Option Stmt) :=
  match DT with
  | DataTypeRSElement
  | DataTypeRSType
  | DataTypeRSAllocation
  | DataTypeRSSampler
  | DataTypeRSScript
  | DataTypeRSMesh
  | DataTypeRSProgramFragment
  | DataTypeRSProgramVertex
  | DataTypeRSProgramRaster
  | DataTypeRSProgramStore
  | DataTypeRSFont =>
    let Int0 := Stmt.IntegerLiteral 0 .IntTy Loc
    let CastToNull := Stmt.ImplicitCastExpr .NullPtrTy .CK_IntegralToPointer Int0 .VK_RValue
    .ok (some (Stmt.InitListExpr none Loc [CastToNull] Loc))
  | DataTypeRSMatrix2x2
  | DataTypeRSMatrix3x3
  | DataTypeRSMatrix4x4 =>
    let FloatTy_ := QualType.FloatTy
    let Float0Val := Stmt.FloatingLiteral 0 true FloatTy_ Loc
    let N : Nat :=
      if DT = DataTypeRSMatrix2x2 then 2
      else if DT = DataTypeRSMatrix3x3 then 3
      else if DT = DataTypeRSMatrix4x4 then 4
      else 0
    let InitVals : List Stmt := List.replicate 16 Float0Val
    let InitExpr :=
      (Stmt.InitListExpr none Loc (InitVals.take (N * N)) Loc).setType
        (.ConstantArray FloatTy_ 4)
    .ok (some (Stmt.InitListExpr none Loc [InitExpr] Loc))
  | DataTypeUnknown
  | DataTypeFloat16
  | DataTypeFloat32
  | DataTypeFloat64
  | DataTypeSigned8
  | DataTypeSigned16
  | DataTypeSigned32
  | DataTypeSigned64
  | DataTypeUnsigned8
  | DataTypeUnsigned16
  | DataTypeUnsigned32
  | DataTypeUnsigned64
  | DataTypeBoolean
  | DataTypeUnsigned565
  | DataTypeUnsigned5551
  | DataTypeUnsigned4444
  | DataTypeMax => .error .NotRSObjectType

/-- `RSObjectRefCount::InitializeRSObject` (lines 229-253): the returned flag
and the variable after the call. -/
def InitializeRSObject (X : Catalog) (VD : VarDecl) : Except Fatal (Bool × VarDecl) :=
  let T := RSExportType.GetTypeOfDecl VD
  let DT := X.GetRSSpecificType T
  if DT = DataTypeUnknown then
    .ok (false, VD)
  else if VD.hasInit then
    .ok (IsRSObjectType DT, VD)
  else
    match CreateZeroInitializerForRSSpecificType DT VD.getLocation with
    | .error e => .error e
    | .ok none => .ok (IsRSObjectType DT, VD)
    | .ok (some ZeroInitializer) =>
      .ok (IsRSObjectType DT,
        VD.setInit (ZeroInitializer.setType (X.getCanonicalTypeInternal T)))

end RSObjectRefCount

/-! ## Part 5. The traversal -/

/-- The visitor object: its stack of Scopes (the top is the head of the list)
and the address the next `new Scope` returns. -/
structure RSObjectRefCount where
  mScopeStack : List RSObjectRefCount.Scope
  nextScope : Nat

namespace RSObjectRefCount

/-- Modelled from the spec: `getCurrentScope` (declared in
`slang_rs_object_ref_count.h`, not among the sources) is the Scope on top of
the stack; there is none when the stack is empty. -/
def getCurrentScope (V : RSObjectRefCount) : Except Fatal Scope :=
  match V.mScopeStack with
  | [] => .error .EmptyScopeStack
  | S :: _ => .ok S

/-- The statement `getCurrentScope()->addRSObject(VD)`. -/
def addToCurrentScope (V : RSObjectRefCount) (VD : VarDecl) : Except Fatal RSObjectRefCount :=
  match V.mScopeStack with
  | [] => .error .EmptyScopeStack
  | S :: rest => .ok { V with mScopeStack := S.addRSObject VD :: rest }

/-- The body of the loop of `VisitDeclStmt` (lines 358-363): the visitor and
the declaration after it. -/
def visitDecl (X : Catalog) (V : RSObjectRefCount) : Decl → Except Fatal (RSObjectRefCount × Decl)
  | .Var VD =>
    match InitializeRSObject X VD with
    | .error e => .error e
    | .ok (tracked, VD1) =>
      if tracked then
        match addToCurrentScope V VD1 with
        | .error e => .error e
        | .ok V1 => .ok (V1, .Var VD1)
      else
        .ok (V, .Var VD1)
  | .Function FD => .ok (V, .Function FD)
  | .Other kind => .ok (V, .Other kind)

/-- The loop of `VisitDeclStmt` over the declarations of the statement. -/
def visitDecls (X : Catalog) : RSObjectRefCount → List Decl →
    Except Fatal (RSObjectRefCount × List Decl)
  | V, [] => .ok (V, [])
  | V, D :: rest =>
    match visitDecl X V D with
    | .error e => .error e
    | .ok (V1, D1) =>
      match visitDecls X V1 rest with
      | .error e => .error e
      | .ok (V2, rest1) => .ok (V2, D1 :: rest1)

/-- `RSObjectRefCount::VisitDeclStmt` (lines 354-366): the visitor and the
declarations of the statement after the call. -/
def VisitDeclStmt (X : Catalog) (V : RSObjectRefCount) (decls : List Decl) :
    Except Fatal (RSObjectRefCount × List Decl) :=
  visitDecls X V decls

/-- Lines 371-372 of `VisitCompoundStmt`: `new Scope(CS)` and the push. The
constructor (declared in `slang_rs_object_ref_count.h`, not among the sources)
starts with an empty list of tracked variables, as the spec says. -/
def pushScope (V : RSObjectRefCount) : Scope × RSObjectRefCount :=
  let S : Scope := { addr := V.nextScope, mRSO := [] }
  (S, { mScopeStack := S :: V.mScopeStack, nextScope := V.nextScope + 1 })

/-- Lines 379-382 of `VisitCompoundStmt`: the assertion on the current Scope,
the insertion of the destructors into the block (whose statement list after
the visit of the children is `body`), and the pop. -/
def popScope (X : Catalog) (reg : Registry) (S : Scope) (V : RSObjectRefCount)
    (body : List Stmt) : Except Fatal (RSObjectRefCount × List Stmt) :=
  match V.mScopeStack with
  | [] => .error .EmptyScopeStack
  | Cur :: rest =>
    if Cur.addr = S.addr then
      match Cur.InsertLocalVarDestructors X reg body with
      | .error e => .error e
      | .ok body1 => .ok ({ V with mScopeStack := rest }, body1)
    else
      .error .CorruptedScopeStack

mutual
/-- The dispatch `Visit` of clang's `StmtVisitor` on the class of the
statement, with the bodies of `VisitCompoundStmt` (lines 368-385),
`VisitBinAssign` (lines 387-390) and `VisitStmt` (lines 392-401): the visitor
and the statement after the call. -/
def Visit (X : Catalog) (reg : Registry) (V : RSObjectRefCount) :
    Stmt → Except Fatal (RSObjectRefCount × Stmt)
  | .CompoundStmt body =>
    if body.isEmpty then
      .ok (V, .CompoundStmt body)
    else
      match VisitChildren X reg (pushScope V).2 body with
      | .error e => .error e
      | .ok (V1, body1) =>
        match popScope X reg (pushScope V).1 V1 body1 with
        | .error e => .error e
        | .ok (V2, body2) => .ok (V2, .CompoundStmt body2)
  | .DeclStmt decls =>
    match VisitDeclStmt X V decls with
    | .error e => .error e
    | .ok (V1, decls1) => .ok (V1, .DeclStmt decls1)
  | .BinaryOperator lhs rhs .BO_Assign => .ok (V, .BinaryOperator lhs rhs .BO_Assign)
  | .BinaryOperator lhs rhs (.BO_Other k) =>
    match Visit X reg V lhs with
    | .error e => .error e
    | .ok (V1, lhs1) =>
      match Visit X reg V1 rhs with
      | .error e => .error e
      | .ok (V2, rhs1) => .ok (V2, .BinaryOperator lhs1 rhs1 (.BO_Other k))
  | .ReturnStmt RetExpr =>
    match VisitChild X reg V RetExpr with
    | .error e => .error e
    | .ok (V1, RetExpr1) => .ok (V1, .ReturnStmt RetExpr1)
  | .IntegerLiteral v T l => .ok (V, .IntegerLiteral v T l)
  | .FloatingLiteral v e T l => .ok (V, .FloatingLiteral v e T l)
  | .ImplicitCastExpr T k op c =>
    match Visit X reg V op with
    | .error e => .error e
    | .ok (V1, op1) => .ok (V1, .ImplicitCastExpr T k op1 c)
  | .InitListExpr T l es r =>
    match VisitChildren X reg V es with
    | .error e => .error e
    | .ok (V1, es1) => .ok (V1, .InitListExpr T l es1 r)
  | .DeclRefExpr D l T => .ok (V, .DeclRefExpr D l T)
  | .UnaryOperator input opc T l =>
    match Visit X reg V input with
    | .error e => .error e
    | .ok (V1, input1) => .ok (V1, .UnaryOperator input1 opc T l)
  | .CallExpr fn args t r =>
    match Visit X reg V fn with
    | .error e => .error e
    | .ok (V1, fn1) =>
      match VisitChildren X reg V1 args with
      | .error e => .error e
      | .ok (V2, args1) => .ok (V2, .CallExpr fn1 args1 t r)
  | .Other cls children =>
    match VisitOptChildren X reg V children with
    | .error e => .error e
    | .ok (V1, children1) => .ok (V1, .Other cls children1)
/-- The loop of `VisitStmt` over children none of which is null. -/
def VisitChildren (X : Catalog) (reg : Registry) (V : RSObjectRefCount) :
    List Stmt → Except Fatal (RSObjectRefCount × List Stmt)
  | [] => .ok (V, [])
  | Child :: rest =>
    match Visit X reg V Child with
    | .error e => .error e
    | .ok (V1, Child1) =>
      match VisitChildren X reg V1 rest with
      | .error e => .error e
      | .ok (V2, rest1) => .ok (V2, Child1 :: rest1)
/-- One step of the loop of `VisitStmt`: `if (Child) Visit(Child)`. -/
def VisitChild (X : Catalog) (reg : Registry) (V : RSObjectRefCount) :
    Option Stmt → Except Fatal (RSObjectRefCount × Option Stmt)
  | none => .ok (V, none)
  | some Child =>
    match Visit X reg V Child with
    | .error e => .error e
    | .ok (V1, Child1) => .ok (V1, some Child1)
/-- The loop of `VisitStmt` (lines 392-401) over children that may be null. -/
def VisitOptChildren (X : Catalog) (reg : Registry) (V : RSObjectRefCount) :
    List (Option Stmt) → Except Fatal (RSObjectRefCount × List (Option Stmt))
  | [] => .ok (V, [])
  | Child :: rest =>
    match VisitChild X reg V Child with
    | .error e => .error e
    | .ok (V1, Child1) =>
      match VisitOptChildren X reg V1 rest with
      | .error e => .error e
      | .ok (V2, rest1) => .ok (V2, Child1 :: rest1)
end

/-- `RSObjectRefCount::VisitCompoundStmt` (lines 368-385) on the block with
statement list `body`. -/
def VisitCompoundStmt (X : Catalog) (reg : Registry) (V : RSObjectRefCount)
    (body : List Stmt) : Except Fatal (RSObjectRefCount × Stmt) :=
  Visit X reg V (.CompoundStmt body)

end RSObjectRefCount

/-! ## Part 6. Specification-side definitions and sample inputs -/

open RSObjectRefCount

/-- The documented shape of a clear call (lines 177-182): a `CallExpr` whose
callee is a `DeclRefExpr` to the function `F` under a function-to-pointer
decay and whose only argument is `&` applied to a `DeclRefExpr` to the
variable `v`. -/
def IsClearCall (F : FunctionDecl) (v : VarDecl) : Stmt → Prop
  | .CallExpr (.ImplicitCastExpr _ .CK_FunctionToPointerDecay (.DeclRefExpr (.Function G) _ _) _)
      [.UnaryOperator (.DeclRefExpr (.Var a) _ _) .UO_AddrOf _ _] _ _ => G = F ∧ a = v.addr
  | _ => False

/-- What the assertions of `GetRSRefCountingFunctions` on the number of
parameters establish for the recorded declarations. -/
def RSObjectRefCount.Registry.WellFormed (reg : RSObjectRefCount.Registry) : Prop :=
  (∀ i F, reg.RSSetObjectFD i = some F → F.getNumParams = 2)
    ∧ (∀ i F, reg.RSClearObjectFD i = some F → F.getNumParams = 1)

/-- The contents the static tables can have while the pass runs: null
everywhere (static initialisation), or what a scan of some translation unit
has left. -/
def RSObjectRefCount.Registry.Reachable (X : Catalog) (reg : RSObjectRefCount.Registry) : Prop :=
  reg = Registry.initial
    ∨ ∃ (prior : RSObjectRefCount.Registry) (TUDecl : List Decl),
        Scope.GetRSRefCountingFunctions X prior TUDecl = .ok reg

/-- A catalog for the examples: it knows `rs_font`, `rs_allocation` and the
2x2 and 3x3 matrices by name; every type is canonical. -/
def sampleCatalog : Catalog where
  GetRSSpecificType := fun T =>
    match T with
    | .Named "rs_font" => DataTypeRSFont
    | .Named "rs_allocation" => DataTypeRSAllocation
    | .Named "rs_matrix2x2" => DataTypeRSMatrix2x2
    | .Named "rs_matrix3x3" => DataTypeRSMatrix3x3
    | _ => DataTypeUnknown
  getCanonicalTypeInternal := fun T => T

/-- The declaration `void rsClearObject(rs_font *)`. -/
def clearFont : FunctionDecl where
  Name := "rsClearObject"
  Params := [⟨.Pointer (.Named "rs_font")⟩]
  Ty := .Function .VoidTy [.Pointer (.Named "rs_font")]
  CallResultType := .VoidTy
  Loc := 11

/-- The declaration `void rsClearObject(rs_allocation *)`. -/
def clearAllocation : FunctionDecl where
  Name := "rsClearObject"
  Params := [⟨.Pointer (.Named "rs_allocation")⟩]
  Ty := .Function .VoidTy [.Pointer (.Named "rs_allocation")]
  CallResultType := .VoidTy
  Loc := 12

/-- The declaration `void rsSetObject(rs_font *, rs_font)`. -/
def setFont : FunctionDecl where
  Name := "rsSetObject"
  Params := [⟨.Pointer (.Named "rs_font")⟩, ⟨.Named "rs_font"⟩]
  Ty := .Function .VoidTy [.Pointer (.Named "rs_font"), .Named "rs_font"]
  CallResultType := .VoidTy
  Loc := 13

/-- A function of another name. -/
def otherFunction : FunctionDecl where
  Name := "root"
  Params := []
  Ty := .Function .IntTy []
  CallResultType := .IntTy
  Loc := 14

/-- A translation unit declaring the four functions above. -/
def sampleTU : List Decl :=
  [.Function setFont, .Function clearFont, .Function otherFunction, .Function clearAllocation]

/-- The tables after the scan of `sampleTU`. -/
def sampleRegistry : Registry :=
  match Scope.GetRSRefCountingFunctions sampleCatalog Registry.initial sampleTU with
  | .ok reg => reg
  | .error _ => Registry.initial

/-- The local `rs_font a;` at address 1. -/
def varA : VarDecl := .mk 1 (.Named "rs_font") 21 none

/-- The local `rs_allocation b;` at address 2. -/
def varB : VarDecl := .mk 2 (.Named "rs_allocation") 22 none

/-- The local `rs_matrix3x3 m;` at address 3. -/
def varM : VarDecl := .mk 3 (.Named "rs_matrix3x3") 23 none

/-- The local `int n;` at address 4. -/
def varN : VarDecl := .mk 4 .IntTy 24 none

/-- The call `rsClearObject(&a)`. -/
def clearA : Stmt :=
  .CallExpr
    (.ImplicitCastExpr (.Pointer clearFont.Ty) .CK_FunctionToPointerDecay
      (.DeclRefExpr (.Function clearFont) 11 clearFont.Ty) .VK_RValue)
    [.UnaryOperator (.DeclRefExpr (.Var 1) 21 (.Named "rs_font")) .UO_AddrOf
      (.Pointer (.Named "rs_font")) 21]
    .VoidTy 0

/-- The call `rsClearObject(&b)`. -/
def clearB : Stmt :=
  .CallExpr
    (.ImplicitCastExpr (.Pointer clearAllocation.Ty) .CK_FunctionToPointerDecay
      (.DeclRefExpr (.Function clearAllocation) 12 clearAllocation.Ty) .VK_RValue)
    [.UnaryOperator (.DeclRefExpr (.Var 2) 22 (.Named "rs_allocation")) .UO_AddrOf
      (.Pointer (.Named "rs_allocation")) 22]
    .VoidTy 0

/-- Some statement that is neither a block, a declaration nor a return. -/
def stmtS (n : Nat) : Stmt := .Other n []

/-- The statement `return 0;`. -/
def returnX : Stmt := .ReturnStmt (some (.IntegerLiteral 0 .IntTy 30))

/-- The invariant on the tracked lists: every variable tracked by a Scope of
the stack has a type that classifies as an object type. -/
def TrackedAreObjects (X : Catalog) (V : RSObjectRefCount) : Prop :=
  ∀ S ∈ V.mScopeStack, ∀ VD ∈ S.mRSO,
    IsRSObjectType (X.GetRSSpecificType (RSExportType.GetTypeOfDecl VD)) = true

/-- The variables declared by a list of declarations, in order. -/
def declaredVars : List Decl → List VarDecl
  | [] => []
  | .Var VD :: rest => VD :: declaredVars rest
  | _ :: rest => declaredVars rest

/-- The stack after the variables `vs` have been added to its current Scope. -/
def addTracked : List Scope → List VarDecl → List Scope
  | [], _ => []
  | S :: rest, vs => { S with mRSO := S.mRSO ++ vs } :: rest

/-- The category the first parameter of `FD` points to, when it is a pointer. -/
def firstParamCategory (X : Catalog) (FD : FunctionDecl) : Option DataType :=
  match FD.getParamDecl 0 with
  | some PVD =>
    match PVD.OriginalType.getPointeeType with
    | some RST => some (X.GetRSSpecificType RST)
    | none => none
  | none => none

/-- A translation unit whose `rsSetObject` and `rsClearObject` declarations are
well-formed: two (respectively one) parameters, the first a pointer to an
object type. -/
def WellFormedTU (X : Catalog) (TUDecl : List Decl) : Prop :=
  ∀ FD, Decl.Function FD ∈ TUDecl →
    (FD.getName = "rsSetObject" → FD.getNumParams = 2
      ∧ ∃ c, firstParamCategory X FD = some c ∧ IsRSObjectType c = true)
    ∧ (FD.getName = "rsClearObject" → FD.getNumParams = 1
      ∧ ∃ c, firstParamCategory X FD = some c ∧ IsRSObjectType c = true)

/-- The table of the registry selected by `sel`. -/
def RSObjectRefCount.Registry.table (reg : RSObjectRefCount.Registry) :
    TableSel → Fin TableSize → Option FunctionDecl
  | .RSSetObjectFD => reg.RSSetObjectFD
  | .RSClearObjectFD => reg.RSClearObjectFD

/-- The name of the functions recorded in the table selected by `sel`. -/
def RSObjectRefCount.TableSel.entryName : TableSel → String
  | .RSSetObjectFD => "rsSetObject"
  | .RSClearObjectFD => "rsClearObject"

/-- The declaration `D` is a function that the scan records in the table
selected by `sel` at the entry of category `c`: it has the name of that table
and its first parameter points to a type of category `c`. -/
def RecordedFor (X : Catalog) (sel : TableSel) (c : DataType) (D : Decl) (FD : FunctionDecl) :
    Prop :=
  D = .Function FD ∧ FD.getName = sel.entryName ∧ firstParamCategory X FD = some c

/-- The visitor `V1` differs from `V` at most by object-typed variables added
to the tracked list of the current Scope, and by Scopes allocated since. -/
def Grows (X : Catalog) (V V1 : RSObjectRefCount) : Prop :=
  ∃ vs : List VarDecl, V1.mScopeStack = addTracked V.mScopeStack vs
    ∧ (∀ v ∈ vs, IsRSObjectType (X.GetRSSpecificType (RSExportType.GetTypeOfDecl v)) = true)
    ∧ V.nextScope ≤ V1.nextScope

/-- The scratch array after `ws` has been written into it: the written slots,
then `k` slots still unwritten. -/
def scratch (ws : List Stmt) (k : Nat) : List (Option Stmt) :=
  ws.map some ++ List.replicate k none

/-- What the clear call of a variable depends on beside its location: the
address of the declaration and the declared type. -/
def clang.VarDecl.sig (v : VarDecl) : Nat × QualType :=
  (v.addr, RSExportType.GetTypeOfDecl v)

/-- The type of the signature classifies as an object type. -/
def objSig (X : Catalog) (p : Nat × QualType) : Bool :=
  IsRSObjectType (X.GetRSSpecificType p.2)

/-- The addresses of the object-typed variables of a list, in order. -/
def objAddrs (X : Catalog) (l : List VarDecl) : List Nat :=
  ((l.map VarDecl.sig).filter (objSig X)).map Prod.fst

mutual
/-- The variables of the declaration statements that `Visit` reaches in `s`:
it goes through blocks and every other statement, but not below an
assignment and not into initializers. -/
def visitedDecls : Stmt → List VarDecl
  | .CompoundStmt body => visitedDeclsList body
  | .DeclStmt decls => declaredVars decls
  | .ReturnStmt RetExpr => visitedDeclsOpt RetExpr
  | .BinaryOperator _ _ .BO_Assign => []
  | .BinaryOperator lhs rhs (.BO_Other _) => visitedDecls lhs ++ visitedDecls rhs
  | .IntegerLiteral _ _ _ => []
  | .FloatingLiteral _ _ _ _ => []
  | .ImplicitCastExpr _ _ op _ => visitedDecls op
  | .InitListExpr _ _ es _ => visitedDeclsList es
  | .DeclRefExpr _ _ _ => []
  | .UnaryOperator input _ _ _ => visitedDecls input
  | .CallExpr fn args _ _ => visitedDecls fn ++ visitedDeclsList args
  | .Other _ children => visitedDeclsOptList children
/-- The variables `Visit` reaches in a list of statements. -/
def visitedDeclsList : List Stmt → List VarDecl
  | [] => []
  | s :: rest => visitedDecls s ++ visitedDeclsList rest
/-- The variables `Visit` reaches in a child that may be null. -/
def visitedDeclsOpt : Option Stmt → List VarDecl
  | none => []
  | some s => visitedDecls s
/-- The variables `Visit` reaches in a list of children that may be null. -/
def visitedDeclsOptList : List (Option Stmt) → List VarDecl
  | [] => []
  | s :: rest => visitedDeclsOpt s ++ visitedDeclsOptList rest
end

mutual
/-- The variables of the declaration statements that `Visit` reaches in `s`
without entering a block: the declarations visited while the Scope that is
current at `s` stays current. -/
def scopeDecls : Stmt → List VarDecl
  | .CompoundStmt _ => []
  | .DeclStmt decls => declaredVars decls
  | .ReturnStmt RetExpr => scopeDeclsOpt RetExpr
  | .BinaryOperator _ _ .BO_Assign => []
  | .BinaryOperator lhs rhs (.BO_Other _) => scopeDecls lhs ++ scopeDecls rhs
  | .IntegerLiteral _ _ _ => []
  | .FloatingLiteral _ _ _ _ => []
  | .ImplicitCastExpr _ _ op _ => scopeDecls op
  | .InitListExpr _ _ es _ => scopeDeclsList es
  | .DeclRefExpr _ _ _ => []
  | .UnaryOperator input _ _ _ => scopeDecls input
  | .CallExpr fn args _ _ => scopeDecls fn ++ scopeDeclsList args
  | .Other _ children => scopeDeclsOptList children
/-- The same for a list of statements. -/
def scopeDeclsList : List Stmt → List VarDecl
  | [] => []
  | s :: rest => scopeDecls s ++ scopeDeclsList rest
/-- The same for a child that may be null. -/
def scopeDeclsOpt : Option Stmt → List VarDecl
  | none => []
  | some s => scopeDecls s
/-- The same for a list of children that may be null. -/
def scopeDeclsOptList : List (Option Stmt) → List VarDecl
  | [] => []
  | s :: rest => scopeDeclsOpt s ++ scopeDeclsOptList rest
end

/-- A `DeclRefExpr` to the variable at address `a`. -/
def isDeclRefVar (a : Nat) : Stmt → Bool
  | .DeclRefExpr (.Var b) _ _ => decide (b = a)
  | _ => false

/-- The address-of operator applied to a reference to the variable at `a`. -/
def isAddrOfVar (a : Nat) : Stmt → Bool
  | .UnaryOperator input .UO_AddrOf _ _ => isDeclRefVar a input
  | _ => false

/-- A `DeclRefExpr` to a function. -/
def isFunctionRef : Stmt → Bool
  | .DeclRefExpr (.Function _) _ _ => true
  | _ => false

/-- A reference to a function under a function-to-pointer decay. -/
def isDecayedFunctionRef : Stmt → Bool
  | .ImplicitCastExpr _ .CK_FunctionToPointerDecay op _ => isFunctionRef op
  | _ => false

/-- The documented shape of a clear call (lines 177-182) on the variable at
address `a`, whatever the function called. -/
def isClearCallOn (a : Nat) : Stmt → Bool
  | .CallExpr fn [arg] _ _ => isDecayedFunctionRef fn && isAddrOfVar a arg
  | _ => false

mutual
/-- The number of clear calls on the variable at address `a` in the whole tree
of `s`, initializers included. -/
def clearCount (a : Nat) : Stmt → Nat
  | .CompoundStmt body => clearCountList a body
  | .DeclStmt decls => clearCountDecls a decls
  | .ReturnStmt RetExpr => clearCountOpt a RetExpr
  | .BinaryOperator lhs rhs _ => clearCount a lhs + clearCount a rhs
  | .IntegerLiteral _ _ _ => 0
  | .FloatingLiteral _ _ _ _ => 0
  | .ImplicitCastExpr _ _ op _ => clearCount a op
  | .InitListExpr _ _ es _ => clearCountList a es
  | .DeclRefExpr _ _ _ => 0
  | .UnaryOperator input _ _ _ => clearCount a input
  | .CallExpr fn args t r =>
    (if isClearCallOn a (.CallExpr fn args t r) then 1 else 0)
      + (clearCount a fn + clearCountList a args)
  | .Other _ children => clearCountOptList a children
/-- The number of clear calls on `a` in a list of statements. -/
def clearCountList (a : Nat) : List Stmt → Nat
  | [] => 0
  | s :: rest => clearCount a s + clearCountList a rest
/-- The number of clear calls on `a` in a child that may be null. -/
def clearCountOpt (a : Nat) : Option Stmt → Nat
  | none => 0
  | some s => clearCount a s
/-- The number of clear calls on `a` in a list of children that may be null. -/
def clearCountOptList (a : Nat) : List (Option Stmt) → Nat
  | [] => 0
  | s :: rest => clearCountOpt a s + clearCountOptList a rest
/-- The number of clear calls on `a` in the initializers of a list of
declarations. -/
def clearCountDecls (a : Nat) : List Decl → Nat
  | [] => 0
  | D :: rest => clearCountDecl a D + clearCountDecls a rest
/-- The number of clear calls on `a` in the initializer of a declaration. -/
def clearCountDecl (a : Nat) : Decl → Nat
  | .Var VD => clearCountVar a VD
  | .Function _ => 0
  | .Other _ => 0
/-- The number of clear calls on `a` in the initializer of a variable. -/
def clearCountVar (a : Nat) : VarDecl → Nat
  | .mk _ _ _ Init => clearCountOpt a Init
end

/-- The Catalog classifies a type as one of the resource categories (matrix or
object) or as no resource, as the spec says of `ClassifyType`. -/
def Catalog.ClassifiesResources (X : Catalog) : Prop :=
  ∀ T, X.GetRSSpecificType T ∈
    [DataTypeUnknown, DataTypeRSMatrix2x2, DataTypeRSMatrix3x3, DataTypeRSMatrix4x4,
      DataTypeRSElement, DataTypeRSType, DataTypeRSAllocation, DataTypeRSSampler,
      DataTypeRSScript, DataTypeRSMesh, DataTypeRSProgramFragment, DataTypeRSProgramVertex,
      DataTypeRSProgramRaster, DataTypeRSProgramStore, DataTypeRSFont]

/-- A clear function is registered for the category of the type `T`, when that
is an object category. -/
def ClearRegistered (X : Catalog) (reg : Registry) (T : QualType) : Prop :=
  ∀ hc : IsRSObjectType (X.GetRSSpecificType T) = true,
    ∃ F, reg.RSClearObjectFD (objectIndex (X.GetRSSpecificType T) hc) = some F

/-- The effect of a visit on the visitor and on the clear calls of the tree.
`scope` are the variables declared while the current Scope stays current,
`visited` all the variables whose declaration is visited, `c0` and `c1` count
the clear calls before and after. The object-typed variables of `scope` are
added to the current Scope; every object-typed variable of `visited` that is
not left to the current Scope has got one more clear call. -/
def VisitResult (X : Catalog) (V V1 : RSObjectRefCount) (scope visited : List VarDecl)
    (c0 c1 : Nat → Nat) : Prop :=
  ∃ vs : List VarDecl, V1.mScopeStack = addTracked V.mScopeStack vs
    ∧ vs.map VarDecl.sig = (scope.map VarDecl.sig).filter (objSig X)
    ∧ V.nextScope ≤ V1.nextScope
    ∧ ∀ a, c1 a + (objAddrs X scope).count a = c0 a + (objAddrs X visited).count a

/-- The claim of a direct declaration: the block with statement list `body`
has among its immediate children a declaration statement that declares the
variable at the address of `v`. -/
def DeclaredDirectlyIn (body : List Stmt) (v : VarDecl) : Prop :=
  ∃ decls, Stmt.DeclStmt decls ∈ body ∧ ∃ VD, Decl.Var VD ∈ decls ∧ VD.addr = v.addr

/-- A statement of another class with a declaration among its children, the
way a `for` statement holds the declaration of its loop variable:
`for (rs_font a; ; ) ;`. -/
def forStmtA : Stmt := .Other 3 [some (.DeclStmt [.Var varA]), none, none, some (stmtS 4)]

/-- The visitor `V1` differs from `V` in its scope stack exactly by the
object-typed variables of `scope`, added to the current Scope. -/
def Tracks (X : Catalog) (V V1 : RSObjectRefCount) (scope : List VarDecl) : Prop :=
  ∃ vs : List VarDecl, V1.mScopeStack = addTracked V.mScopeStack vs
    ∧ vs.map VarDecl.sig = (scope.map VarDecl.sig).filter (objSig X)

/-- The body `{ for (rs_font a; ; ) ; { rs_allocation b; rs_matrix3x3 m; } return 0; }`. -/
def sampleBody : List Stmt :=
  [forStmtA, .CompoundStmt [.DeclStmt [.Var varB, .Var varM]], returnX]

/-- The variable `a` once `InitializeRSObject` has given it the null initializer. -/
def varAInit : VarDecl :=
  .mk 1 (.Named "rs_font") 21
    (some (.InitListExpr (some (.Named "rs_font")) 21
      [.ImplicitCastExpr .NullPtrTy .CK_IntegralToPointer (.IntegerLiteral 0 .IntTy 21)
        .VK_RValue] 21))

/-! ## Part 7. Properties -/

theorem scratch_length (ws : List Stmt) (k : Nat) : (scratch ws k).length = ws.length + k := by
  simp [scratch]

theorem writeStmt_scratch (ws : List Stmt) (k : Nat) (s : Stmt) :
    Scope.writeStmt (scratch ws (k + 1)) ws.length s = .ok (scratch (ws ++ [s]) k, ws.length + 1) := by
  unfold Scope.writeStmt
  rw [if_pos (by rw [scratch_length]; omega)]
  congr 2
  unfold scratch
  rw [List.set_append_right _ _ (by simp)]
  simp [List.replicate_succ]

theorem copyAll_scratch (xs : List Stmt) : ∀ (ws : List Stmt) (k : Nat),
    Scope.copyAll xs (scratch ws (xs.length + k)) ws.length
      = .ok (scratch (ws ++ xs) k, ws.length + xs.length) := by
  induction xs with
  | nil => intro ws k; simp [Scope.copyAll]
  | cons x xs ih =>
    intro ws k
    have h1 : (x :: xs).length + k = (xs.length + k) + 1 := by simp; omega
    rw [h1, Scope.copyAll, writeStmt_scratch]
    have h2 := ih (ws ++ [x]) k
    simp only [List.length_append, List.length_singleton, List.append_assoc,
      List.singleton_append] at h2
    simp only [h2, List.length_cons]
    congr 2
    omega

theorem setStmts_scratch (ws : List Stmt) (k : Nat) :
    Scope.setStmts (scratch ws k) ws.length = .ok ws := by
  induction ws with
  | nil => cases k <;> simp [scratch, Scope.setStmts, List.replicate_succ]
  | cons w ws ih =>
    have h : scratch (w :: ws) k = some w :: scratch ws k := rfl
    rw [h, List.length_cons, Scope.setStmts, ih]

theorem copyUntilReturn_scratch (xs : List Stmt) : ∀ (ws : List Stmt) (k : Nat),
    ∃ P R : List Stmt, xs = P ++ R
      ∧ (∀ s ∈ P, s.getStmtClass ≠ StmtClass.ReturnStmtClass)
      ∧ (∀ r ∈ R.head?, r.getStmtClass = StmtClass.ReturnStmtClass)
      ∧ Scope.copyUntilReturn xs (scratch ws (xs.length + k)) ws.length
          = .ok (R, scratch (ws ++ P) (R.length + k), ws.length + P.length) := by
  induction xs with
  | nil =>
    intro ws k
    exact ⟨[], [], rfl, by simp, by simp, by simp [Scope.copyUntilReturn]⟩
  | cons x xs ih =>
    intro ws k
    by_cases hx : x.getStmtClass = StmtClass.ReturnStmtClass
    · refine ⟨[], x :: xs, rfl, by simp, by simpa using hx, ?_⟩
      simp [Scope.copyUntilReturn, hx]
    · obtain ⟨P, R, hsplit, hP, hR, hrun⟩ := ih (ws ++ [x]) k
      refine ⟨x :: P, R, by simp [hsplit], ?_, hR, ?_⟩
      · intro s hs
        rcases List.mem_cons.mp hs with h | h
        · exact h ▸ hx
        · exact hP s h
      · have h1 : (x :: xs).length + k = (xs.length + k) + 1 := by simp; omega
        rw [h1, Scope.copyUntilReturn, if_neg hx, writeStmt_scratch]
        simp only [List.length_append, List.length_singleton, List.append_assoc,
          List.singleton_append] at hrun
        simp only [hrun, List.length_cons]
        congr 3
        omega

theorem AppendToCompoundStatement_split (L E : List Stmt) :
    ∃ P R : List Stmt, L = P ++ R
      ∧ (∀ s ∈ P, s.getStmtClass ≠ StmtClass.ReturnStmtClass)
      ∧ (∀ r ∈ R.head?, r.getStmtClass = StmtClass.ReturnStmtClass)
      ∧ Scope.AppendToCompoundStatement L E = .ok (P ++ E ++ R) := by
  obtain ⟨P, R, hsplit, hP, hR, hrun⟩ := copyUntilReturn_scratch L [] E.length
  refine ⟨P, R, hsplit, hP, hR, ?_⟩
  have hlen : L.length = P.length + R.length := by rw [hsplit]; simp
  have h2 := copyAll_scratch E P R.length
  have h3 := copyAll_scratch R (P ++ E) 0
  have h4 := setStmts_scratch (P ++ E ++ R) 0
  simp only [List.nil_append, List.length_nil, Nat.zero_add, Nat.add_comm R.length] at hrun
  simp only [Nat.add_zero, List.length_append] at h3 h4
  unfold Scope.AppendToCompoundStatement
  have h0 : scratch [] (L.length + E.length) = List.replicate (L.length + E.length) none := rfl
  rw [h0] at hrun
  simp only [hrun, h2, h3, h4]
  rw [if_pos (by omega)]

/-- C1. `Scope::AppendToCompoundStatement` on a block with statement list `L`
and a list `E` of cleanup calls (non-empty or not) returns normally and sets
the body to `P ++ E ++ R`, where `L = P ++ R`, no statement of `P` is a
`ReturnStmt`, and `R` is empty or starts with a `ReturnStmt`: the calls go
right before the first top-level return; what follows it (later returns
included) stays behind them, and only the class of the top-level statement is
looked at, so a return nested in a child is no insertion point. -/
theorem AppendToCompoundStatement_splice (L E : List Stmt) :
    ∃ P R : List Stmt, L = P ++ R
      ∧ (∀ s ∈ P, s.getStmtClass ≠ StmtClass.ReturnStmtClass)
      ∧ (∀ r ∈ R.head?, r.getStmtClass = StmtClass.ReturnStmtClass)
      ∧ Scope.AppendToCompoundStatement L E = .ok (P ++ E ++ R) :=
  AppendToCompoundStatement_split L E

/-- The block `{ s1; decl a; s2; return X; s3; }` of the specification becomes
`{ s1; decl a; s2; clear(&a); return X; s3; }`. -/
theorem AppendToCompoundStatement_example :
    Scope.AppendToCompoundStatement
        [stmtS 1, .DeclStmt [.Var varA], stmtS 2, returnX, stmtS 3] [clearA]
      = .ok [stmtS 1, .DeclStmt [.Var varA], stmtS 2, clearA, returnX, stmtS 3] := by
  rfl

/-- A return nested in a child statement is not an insertion point, and of two
top-level returns only the first is. -/
theorem AppendToCompoundStatement_nested_example :
    Scope.AppendToCompoundStatement
        [.CompoundStmt [returnX], returnX, returnX] [clearA]
      = .ok [.CompoundStmt [returnX], clearA, returnX, returnX] := by
  rfl

/-! ### The registry -/

theorem objectIndex_injective (DT DT1 : DataType) (h : IsRSObjectType DT = true)
    (h1 : IsRSObjectType DT1 = true) (heq : objectIndex DT h = objectIndex DT1 h1) : DT = DT1 := by
  have hv : Int.toNat (DT.toInt - FirstRSObjectType)
      = Int.toNat (DT1.toInt - FirstRSObjectType) := congrArg Fin.val heq
  clear heq
  cases DT <;> first | (exact absurd h (by decide)) | skip
  all_goals (cases DT1 <;> first | (exact absurd h1 (by decide)) | rfl | (exact absurd hv (by decide)))

theorem resetTables_fold (l : List (Fin TableSize)) :
    ∀ (reg : Registry) (sel : TableSel) (i : Fin TableSize),
      ((l.foldl (fun r j => (r.store .RSSetObjectFD j none).store .RSClearObjectFD j none)
          reg).table sel i)
        = if i ∈ l then none else reg.table sel i := by
  induction l with
  | nil => intro reg sel i; simp
  | cons j l ih =>
    intro reg sel i
    rw [List.foldl_cons, ih]
    by_cases hl : i ∈ l
    · simp [hl]
    · by_cases hij : i = j
      · subst hij
        cases sel <;> simp [Registry.table, Registry.store]
      · cases sel <;> simp [hl, hij, Registry.table, Registry.store, Function.update_noteq hij]

theorem resetTables_table (reg : Registry) (sel : TableSel) (i : Fin TableSize) :
    (Scope.resetTables reg).table sel i = none := by
  unfold Scope.resetTables
  rw [resetTables_fold]
  simp [List.mem_finRange]

theorem store_table_same (reg : Registry) (sel : TableSel) (i : Fin TableSize)
    (v : Option FunctionDecl) : (reg.store sel i v).table sel i = v := by
  cases sel <;> simp [Registry.table, Registry.store]

theorem store_table_other_index (reg : Registry) (sel sel1 : TableSel) (i j : Fin TableSize)
    (v : Option FunctionDecl) (hij : j ≠ i) :
    (reg.store sel i v).table sel1 j = reg.table sel1 j := by
  cases sel <;> cases sel1 <;> simp [Registry.table, Registry.store, Function.update_noteq hij]

theorem store_table_other_sel (reg : Registry) (sel sel1 : TableSel) (i j : Fin TableSize)
    (v : Option FunctionDecl) (hsel : sel1 ≠ sel) :
    (reg.store sel i v).table sel1 j = reg.table sel1 j := by
  cases sel <;> cases sel1 <;> first | (exact absurd rfl hsel) | rfl

theorem recordFD_ok (X : Catalog) (reg : Registry) (sel : TableSel) (FD : FunctionDecl)
    (c : DataType) (hc : IsRSObjectType c = true) (hcat : firstParamCategory X FD = some c) :
    Scope.recordFD X reg sel FD = .ok (reg.store sel (objectIndex c hc) (some FD)) := by
  unfold firstParamCategory at hcat
  unfold Scope.recordFD
  cases hP : FD.getParamDecl 0 with
  | none => rw [hP] at hcat; cases hcat
  | some PVD =>
    rw [hP] at hcat
    simp only at hcat ⊢
    cases hT : PVD.OriginalType with
    | Pointer RST =>
      rw [hT] at hcat
      simp only [QualType.getPointeeType, Option.some.injEq] at hcat
      simp only [QualType.isPointerType, QualType.getPointeeType, if_true]
      subst hcat
      rw [dif_pos hc]
    | IntTy => rw [hT] at hcat; cases hcat
    | FloatTy => rw [hT] at hcat; cases hcat
    | NullPtrTy => rw [hT] at hcat; cases hcat
    | VoidTy => rw [hT] at hcat; cases hcat
    | Named n => rw [hT] at hcat; cases hcat
    | ConstantArray e n => rw [hT] at hcat; cases hcat
    | Function r ps => rw [hT] at hcat; cases hcat

theorem entryName_injective (sel sel1 : TableSel) (h : sel.entryName = sel1.entryName) :
    sel = sel1 := by
  cases sel <;> cases sel1 <;> first | rfl | (exact absurd h (by decide))

theorem visitTopLevelDecl_unnamed (X : Catalog) (reg : Registry) (D : Decl)
    (hD : ∀ FD, D = .Function FD → FD.getName ≠ "rsSetObject" ∧ FD.getName ≠ "rsClearObject") :
    Scope.visitTopLevelDecl X reg D = .ok reg := by
  cases D with
  | Var VD => rfl
  | Other k => rfl
  | Function FD =>
    obtain ⟨h1, h2⟩ := hD FD rfl
    simp only [Scope.visitTopLevelDecl, h1, h2, if_false]

theorem visitTopLevelDecl_named (X : Catalog) (reg : Registry) (sel : TableSel)
    (FD : FunctionDecl) (c : DataType) (hc : IsRSObjectType c = true)
    (hname : FD.getName = sel.entryName)
    (hwf : (FD.getName = "rsSetObject" → FD.getNumParams = 2
        ∧ ∃ c, firstParamCategory X FD = some c ∧ IsRSObjectType c = true)
      ∧ (FD.getName = "rsClearObject" → FD.getNumParams = 1
        ∧ ∃ c, firstParamCategory X FD = some c ∧ IsRSObjectType c = true))
    (hcat : firstParamCategory X FD = some c) :
    Scope.visitTopLevelDecl X reg (.Function FD)
      = .ok (reg.store sel (objectIndex c hc) (some FD)) := by
  cases sel with
  | RSSetObjectFD =>
    have hn : FD.getName = "rsSetObject" := hname
    obtain ⟨hnum, _⟩ := hwf.1 hn
    simp only [Scope.visitTopLevelDecl, hn, hnum, if_true]
    exact recordFD_ok X reg _ FD c hc hcat
  | RSClearObjectFD =>
    have hn : FD.getName = "rsClearObject" := hname
    obtain ⟨hnum, _⟩ := hwf.2 hn
    have hne : ¬ ("rsClearObject" = "rsSetObject") := by decide
    simp only [Scope.visitTopLevelDecl, hn, hnum, if_true, hne, if_false]
    exact recordFD_ok X reg _ FD c hc hcat

/-- One declaration of a well-formed translation unit: the scan goes on, the
entry the declaration is recorded for holds it afterwards, every other entry
is unchanged. -/
theorem visitTopLevelDecl_spec (X : Catalog) (reg : Registry) (D : Decl)
    (hwf : ∀ FD, D = .Function FD →
      (FD.getName = "rsSetObject" → FD.getNumParams = 2
        ∧ ∃ c, firstParamCategory X FD = some c ∧ IsRSObjectType c = true)
      ∧ (FD.getName = "rsClearObject" → FD.getNumParams = 1
        ∧ ∃ c, firstParamCategory X FD = some c ∧ IsRSObjectType c = true)) :
    ∃ reg1, Scope.visitTopLevelDecl X reg D = .ok reg1
      ∧ (∀ sel c (hc : IsRSObjectType c = true) FD, RecordedFor X sel c D FD →
          reg1.table sel (objectIndex c hc) = some FD)
      ∧ (∀ sel c (hc : IsRSObjectType c = true), (¬ ∃ FD, RecordedFor X sel c D FD) →
          reg1.table sel (objectIndex c hc) = reg.table sel (objectIndex c hc)) := by
  by_cases hrec : ∃ sel c FD, RecordedFor X sel c D FD ∧ IsRSObjectType c = true
  · obtain ⟨sel, c, FD, ⟨hD, hname, hcat⟩, hc⟩ := hrec
    subst hD
    refine ⟨_, visitTopLevelDecl_named X reg sel FD c hc hname (hwf FD rfl) hcat, ?_, ?_⟩
    · intro sel1 c1 hc1 FD1 ⟨hD1, hname1, hcat1⟩
      cases hD1
      have hsel : sel1 = sel := entryName_injective _ _ (hname1.symm.trans hname)
      have hcc : c1 = c := Option.some.inj (hcat1.symm.trans hcat)
      subst hsel
      subst hcc
      exact store_table_same _ _ _ _
    · intro sel1 c1 hc1 hno
      by_cases hsel : sel1 = sel
      · subst hsel
        have hcc : c1 ≠ c := by
          intro hcc
          subst hcc
          exact hno ⟨FD, rfl, hname, hcat⟩
        exact store_table_other_index _ _ _ _ _ _
          (fun heq => hcc (objectIndex_injective c1 c hc1 hc heq))
      · exact store_table_other_sel _ _ _ _ _ _ hsel
  · have hun : Scope.visitTopLevelDecl X reg D = .ok reg := by
      apply visitTopLevelDecl_unnamed
      intro FD hD
      constructor
      · intro hn
        obtain ⟨_, c, hcat, hc⟩ := (hwf FD hD).1 hn
        exact hrec ⟨.RSSetObjectFD, c, FD, ⟨hD, hn, hcat⟩, hc⟩
      · intro hn
        obtain ⟨_, c, hcat, hc⟩ := (hwf FD hD).2 hn
        exact hrec ⟨.RSClearObjectFD, c, FD, ⟨hD, hn, hcat⟩, hc⟩
    refine ⟨reg, hun, ?_, fun _ _ _ _ => rfl⟩
    intro sel c hc FD h
    exact absurd ⟨sel, c, FD, h, hc⟩ hrec

theorem visitTopLevelDecls_spec (X : Catalog) (TU : List Decl) :
    ∀ (reg : Registry), WellFormedTU X TU →
      ∃ reg1, Scope.visitTopLevelDecls X reg TU = .ok reg1
        ∧ ∀ sel c (hc : IsRSObjectType c = true),
          (reg1.table sel (objectIndex c hc) = reg.table sel (objectIndex c hc)
              ∧ ¬ ∃ D FD, D ∈ TU ∧ RecordedFor X sel c D FD)
            ∨ ∃ D FD, D ∈ TU ∧ RecordedFor X sel c D FD
                ∧ reg1.table sel (objectIndex c hc) = some FD := by
  induction TU with
  | nil =>
    intro reg _
    exact ⟨reg, rfl, fun sel c hc => Or.inl ⟨rfl, by simp⟩⟩
  | cons D rest ih =>
    intro reg hwf
    have hwfD : ∀ FD, D = .Function FD → _ := fun FD hD => hwf FD (by rw [hD]; simp)
    obtain ⟨reg1, hstep, hrec, hkeep⟩ := visitTopLevelDecl_spec X reg D hwfD
    obtain ⟨reg2, hrun, hspec⟩ := ih reg1 (fun FD hFD => hwf FD (List.mem_cons_of_mem _ hFD))
    refine ⟨reg2, by rw [Scope.visitTopLevelDecls, hstep]; exact hrun, ?_⟩
    intro sel c hc
    rcases hspec sel c hc with ⟨heq, hno⟩ | ⟨D1, FD1, hmem, hrec1, hval⟩
    · by_cases hD : ∃ FD, RecordedFor X sel c D FD
      · obtain ⟨FD, hFD⟩ := hD
        exact Or.inr ⟨D, FD, List.mem_cons_self _ _, hFD, by rw [heq, hrec sel c hc FD hFD]⟩
      · refine Or.inl ⟨by rw [heq, hkeep sel c hc hD], ?_⟩
        rintro ⟨D1, FD1, hmem, hrec1⟩
        rcases List.mem_cons.mp hmem with h | h
        · exact hD ⟨FD1, h ▸ hrec1⟩
        · exact hno ⟨D1, FD1, h, hrec1⟩
    · exact Or.inr ⟨D1, FD1, List.mem_cons_of_mem _ hmem, hrec1, hval⟩

theorem recordFD_inv (X : Catalog) (reg reg1 : Registry) (sel : TableSel) (FD : FunctionDecl)
    (hrun : Scope.recordFD X reg sel FD = .ok reg1) :
    ∃ c, ∃ hc : IsRSObjectType c = true, reg1 = reg.store sel (objectIndex c hc) (some FD) := by
  unfold Scope.recordFD at hrun
  cases hP : FD.getParamDecl 0 with
  | none => rw [hP] at hrun; cases hrun
  | some PVD =>
    rw [hP] at hrun
    simp only at hrun
    by_cases hptr : PVD.OriginalType.isPointerType = true
    · rw [if_pos hptr] at hrun
      cases hpt : PVD.OriginalType.getPointeeType with
      | none => rw [hpt] at hrun; cases hrun
      | some RST =>
        rw [hpt] at hrun
        simp only at hrun
        by_cases hc : IsRSObjectType (X.GetRSSpecificType RST) = true
        · rw [dif_pos hc] at hrun
          cases hrun
          exact ⟨_, hc, rfl⟩
        · rw [dif_neg hc] at hrun
          cases hrun
    · rw [if_neg hptr] at hrun
      cases hrun

/-- What the scan establishes: the recorded declarations have the number of
parameters the scan asserts, whatever the tables held before. -/
theorem GetRSRefCountingFunctions_wellFormed (X : Catalog) (prior reg : Registry)
    (TU : List Decl) (hrun : Scope.GetRSRefCountingFunctions X prior TU = .ok reg) :
    reg.WellFormed := by
  have hstep : ∀ (r r1 : Registry) (D : Decl), r.WellFormed →
      Scope.visitTopLevelDecl X r D = .ok r1 → r1.WellFormed := by
    intro r r1 D hr hD
    have hrec : ∀ (sel : TableSel) (FD : FunctionDecl) (n : Nat),
        FD.getNumParams = n → (sel = .RSSetObjectFD → n = 2) → (sel = .RSClearObjectFD → n = 1) →
        Scope.recordFD X r sel FD = .ok r1 → r1.WellFormed := by
      intro sel FD n hn h2 h1 hrun
      obtain ⟨c, hc, hstore⟩ := recordFD_inv X r r1 sel FD hrun
      rw [hstore]
      cases sel with
      | RSSetObjectFD =>
        refine ⟨fun i F hF => ?_, hr.2⟩
        simp only [Registry.store, Function.update_apply] at hF
        split at hF
        · cases hF; rw [hn]; exact h2 rfl
        · exact hr.1 i F hF
      | RSClearObjectFD =>
        refine ⟨hr.1, fun i F hF => ?_⟩
        simp only [Registry.store, Function.update_apply] at hF
        split at hF
        · cases hF; rw [hn]; exact h1 rfl
        · exact hr.2 i F hF
    cases D with
    | Var VD => cases hD; exact hr
    | Other k => cases hD; exact hr
    | Function FD =>
      simp only [Scope.visitTopLevelDecl] at hD
      split at hD
      · split at hD
        · rename_i hnum
          exact hrec _ FD 2 hnum (fun _ => rfl) (fun h => by cases h) hD
        · cases hD
      · split at hD
        · split at hD
          · rename_i hnum
            exact hrec _ FD 1 hnum (fun h => by cases h) (fun _ => rfl) hD
          · cases hD
        · cases hD; exact hr
  have hloop : ∀ (l : List Decl) (r r1 : Registry), r.WellFormed →
      Scope.visitTopLevelDecls X r l = .ok r1 → r1.WellFormed := by
    intro l
    induction l with
    | nil => intro r r1 hr h; cases h; exact hr
    | cons D rest ih =>
      intro r r1 hr h
      rw [Scope.visitTopLevelDecls] at h
      cases hD : Scope.visitTopLevelDecl X r D with
      | error e => rw [hD] at h; cases h
      | ok r2 =>
        rw [hD] at h
        exact ih r2 r1 (hstep r r2 D hr hD) h
  refine hloop TU _ reg ⟨fun i F hF => ?_, fun i F hF => ?_⟩ hrun
  · have h := resetTables_table prior .RSSetObjectFD i
    simp only [Registry.table] at h
    rw [h] at hF
    cases hF
  · have h := resetTables_table prior .RSClearObjectFD i
    simp only [Registry.table] at h
    rw [h] at hF
    cases hF

theorem Reachable_wellFormed (X : Catalog) (reg : Registry) (hreach : reg.Reachable X) :
    reg.WellFormed := by
  rcases hreach with h | ⟨prior, TU, hrun⟩
  · rw [h]
    exact ⟨fun i F hF => (by cases hF), fun i F hF => (by cases hF)⟩
  · exact GetRSRefCountingFunctions_wellFormed X prior reg TU hrun

/-- C10. On a translation unit whose `rsSetObject` and `rsClearObject`
declarations are well-formed, `GetRSRefCountingFunctions` returns, and for
every object category `c`: the clear-table entry of `c` is null if and only if
no top-level function named `rsClearObject` has a first parameter pointing to a
type of category `c`, and a non-null entry is such a declaration; the same for
`rsSetObject` and the set table. A declaration of another name changes neither
table; an `rsSetObject` declaration leaves the clear table as it is and an
`rsClearObject` declaration the set table. -/
theorem GetRSRefCountingFunctions_tables (X : Catalog) (prior : Registry) (TU : List Decl)
    (hwf : WellFormedTU X TU) :
    ∃ reg, Scope.GetRSRefCountingFunctions X prior TU = .ok reg
      ∧ (∀ c (hc : IsRSObjectType c = true),
          (reg.RSClearObjectFD (objectIndex c hc) = none ↔
            ¬ ∃ FD, Decl.Function FD ∈ TU ∧ FD.getName = "rsClearObject"
              ∧ firstParamCategory X FD = some c)
          ∧ (∀ F, reg.RSClearObjectFD (objectIndex c hc) = some F →
              Decl.Function F ∈ TU ∧ F.getName = "rsClearObject"
                ∧ firstParamCategory X F = some c)
          ∧ (reg.RSSetObjectFD (objectIndex c hc) = none ↔
            ¬ ∃ FD, Decl.Function FD ∈ TU ∧ FD.getName = "rsSetObject"
              ∧ firstParamCategory X FD = some c)
          ∧ (∀ F, reg.RSSetObjectFD (objectIndex c hc) = some F →
              Decl.Function F ∈ TU ∧ F.getName = "rsSetObject"
                ∧ firstParamCategory X F = some c))
      ∧ (∀ reg0 D,
          (∀ FD, D = .Function FD → FD.getName ≠ "rsSetObject" ∧ FD.getName ≠ "rsClearObject") →
          Scope.visitTopLevelDecl X reg0 D = .ok reg0)
      ∧ (∀ reg0 reg1 FD, FD.getName = "rsSetObject" →
          Scope.visitTopLevelDecl X reg0 (.Function FD) = .ok reg1 →
          reg1.RSClearObjectFD = reg0.RSClearObjectFD)
      ∧ (∀ reg0 reg1 FD, FD.getName = "rsClearObject" →
          Scope.visitTopLevelDecl X reg0 (.Function FD) = .ok reg1 →
          reg1.RSSetObjectFD = reg0.RSSetObjectFD) := by
  obtain ⟨reg, hrun, hspec⟩ := visitTopLevelDecls_spec X TU (Scope.resetTables prior) hwf
  have hkey : ∀ (sel : TableSel) c (hc : IsRSObjectType c = true),
      (reg.table sel (objectIndex c hc) = none ↔
        ¬ ∃ FD, Decl.Function FD ∈ TU ∧ FD.getName = sel.entryName
          ∧ firstParamCategory X FD = some c)
      ∧ (∀ F, reg.table sel (objectIndex c hc) = some F →
          Decl.Function F ∈ TU ∧ F.getName = sel.entryName ∧ firstParamCategory X F = some c) := by
    intro sel c hc
    rcases hspec sel c hc with ⟨heq, hno⟩ | ⟨D, FD, hmem, ⟨hD, hname, hcat⟩, hval⟩
    · rw [resetTables_table] at heq
      refine ⟨⟨fun _ => ?_, fun _ => heq⟩, ?_⟩
      · rintro ⟨FD, hmem, hname, hcat⟩
        exact hno ⟨_, FD, hmem, rfl, hname, hcat⟩
      · intro F hF
        rw [heq] at hF
        cases hF
    · subst hD
      refine ⟨⟨fun hnone => ?_, fun hno => ?_⟩, ?_⟩
      · rw [hval] at hnone
        cases hnone
      · exact absurd ⟨FD, hmem, hname, hcat⟩ hno
      · intro F hF
        rw [hval] at hF
        cases hF
        exact ⟨hmem, hname, hcat⟩
  refine ⟨reg, hrun, ?_, ?_, ?_, ?_⟩
  · intro c hc
    exact ⟨(hkey .RSClearObjectFD c hc).1, (hkey .RSClearObjectFD c hc).2,
      (hkey .RSSetObjectFD c hc).1, (hkey .RSSetObjectFD c hc).2⟩
  · intro reg0 D hD
    exact visitTopLevelDecl_unnamed X reg0 D hD
  · intro reg0 reg1 FD hn hstep
    simp only [Scope.visitTopLevelDecl, hn, if_true] at hstep
    split at hstep
    · obtain ⟨c, hc, hstore⟩ := recordFD_inv X reg0 reg1 _ FD hstep
      rw [hstore]
      rfl
    · cases hstep
  · intro reg0 reg1 FD hn hstep
    have hne : ¬ ("rsClearObject" = "rsSetObject") := by decide
    simp only [Scope.visitTopLevelDecl, hn, if_true, hne, if_false] at hstep
    split at hstep
    · obtain ⟨c, hc, hstore⟩ := recordFD_inv X reg0 reg1 _ FD hstep
      rw [hstore]
      rfl
    · cases hstep

theorem sampleTU_wellFormed : WellFormedTU sampleCatalog sampleTU := by
  intro FD hFD
  simp only [sampleTU, List.mem_cons, Decl.Function.injEq, List.mem_singleton,
    List.not_mem_nil, or_false] at hFD
  rcases hFD with h | h | h | h <;> subst h <;>
    refine ⟨fun hn => ?_, fun hn => ?_⟩ <;>
    first
      | exact absurd hn (by decide)
      | exact ⟨rfl, _, rfl, rfl⟩

/-- Witness of C10: the scan of the sample translation unit, from empty tables. -/
theorem GetRSRefCountingFunctions_tables_witness :
    WellFormedTU sampleCatalog sampleTU
    ∧ (∃ reg, Scope.GetRSRefCountingFunctions sampleCatalog Registry.initial sampleTU = .ok reg
        ∧ reg.RSClearObjectFD (objectIndex DataTypeRSFont rfl) = some clearFont
        ∧ reg.RSClearObjectFD (objectIndex DataTypeRSAllocation rfl) = some clearAllocation
        ∧ reg.RSClearObjectFD (objectIndex DataTypeRSMesh rfl) = none
        ∧ reg.RSSetObjectFD (objectIndex DataTypeRSFont rfl) = some setFont
        ∧ reg.RSSetObjectFD (objectIndex DataTypeRSAllocation rfl) = none)
    ∧ ∃ reg, Scope.GetRSRefCountingFunctions sampleCatalog Registry.initial sampleTU = .ok reg
      ∧ (∀ c (hc : IsRSObjectType c = true),
          (reg.RSClearObjectFD (objectIndex c hc) = none ↔
            ¬ ∃ FD, Decl.Function FD ∈ sampleTU ∧ FD.getName = "rsClearObject"
              ∧ firstParamCategory sampleCatalog FD = some c)
          ∧ (∀ F, reg.RSClearObjectFD (objectIndex c hc) = some F →
              Decl.Function F ∈ sampleTU ∧ F.getName = "rsClearObject"
                ∧ firstParamCategory sampleCatalog F = some c)
          ∧ (reg.RSSetObjectFD (objectIndex c hc) = none ↔
            ¬ ∃ FD, Decl.Function FD ∈ sampleTU ∧ FD.getName = "rsSetObject"
              ∧ firstParamCategory sampleCatalog FD = some c)
          ∧ (∀ F, reg.RSSetObjectFD (objectIndex c hc) = some F →
              Decl.Function F ∈ sampleTU ∧ F.getName = "rsSetObject"
                ∧ firstParamCategory sampleCatalog F = some c))
      ∧ (∀ reg0 D,
          (∀ FD, D = .Function FD → FD.getName ≠ "rsSetObject" ∧ FD.getName ≠ "rsClearObject") →
          Scope.visitTopLevelDecl sampleCatalog reg0 D = .ok reg0)
      ∧ (∀ reg0 reg1 FD, FD.getName = "rsSetObject" →
          Scope.visitTopLevelDecl sampleCatalog reg0 (.Function FD) = .ok reg1 →
          reg1.RSClearObjectFD = reg0.RSClearObjectFD)
      ∧ (∀ reg0 reg1 FD, FD.getName = "rsClearObject" →
          Scope.visitTopLevelDecl sampleCatalog reg0 (.Function FD) = .ok reg1 →
          reg1.RSSetObjectFD = reg0.RSSetObjectFD) :=
  ⟨sampleTU_wellFormed, ⟨_, rfl, rfl, rfl, rfl, rfl, rfl⟩,
    GetRSRefCountingFunctions_tables sampleCatalog Registry.initial sampleTU sampleTU_wellFormed⟩

/-! ### The clear call -/

theorem ClearRSObject_ok (X : Catalog) (reg : Registry) (VD : VarDecl) (F : FunctionDecl)
    (P : ParmVarDecl)
    (h : IsRSObjectType (X.GetRSSpecificType (RSExportType.GetTypeOfDecl VD)) = true)
    (hF : reg.RSClearObjectFD (objectIndex (X.GetRSSpecificType (RSExportType.GetTypeOfDecl VD)) h)
      = some F)
    (hP : F.getParamDecl 0 = some P) :
    (Scope.ClearRSObject X reg VD).1 = .ok (some
      (.CallExpr
        (.ImplicitCastExpr (.Pointer F.Ty) .CK_FunctionToPointerDecay
          (.DeclRefExpr (.Function F) F.Loc F.Ty) .VK_RValue)
        [.UnaryOperator
          (.DeclRefExpr (.Var VD.addr) VD.getLocation
            (X.getCanonicalTypeInternal (RSExportType.GetTypeOfDecl VD)))
          .UO_AddrOf P.OriginalType VD.getLocation]
        F.CallResultType 0)) := by
  unfold Scope.ClearRSObject
  simp only [dif_pos h, hF, hP]

theorem getParamDecl_zero_of_numParams (F : FunctionDecl) (n : Nat)
    (h : F.getNumParams = n + 1) : ∃ P, F.getParamDecl 0 = some P := by
  unfold FunctionDecl.getNumParams at h
  unfold FunctionDecl.getParamDecl
  cases hp : F.Params with
  | nil => rw [hp] at h; simp at h
  | cons P rest => exact ⟨P, by simp⟩

/-- C9. For a variable of object category `c` whose clear-table entry is `F`
(with first parameter `P`), `Scope::ClearRSObject` returns the call expression
whose callee is a reference to `F` decayed to a function pointer and whose
argument list is exactly the address-of operator applied to a reference to the
variable, typed as the type of `P`; the entry read is the one of `c` alone,
since no other object category has the index of `c`. -/
theorem ClearRSObject_call_shape (X : Catalog) (reg : Registry) (VD : VarDecl)
    (F : FunctionDecl) (P : ParmVarDecl)
    (h : IsRSObjectType (X.GetRSSpecificType (RSExportType.GetTypeOfDecl VD)) = true)
    (hF : reg.RSClearObjectFD (objectIndex (X.GetRSSpecificType (RSExportType.GetTypeOfDecl VD)) h)
      = some F)
    (hP : F.getParamDecl 0 = some P) :
    (Scope.ClearRSObject X reg VD).1 = .ok (some
      (.CallExpr
        (.ImplicitCastExpr (.Pointer F.Ty) .CK_FunctionToPointerDecay
          (.DeclRefExpr (.Function F) F.Loc F.Ty) .VK_RValue)
        [.UnaryOperator
          (.DeclRefExpr (.Var VD.addr) VD.getLocation
            (X.getCanonicalTypeInternal (RSExportType.GetTypeOfDecl VD)))
          .UO_AddrOf P.OriginalType VD.getLocation]
        F.CallResultType 0))
    ∧ ∀ (c : DataType) (hc : IsRSObjectType c = true),
        c ≠ X.GetRSSpecificType (RSExportType.GetTypeOfDecl VD) →
        objectIndex c hc ≠ objectIndex (X.GetRSSpecificType (RSExportType.GetTypeOfDecl VD)) h :=
  ⟨ClearRSObject_ok X reg VD F P h hF hP,
    fun c hc hne heq => hne (objectIndex_injective c _ hc h heq)⟩

/-- Witness of C9: the clear call of `rs_font a` in the sample registry. -/
theorem ClearRSObject_call_shape_witness :
    (Scope.ClearRSObject sampleCatalog sampleRegistry varA).1 = .ok (some clearA)
    ∧ ∀ (c : DataType) (hc : IsRSObjectType c = true),
        c ≠ DataTypeRSFont → objectIndex c hc ≠ objectIndex DataTypeRSFont rfl :=
  ClearRSObject_call_shape sampleCatalog sampleRegistry varA clearFont
    ⟨.Pointer (.Named "rs_font")⟩ rfl rfl rfl

/-- C8. For every variable and every content the static tables can have
(null everywhere, or left by a scan), `Scope::ClearRSObject` fails if and only
if the type of the variable is not an object type or the clear table has a null
entry for its category; when it fails no node of the call expression has been
created; otherwise it returns a non-null `CallExpr`. -/
theorem ClearRSObject_fails_iff (X : Catalog) (reg : Registry) (VD : VarDecl)
    (hreach : reg.Reachable X) :
    ((∃ e, (Scope.ClearRSObject X reg VD).1 = .error e) ↔
      (IsRSObjectType (X.GetRSSpecificType (RSExportType.GetTypeOfDecl VD)) = false
        ∨ ∃ h : IsRSObjectType (X.GetRSSpecificType (RSExportType.GetTypeOfDecl VD)) = true,
            reg.RSClearObjectFD
              (objectIndex (X.GetRSSpecificType (RSExportType.GetTypeOfDecl VD)) h) = none))
    ∧ ((∃ e, (Scope.ClearRSObject X reg VD).1 = .error e) →
        (Scope.ClearRSObject X reg VD).2 = [])
    ∧ ((¬ ∃ e, (Scope.ClearRSObject X reg VD).1 = .error e) →
        ∃ call, (Scope.ClearRSObject X reg VD).1 = .ok (some call)
          ∧ call.getStmtClass = StmtClass.CallExprClass) := by
  have hwf := Reachable_wellFormed X reg hreach
  by_cases h : IsRSObjectType (X.GetRSSpecificType (RSExportType.GetTypeOfDecl VD)) = true
  · cases hF : reg.RSClearObjectFD
        (objectIndex (X.GetRSSpecificType (RSExportType.GetTypeOfDecl VD)) h) with
    | none =>
      have hrun : Scope.ClearRSObject X reg VD = (.error .ClearObjectNotCovered, []) := by
        unfold Scope.ClearRSObject
        simp only [dif_pos h, hF]
      rw [hrun]
      refine ⟨⟨fun _ => Or.inr ⟨h, hF⟩, fun _ => ⟨_, rfl⟩⟩, fun _ => rfl, ?_⟩
      intro hne
      exact absurd ⟨_, rfl⟩ hne
    | some F =>
      obtain ⟨P, hP⟩ := getParamDecl_zero_of_numParams F 0 (hwf.2 _ F hF)
      have hrun := ClearRSObject_ok X reg VD F P h hF hP
      rw [hrun]
      refine ⟨⟨?_, ?_⟩, ?_, fun _ => ⟨_, rfl, rfl⟩⟩
      · rintro ⟨e, he⟩
        cases he
      · rintro (hfalse | ⟨_, hnone⟩)
        · rw [h] at hfalse
          cases hfalse
        · rw [hF] at hnone
          cases hnone
      · rintro ⟨e, he⟩
        cases he
  · have hrun : Scope.ClearRSObject X reg VD = (.error .ShouldBeRSObject, []) := by
      unfold Scope.ClearRSObject
      simp only [dif_neg h]
    rw [hrun]
    refine ⟨⟨fun _ => Or.inl (by simpa using h), fun _ => ⟨_, rfl⟩⟩, fun _ => rfl, ?_⟩
    intro hne
    exact absurd ⟨_, rfl⟩ hne

theorem sampleRegistry_reachable : sampleRegistry.Reachable sampleCatalog :=
  Or.inr ⟨Registry.initial, sampleTU, rfl⟩

/-- Witness of C8: the `int` local `n` is no RS object, the call fails and has
created nothing. -/
theorem ClearRSObject_fails_iff_witness :
    sampleRegistry.Reachable sampleCatalog
    ∧ ((∃ e, (Scope.ClearRSObject sampleCatalog sampleRegistry varN).1 = .error e) ↔
      (IsRSObjectType (sampleCatalog.GetRSSpecificType (RSExportType.GetTypeOfDecl varN)) = false
        ∨ ∃ h : IsRSObjectType
              (sampleCatalog.GetRSSpecificType (RSExportType.GetTypeOfDecl varN)) = true,
            sampleRegistry.RSClearObjectFD
              (objectIndex (sampleCatalog.GetRSSpecificType (RSExportType.GetTypeOfDecl varN)) h)
              = none))
    ∧ ((∃ e, (Scope.ClearRSObject sampleCatalog sampleRegistry varN).1 = .error e) →
        (Scope.ClearRSObject sampleCatalog sampleRegistry varN).2 = [])
    ∧ ((¬ ∃ e, (Scope.ClearRSObject sampleCatalog sampleRegistry varN).1 = .error e) →
        ∃ call, (Scope.ClearRSObject sampleCatalog sampleRegistry varN).1 = .ok (some call)
          ∧ call.getStmtClass = StmtClass.CallExprClass) :=
  ⟨sampleRegistry_reachable,
    ClearRSObject_fails_iff sampleCatalog sampleRegistry varN sampleRegistry_reachable⟩

/-! ### The destructors of a Scope -/

theorem AppendToCompoundStatement_no_return (L E : List Stmt)
    (hret : ∀ s ∈ L, s.getStmtClass ≠ StmtClass.ReturnStmtClass) :
    Scope.AppendToCompoundStatement L E = .ok (L ++ E) := by
  obtain ⟨P, R, hsplit, _, hR, hrun⟩ := AppendToCompoundStatement_split L E
  cases R with
  | nil => rw [hrun, hsplit]; simp
  | cons r R =>
    have hr : r.getStmtClass = StmtClass.ReturnStmtClass := hR r (by simp)
    exact absurd hr (hret r (by rw [hsplit]; simp))

theorem collectClearCalls_ok (X : Catalog) (reg : Registry) (vs : List VarDecl)
    (hwf : reg.WellFormed)
    (hreg : ∀ v ∈ vs,
      ∃ (h : IsRSObjectType (X.GetRSSpecificType (RSExportType.GetTypeOfDecl v)) = true)
        (F : FunctionDecl),
        reg.RSClearObjectFD (objectIndex (X.GetRSSpecificType (RSExportType.GetTypeOfDecl v)) h)
          = some F) :
    ∃ calls : List Stmt,
      List.Forall₂
        (fun v call =>
          ∃ (h : IsRSObjectType (X.GetRSSpecificType (RSExportType.GetTypeOfDecl v)) = true)
            (F : FunctionDecl),
            reg.RSClearObjectFD
              (objectIndex (X.GetRSSpecificType (RSExportType.GetTypeOfDecl v)) h) = some F
            ∧ IsClearCall F v call) vs calls
      ∧ Scope.collectClearCalls X reg vs = .ok calls := by
  induction vs with
  | nil => exact ⟨[], List.Forall₂.nil, rfl⟩
  | cons v vs ih =>
    obtain ⟨calls, hcalls, hrun⟩ := ih (fun w hw => hreg w (List.mem_cons_of_mem _ hw))
    obtain ⟨h, F, hF⟩ := hreg v (List.mem_cons_self _ _)
    obtain ⟨P, hP⟩ := getParamDecl_zero_of_numParams F 0 (hwf.2 _ F hF)
    obtain ⟨call, hcall, hshape⟩ :
        ∃ call, (Scope.ClearRSObject X reg v).1 = .ok (some call) ∧ IsClearCall F v call :=
      ⟨_, ClearRSObject_ok X reg v F P h hF hP, rfl, rfl⟩
    refine ⟨call :: calls, List.Forall₂.cons ⟨h, F, hF, hshape⟩ hcalls, ?_⟩
    rw [Scope.collectClearCalls, hcall]
    simp only [hrun]

/-- C2. When the block has no top-level return and every tracked variable
`v1..vn` (`n ≥ 1`) is of an object category with a registered clear function
(a non-null entry of the clear table, the table being as a scan leaves it),
`Scope::InsertLocalVarDestructors` sets the body to the old body followed by
exactly `n` calls, the `i`-th being the clear call of `vi` with the clear
function of its category: declaration order, not the reverse. -/
theorem InsertLocalVarDestructors_appends_in_order (X : Catalog) (reg : Registry) (S : Scope)
    (body : List Stmt)
    (hret : ∀ s ∈ body, s.getStmtClass ≠ StmtClass.ReturnStmtClass)
    (hn : 1 ≤ S.mRSO.length)
    (hreach : reg.Reachable X)
    (hreg : ∀ v ∈ S.mRSO,
      ∃ (h : IsRSObjectType (X.GetRSSpecificType (RSExportType.GetTypeOfDecl v)) = true)
        (F : FunctionDecl),
        reg.RSClearObjectFD (objectIndex (X.GetRSSpecificType (RSExportType.GetTypeOfDecl v)) h)
          = some F) :
    ∃ calls : List Stmt,
      calls.length = S.mRSO.length
      ∧ List.Forall₂
        (fun v call =>
          ∃ (h : IsRSObjectType (X.GetRSSpecificType (RSExportType.GetTypeOfDecl v)) = true)
            (F : FunctionDecl),
            reg.RSClearObjectFD
              (objectIndex (X.GetRSSpecificType (RSExportType.GetTypeOfDecl v)) h) = some F
            ∧ IsClearCall F v call) S.mRSO calls
      ∧ S.InsertLocalVarDestructors X reg body = .ok (body ++ calls) := by
  obtain ⟨calls, hcalls, hrun⟩ :=
    collectClearCalls_ok X reg S.mRSO (Reachable_wellFormed X reg hreach) hreg
  have hlen : calls.length = S.mRSO.length := hcalls.length_eq.symm
  refine ⟨calls, hlen, hcalls, ?_⟩
  unfold Scope.InsertLocalVarDestructors
  simp only [hrun]
  rw [if_pos (by omega)]
  exact AppendToCompoundStatement_no_return body calls hret

/-- Witness of C2: a block `{ s1; }` whose Scope tracks `a` then `b` becomes
`{ s1; clear(&a); clear(&b); }`. -/
theorem InsertLocalVarDestructors_appends_in_order_witness :
    Scope.InsertLocalVarDestructors sampleCatalog sampleRegistry ⟨0, [varA, varB]⟩ [stmtS 1]
        = .ok ([stmtS 1] ++ [clearA, clearB])
    ∧ ∃ calls : List Stmt,
      calls.length = [varA, varB].length
      ∧ List.Forall₂
        (fun v call =>
          ∃ (h : IsRSObjectType
                (sampleCatalog.GetRSSpecificType (RSExportType.GetTypeOfDecl v)) = true)
            (F : FunctionDecl),
            sampleRegistry.RSClearObjectFD
              (objectIndex (sampleCatalog.GetRSSpecificType (RSExportType.GetTypeOfDecl v)) h)
              = some F
            ∧ IsClearCall F v call) [varA, varB] calls
      ∧ Scope.InsertLocalVarDestructors sampleCatalog sampleRegistry ⟨0, [varA, varB]⟩ [stmtS 1]
          = .ok ([stmtS 1] ++ calls) :=
  ⟨rfl,
    InsertLocalVarDestructors_appends_in_order sampleCatalog sampleRegistry ⟨0, [varA, varB]⟩
      [stmtS 1]
      (by intro s hs; rw [List.mem_singleton.mp hs]; decide)
      (by decide)
      sampleRegistry_reachable
      (by
        intro v hv
        rcases List.mem_cons.mp hv with h | h
        · rw [h]; exact ⟨rfl, clearFont, rfl⟩
        · rw [List.mem_singleton.mp h]; exact ⟨rfl, clearAllocation, rfl⟩)⟩

/-! ### Zero initializers -/

/-- C3. For a variable without initializer whose type classifies as one of the
eleven object categories, `InitializeRSObject` returns `true` and sets the
initializer to a one-element initializer list (typed with the canonical type of
the variable) that wraps the integer literal 0 cast to the null-pointer type,
the same shape for every category. -/
theorem InitializeRSObject_object_zero_init (X : Catalog) (VD : VarDecl)
    (hcat : X.GetRSSpecificType (RSExportType.GetTypeOfDecl VD) ∈
      [DataTypeRSElement, DataTypeRSType, DataTypeRSAllocation, DataTypeRSSampler,
        DataTypeRSScript, DataTypeRSMesh, DataTypeRSProgramFragment, DataTypeRSProgramVertex,
        DataTypeRSProgramRaster, DataTypeRSProgramStore, DataTypeRSFont])
    (hinit : VD.hasInit = false) :
    InitializeRSObject X VD = .ok (true,
      VD.setInit
        (.InitListExpr (some (X.getCanonicalTypeInternal (RSExportType.GetTypeOfDecl VD)))
          VD.getLocation
          [.ImplicitCastExpr .NullPtrTy .CK_IntegralToPointer
            (.IntegerLiteral 0 .IntTy VD.getLocation) .VK_RValue]
          VD.getLocation)) := by
  unfold InitializeRSObject
  simp only [List.mem_cons, List.mem_singleton, List.not_mem_nil, or_false] at hcat
  rcases hcat with h | h | h | h | h | h | h | h | h | h | h <;>
    simp [h, hinit, CreateZeroInitializerForRSSpecificType, Stmt.setType, IsRSObjectType,
      FirstRSObjectType, LastRSObjectType, DataType.toInt]

/-- Witness of C3: `rs_font a;` gets the null initializer. -/
theorem InitializeRSObject_object_zero_init_witness :
    InitializeRSObject sampleCatalog varA = .ok (true,
      .mk 1 (.Named "rs_font") 21
        (some (.InitListExpr (some (.Named "rs_font")) 21
          [.ImplicitCastExpr .NullPtrTy .CK_IntegralToPointer (.IntegerLiteral 0 .IntTy 21)
            .VK_RValue] 21))) :=
  InitializeRSObject_object_zero_init sampleCatalog varA (by decide) rfl

/-- C4. A variable that already has an initializer keeps it, whatever its
category; only the returned flag depends on the category (it tells whether the
category is an object category). -/
theorem InitializeRSObject_keeps_explicit_init (X : Catalog) (VD : VarDecl)
    (hinit : VD.hasInit = true) :
    InitializeRSObject X VD
      = .ok (IsRSObjectType (X.GetRSSpecificType (RSExportType.GetTypeOfDecl VD)), VD) := by
  unfold InitializeRSObject
  by_cases h : X.GetRSSpecificType (RSExportType.GetTypeOfDecl VD) = DataTypeUnknown
  · simp only [h, if_true]
    rfl
  · simp only [h, if_false, hinit, if_true]

/-- Witness of C4: `rs_font a = <expr>;` is left alone and is tracked. -/
theorem InitializeRSObject_keeps_explicit_init_witness :
    InitializeRSObject sampleCatalog (.mk 1 (.Named "rs_font") 21 (some (stmtS 9)))
      = .ok (true, .mk 1 (.Named "rs_font") 21 (some (stmtS 9))) :=
  InitializeRSObject_keeps_explicit_init sampleCatalog
    (.mk 1 (.Named "rs_font") 21 (some (stmtS 9))) rfl

/-- C5. For the matrix category of dimension `N` (2x2, 3x3, 4x4),
`CreateZeroInitializerForRSSpecificType` returns an initializer list with
exactly one element, itself an initializer list of exactly `N * N` floating
zero literals. -/
theorem CreateZeroInitializer_matrix (DT : DataType) (N : Nat) (Loc : SourceLocation)
    (hcat : (DT, N) ∈ [(DataTypeRSMatrix2x2, 2), (DataTypeRSMatrix3x3, 3),
      (DataTypeRSMatrix4x4, 4)]) :
    ∃ (T : Option QualType) (elems : List Stmt),
      CreateZeroInitializerForRSSpecificType DT Loc
          = .ok (some (.InitListExpr none Loc [.InitListExpr T Loc elems Loc] Loc))
      ∧ elems.length = N * N
      ∧ elems = List.replicate (N * N) (.FloatingLiteral 0 true .FloatTy Loc) := by
  simp only [List.mem_cons, List.mem_singleton, List.not_mem_nil, or_false, Prod.mk.injEq] at hcat
  rcases hcat with ⟨h, hN⟩ | ⟨h, hN⟩ | ⟨h, hN⟩ <;> subst h <;> subst hN <;>
    exact ⟨_, _, rfl, rfl, rfl⟩

/-- Witness of C5: the 3x3 matrix gets nine zero literals. -/
theorem CreateZeroInitializer_matrix_witness :
    ∃ (T : Option QualType) (elems : List Stmt),
      CreateZeroInitializerForRSSpecificType DataTypeRSMatrix3x3 7
          = .ok (some (.InitListExpr none 7 [.InitListExpr T 7 elems 7] 7))
      ∧ elems.length = 3 * 3
      ∧ elems = List.replicate (3 * 3) (.FloatingLiteral 0 true .FloatTy 7) :=
  CreateZeroInitializer_matrix DataTypeRSMatrix3x3 3 7 (by decide)

/-! ### The traversal -/

/-- C7. On a compound statement with an empty body `VisitCompoundStmt` returns
with the visitor (its scope stack and its Scope allocator) and the statement
unchanged: no Scope is pushed and no child is visited. -/
theorem VisitCompoundStmt_empty (X : Catalog) (reg : Registry) (V : RSObjectRefCount) :
    VisitCompoundStmt X reg V [] = .ok (V, .CompoundStmt []) := by
  unfold VisitCompoundStmt
  rw [Visit]
  rfl

theorem InitializeRSObject_flag (X : Catalog) (VD VD1 : VarDecl) (b : Bool)
    (hrun : InitializeRSObject X VD = .ok (b, VD1)) :
    b = IsRSObjectType (X.GetRSSpecificType (RSExportType.GetTypeOfDecl VD))
    ∧ RSExportType.GetTypeOfDecl VD1 = RSExportType.GetTypeOfDecl VD := by
  unfold InitializeRSObject at hrun
  by_cases h : X.GetRSSpecificType (RSExportType.GetTypeOfDecl VD) = DataTypeUnknown
  · simp only [h, if_true, Except.ok.injEq, Prod.mk.injEq] at hrun
    rw [h, ← hrun.1, ← hrun.2]
    exact ⟨rfl, rfl⟩
  · simp only [h, if_false] at hrun
    split at hrun
    · simp only [Except.ok.injEq, Prod.mk.injEq] at hrun
      rw [← hrun.1, ← hrun.2]
      exact ⟨rfl, rfl⟩
    · split at hrun
      · cases hrun
      · simp only [Except.ok.injEq, Prod.mk.injEq] at hrun
        rw [← hrun.1, ← hrun.2]
        exact ⟨rfl, rfl⟩
      · simp only [Except.ok.injEq, Prod.mk.injEq] at hrun
        rw [← hrun.1, ← hrun.2]
        refine ⟨rfl, ?_⟩
        cases VD
        rfl

theorem addTracked_nil (st : List Scope) : addTracked st [] = st := by
  cases st with
  | nil => rfl
  | cons S rest => simp [addTracked]

theorem addTracked_addTracked (st : List Scope) (vs ws : List VarDecl) :
    addTracked (addTracked st vs) ws = addTracked st (vs ++ ws) := by
  cases st with
  | nil => rfl
  | cons S rest => simp [addTracked]

theorem addToCurrentScope_ok (V V1 : RSObjectRefCount) (VD : VarDecl)
    (hrun : addToCurrentScope V VD = .ok V1) :
    V1.mScopeStack = addTracked V.mScopeStack [VD] ∧ V1.nextScope = V.nextScope := by
  unfold addToCurrentScope at hrun
  split at hrun
  · cases hrun
  · rename_i S rest hst
    cases hrun
    simp [hst, addTracked, Scope.addRSObject]

theorem visitDecl_spec (X : Catalog) (V V1 : RSObjectRefCount) (D D1 : Decl)
    (hrun : visitDecl X V D = .ok (V1, D1)) :
    V1.mScopeStack = addTracked V.mScopeStack
        ((declaredVars [D1]).filter
          (fun VD => IsRSObjectType (X.GetRSSpecificType (RSExportType.GetTypeOfDecl VD))))
      ∧ V1.nextScope = V.nextScope := by
  cases D with
  | Var VD =>
    rw [visitDecl] at hrun
    cases hinit : InitializeRSObject X VD with
    | error e => rw [hinit] at hrun; cases hrun
    | ok r =>
      obtain ⟨tracked, VD1⟩ := r
      obtain ⟨hflag, hty⟩ := InitializeRSObject_flag X VD VD1 tracked hinit
      rw [hinit] at hrun
      simp only at hrun
      cases htr : tracked with
      | false =>
        rw [htr] at hrun hflag
        simp only [Bool.false_eq_true, if_false, Except.ok.injEq, Prod.mk.injEq] at hrun
        rw [← hrun.1, ← hrun.2]
        simp only [declaredVars]
        rw [List.filter_cons_of_neg (by rw [hty, ← hflag]; simp)]
        exact ⟨(addTracked_nil _).symm, trivial⟩
      | true =>
        rw [htr] at hrun hflag
        simp only [if_true] at hrun
        cases hadd : addToCurrentScope V VD1 with
        | error e => rw [hadd] at hrun; cases hrun
        | ok V2 =>
          rw [hadd] at hrun
          simp only [Except.ok.injEq, Prod.mk.injEq] at hrun
          obtain ⟨hst2, hnext2⟩ := addToCurrentScope_ok V V2 VD1 hadd
          rw [← hrun.1, ← hrun.2]
          simp only [declaredVars]
          rw [List.filter_cons_of_pos (by rw [hty, ← hflag])]
          exact ⟨hst2, hnext2⟩
  | Function FD =>
    simp only [visitDecl, Except.ok.injEq, Prod.mk.injEq] at hrun
    rw [← hrun.1, ← hrun.2]
    exact ⟨(addTracked_nil _).symm, rfl⟩
  | Other k =>
    simp only [visitDecl, Except.ok.injEq, Prod.mk.injEq] at hrun
    rw [← hrun.1, ← hrun.2]
    exact ⟨(addTracked_nil _).symm, rfl⟩

theorem declaredVars_cons (D : Decl) (rest : List Decl) :
    declaredVars (D :: rest) = declaredVars [D] ++ declaredVars rest := by
  cases D <;> rfl

theorem visitDecls_spec (X : Catalog) (decls : List Decl) :
    ∀ (V V1 : RSObjectRefCount) (decls1 : List Decl),
      visitDecls X V decls = .ok (V1, decls1) →
      V1.mScopeStack = addTracked V.mScopeStack
          ((declaredVars decls1).filter
            (fun VD => IsRSObjectType (X.GetRSSpecificType (RSExportType.GetTypeOfDecl VD))))
        ∧ V1.nextScope = V.nextScope := by
  induction decls with
  | nil =>
    intro V V1 decls1 hrun
    simp only [visitDecls, Except.ok.injEq, Prod.mk.injEq] at hrun
    rw [← hrun.1, ← hrun.2]
    simp [declaredVars, addTracked_nil]
  | cons D rest ih =>
    intro V V1 decls1 hrun
    rw [visitDecls] at hrun
    cases hD : visitDecl X V D with
    | error e => rw [hD] at hrun; cases hrun
    | ok r =>
      obtain ⟨V2, D1⟩ := r
      rw [hD] at hrun
      simp only at hrun
      cases hrest : visitDecls X V2 rest with
      | error e => rw [hrest] at hrun; cases hrun
      | ok r2 =>
        obtain ⟨V3, rest1⟩ := r2
        rw [hrest] at hrun
        simp only [Except.ok.injEq, Prod.mk.injEq] at hrun
        obtain ⟨hst, hnext⟩ := ih V2 V3 rest1 hrest
        obtain ⟨hst2, hnext2⟩ := visitDecl_spec X V V2 D D1 hD
        rw [← hrun.1, ← hrun.2, declaredVars_cons, List.filter_append, ← addTracked_addTracked,
          ← hst2, ← hst, hnext, hnext2]
        exact ⟨rfl, rfl⟩

theorem Grows.refl (X : Catalog) (V : RSObjectRefCount) : Grows X V V :=
  ⟨[], (addTracked_nil _).symm, by simp, Nat.le_refl _⟩

theorem Grows.trans {X : Catalog} {V V1 V2 : RSObjectRefCount} (h1 : Grows X V V1)
    (h2 : Grows X V1 V2) : Grows X V V2 := by
  obtain ⟨vs, hst, hobj, hn⟩ := h1
  obtain ⟨ws, hst2, hobj2, hn2⟩ := h2
  refine ⟨vs ++ ws, by rw [hst2, hst, addTracked_addTracked], ?_, Nat.le_trans hn hn2⟩
  intro v hv
  rcases List.mem_append.mp hv with h | h
  · exact hobj v h
  · exact hobj2 v h

theorem VisitDeclStmt_grows (X : Catalog) (V V1 : RSObjectRefCount) (decls decls1 : List Decl)
    (hrun : VisitDeclStmt X V decls = .ok (V1, decls1)) : Grows X V V1 := by
  obtain ⟨hst, hn⟩ := visitDecls_spec X decls V V1 decls1 hrun
  refine ⟨_, hst, ?_, by rw [hn]⟩
  intro v hv
  exact (List.mem_filter.mp hv).2

theorem popScope_spec (X : Catalog) (reg : Registry) (V V1 V2 : RSObjectRefCount)
    (body1 body2 : List Stmt) (hgrow : Grows X (pushScope V).2 V1)
    (hrun : popScope X reg (pushScope V).1 V1 body1 = .ok (V2, body2)) :
    V2.mScopeStack = V.mScopeStack ∧ V2.nextScope = V1.nextScope := by
  obtain ⟨vs, hst, _, _⟩ := hgrow
  simp only [pushScope, addTracked] at hst
  unfold popScope at hrun
  rw [hst] at hrun
  simp only [pushScope, if_true] at hrun
  split at hrun
  · cases hrun
  · simp only [Except.ok.injEq, Prod.mk.injEq] at hrun
    rw [← hrun.1]
    exact ⟨rfl, rfl⟩

mutual
theorem Visit_grows (X : Catalog) (reg : Registry) :
    ∀ (s : Stmt) (V V1 : RSObjectRefCount) (s1 : Stmt),
      Visit X reg V s = .ok (V1, s1) → Grows X V V1
  | .CompoundStmt body, V, V1, s1, hrun => by
    rw [Visit] at hrun
    split at hrun
    · simp only [Except.ok.injEq, Prod.mk.injEq] at hrun
      rw [← hrun.1]
      exact Grows.refl X V
    · cases hch : VisitChildren X reg (pushScope V).2 body with
      | error e => rw [hch] at hrun; cases hrun
      | ok r =>
        obtain ⟨V2, body1⟩ := r
        rw [hch] at hrun
        simp only at hrun
        have hg := VisitChildren_grows X reg body (pushScope V).2 V2 body1 hch
        cases hpop : popScope X reg (pushScope V).1 V2 body1 with
        | error e => rw [hpop] at hrun; cases hrun
        | ok r2 =>
          obtain ⟨V3, body2⟩ := r2
          rw [hpop] at hrun
          simp only [Except.ok.injEq, Prod.mk.injEq] at hrun
          obtain ⟨hst, hn⟩ := popScope_spec X reg V V2 V3 body1 body2 hg hpop
          rw [← hrun.1]
          obtain ⟨_, _, _, hle⟩ := hg
          refine ⟨[], by rw [hst, addTracked_nil], by simp, ?_⟩
          rw [hn]
          exact Nat.le_trans (Nat.le_succ _) hle
  | .DeclStmt decls, V, V1, s1, hrun => by
    rw [Visit] at hrun
    cases hd : VisitDeclStmt X V decls with
    | error e => rw [hd] at hrun; cases hrun
    | ok r =>
      obtain ⟨V2, decls1⟩ := r
      rw [hd] at hrun
      simp only [Except.ok.injEq, Prod.mk.injEq] at hrun
      rw [← hrun.1]
      exact VisitDeclStmt_grows X V V2 decls decls1 hd
  | .BinaryOperator lhs rhs .BO_Assign, V, V1, s1, hrun => by
    simp only [Visit, Except.ok.injEq, Prod.mk.injEq] at hrun
    rw [← hrun.1]
    exact Grows.refl X V
  | .BinaryOperator lhs rhs (.BO_Other k), V, V1, s1, hrun => by
    rw [Visit] at hrun
    cases h1 : Visit X reg V lhs with
    | error e => rw [h1] at hrun; cases hrun
    | ok r =>
      obtain ⟨V2, lhs1⟩ := r
      rw [h1] at hrun
      simp only at hrun
      cases h2 : Visit X reg V2 rhs with
      | error e => rw [h2] at hrun; cases hrun
      | ok r2 =>
        obtain ⟨V3, rhs1⟩ := r2
        rw [h2] at hrun
        simp only [Except.ok.injEq, Prod.mk.injEq] at hrun
        rw [← hrun.1]
        exact (Visit_grows X reg lhs V V2 lhs1 h1).trans (Visit_grows X reg rhs V2 V3 rhs1 h2)
  | .ReturnStmt RetExpr, V, V1, s1, hrun => by
    rw [Visit] at hrun
    cases h1 : VisitChild X reg V RetExpr with
    | error e => rw [h1] at hrun; cases hrun
    | ok r =>
      obtain ⟨V2, r1⟩ := r
      rw [h1] at hrun
      simp only [Except.ok.injEq, Prod.mk.injEq] at hrun
      rw [← hrun.1]
      exact VisitChild_grows X reg RetExpr V V2 r1 h1
  | .IntegerLiteral v T l, V, V1, s1, hrun => by
    simp only [Visit, Except.ok.injEq, Prod.mk.injEq] at hrun
    rw [← hrun.1]
    exact Grows.refl X V
  | .FloatingLiteral v e T l, V, V1, s1, hrun => by
    simp only [Visit, Except.ok.injEq, Prod.mk.injEq] at hrun
    rw [← hrun.1]
    exact Grows.refl X V
  | .ImplicitCastExpr T k op c, V, V1, s1, hrun => by
    rw [Visit] at hrun
    cases h1 : Visit X reg V op with
    | error e => rw [h1] at hrun; cases hrun
    | ok r =>
      obtain ⟨V2, op1⟩ := r
      rw [h1] at hrun
      simp only [Except.ok.injEq, Prod.mk.injEq] at hrun
      rw [← hrun.1]
      exact Visit_grows X reg op V V2 op1 h1
  | .InitListExpr T l es r, V, V1, s1, hrun => by
    rw [Visit] at hrun
    cases h1 : VisitChildren X reg V es with
    | error e => rw [h1] at hrun; cases hrun
    | ok r =>
      obtain ⟨V2, es1⟩ := r
      rw [h1] at hrun
      simp only [Except.ok.injEq, Prod.mk.injEq] at hrun
      rw [← hrun.1]
      exact VisitChildren_grows X reg es V V2 es1 h1
  | .DeclRefExpr D l T, V, V1, s1, hrun => by
    simp only [Visit, Except.ok.injEq, Prod.mk.injEq] at hrun
    rw [← hrun.1]
    exact Grows.refl X V
  | .UnaryOperator input opc T l, V, V1, s1, hrun => by
    rw [Visit] at hrun
    cases h1 : Visit X reg V input with
    | error e => rw [h1] at hrun; cases hrun
    | ok r =>
      obtain ⟨V2, op1⟩ := r
      rw [h1] at hrun
      simp only [Except.ok.injEq, Prod.mk.injEq] at hrun
      rw [← hrun.1]
      exact Visit_grows X reg input V V2 op1 h1
  | .CallExpr fn args t r, V, V1, s1, hrun => by
    rw [Visit] at hrun
    cases h1 : Visit X reg V fn with
    | error e => rw [h1] at hrun; cases hrun
    | ok r =>
      obtain ⟨V2, fn1⟩ := r
      rw [h1] at hrun
      simp only at hrun
      cases h2 : VisitChildren X reg V2 args with
      | error e => rw [h2] at hrun; cases hrun
      | ok r2 =>
        obtain ⟨V3, args1⟩ := r2
        rw [h2] at hrun
        simp only [Except.ok.injEq, Prod.mk.injEq] at hrun
        rw [← hrun.1]
        exact (Visit_grows X reg fn V V2 fn1 h1).trans
          (VisitChildren_grows X reg args V2 V3 args1 h2)
  | .Other cls children, V, V1, s1, hrun => by
    rw [Visit] at hrun
    cases h1 : VisitOptChildren X reg V children with
    | error e => rw [h1] at hrun; cases hrun
    | ok r =>
      obtain ⟨V2, cs1⟩ := r
      rw [h1] at hrun
      simp only [Except.ok.injEq, Prod.mk.injEq] at hrun
      rw [← hrun.1]
      exact VisitOptChildren_grows X reg children V V2 cs1 h1
theorem VisitChildren_grows (X : Catalog) (reg : Registry) :
    ∀ (l : List Stmt) (V V1 : RSObjectRefCount) (l1 : List Stmt),
      VisitChildren X reg V l = .ok (V1, l1) → Grows X V V1
  | [], V, V1, l1, hrun => by
    simp only [VisitChildren, Except.ok.injEq, Prod.mk.injEq] at hrun
    rw [← hrun.1]
    exact Grows.refl X V
  | Child :: rest, V, V1, l1, hrun => by
    rw [VisitChildren] at hrun
    cases h1 : Visit X reg V Child with
    | error e => rw [h1] at hrun; cases hrun
    | ok r =>
      obtain ⟨V2, c1⟩ := r
      rw [h1] at hrun
      simp only at hrun
      cases h2 : VisitChildren X reg V2 rest with
      | error e => rw [h2] at hrun; cases hrun
      | ok r2 =>
        obtain ⟨V3, rest1⟩ := r2
        rw [h2] at hrun
        simp only [Except.ok.injEq, Prod.mk.injEq] at hrun
        rw [← hrun.1]
        exact (Visit_grows X reg Child V V2 c1 h1).trans
          (VisitChildren_grows X reg rest V2 V3 rest1 h2)
theorem VisitChild_grows (X : Catalog) (reg : Registry) :
    ∀ (c : Option Stmt) (V V1 : RSObjectRefCount) (c1 : Option Stmt),
      VisitChild X reg V c = .ok (V1, c1) → Grows X V V1
  | none, V, V1, c1, hrun => by
    simp only [VisitChild, Except.ok.injEq, Prod.mk.injEq] at hrun
    rw [← hrun.1]
    exact Grows.refl X V
  | some Child, V, V1, c1, hrun => by
    rw [VisitChild] at hrun
    cases h1 : Visit X reg V Child with
    | error e => rw [h1] at hrun; cases hrun
    | ok r =>
      obtain ⟨V2, c2⟩ := r
      rw [h1] at hrun
      simp only [Except.ok.injEq, Prod.mk.injEq] at hrun
      rw [← hrun.1]
      exact Visit_grows X reg Child V V2 c2 h1
theorem VisitOptChildren_grows (X : Catalog) (reg : Registry) :
    ∀ (l : List (Option Stmt)) (V V1 : RSObjectRefCount) (l1 : List (Option Stmt)),
      VisitOptChildren X reg V l = .ok (V1, l1) → Grows X V V1
  | [], V, V1, l1, hrun => by
    simp only [VisitOptChildren, Except.ok.injEq, Prod.mk.injEq] at hrun
    rw [← hrun.1]
    exact Grows.refl X V
  | Child :: rest, V, V1, l1, hrun => by
    rw [VisitOptChildren] at hrun
    cases h1 : VisitChild X reg V Child with
    | error e => rw [h1] at hrun; cases hrun
    | ok r =>
      obtain ⟨V2, c1⟩ := r
      rw [h1] at hrun
      simp only at hrun
      cases h2 : VisitOptChildren X reg V2 rest with
      | error e => rw [h2] at hrun; cases hrun
      | ok r2 =>
        obtain ⟨V3, rest1⟩ := r2
        rw [h2] at hrun
        simp only [Except.ok.injEq, Prod.mk.injEq] at hrun
        rw [← hrun.1]
        exact (VisitChild_grows X reg Child V V2 c1 h1).trans
          (VisitOptChildren_grows X reg rest V2 V3 rest1 h2)
end

theorem TrackedAreObjects_of_grows (X : Catalog) (V V1 : RSObjectRefCount)
    (hInv : TrackedAreObjects X V) (hg : Grows X V V1) : TrackedAreObjects X V1 := by
  obtain ⟨vs, hst, hobj, _⟩ := hg
  intro S hS VD hVD
  rw [hst] at hS
  cases hstack : V.mScopeStack with
  | nil => rw [hstack] at hS; simp [addTracked] at hS
  | cons S0 rest =>
    rw [hstack] at hS
    simp only [addTracked, List.mem_cons] at hS
    rcases hS with h | h
    · rw [h] at hVD
      rcases List.mem_append.mp hVD with h1 | h1
      · exact hInv S0 (by rw [hstack]; simp) VD h1
      · exact hobj VD h1
    · exact hInv S (by rw [hstack]; simp [h]) VD hVD

/-- C6. The tracked lists hold object-typed variables only, and this is kept by
the visit of any statement: if every tracked variable of the stack has an
object type before `Visit`, so it is afterwards. On a declaration statement
the variables added to the current Scope are exactly the declared variables
whose category is in the object range, which is exactly when
`InitializeRSObject` returns `true`; so no tracked variable is of a matrix
category or of no category. -/
theorem tracked_variables_are_objects (X : Catalog) (reg : Registry) (V V1 : RSObjectRefCount)
    (s s1 : Stmt) (hInv : TrackedAreObjects X V) (hrun : Visit X reg V s = .ok (V1, s1)) :
    TrackedAreObjects X V1
    ∧ (∀ decls, s = .DeclStmt decls →
        ∃ decls1, s1 = .DeclStmt decls1
          ∧ V1.mScopeStack = addTracked V.mScopeStack
              ((declaredVars decls1).filter
                (fun VD => IsRSObjectType (X.GetRSSpecificType (RSExportType.GetTypeOfDecl VD)))))
    ∧ (∀ VD b VD1, InitializeRSObject X VD = .ok (b, VD1) →
        (b = true ↔ IsRSObjectType (X.GetRSSpecificType (RSExportType.GetTypeOfDecl VD)) = true))
    ∧ (∀ S ∈ V1.mScopeStack, ∀ VD ∈ S.mRSO,
        X.GetRSSpecificType (RSExportType.GetTypeOfDecl VD) ∉
          [DataTypeRSMatrix2x2, DataTypeRSMatrix3x3, DataTypeRSMatrix4x4, DataTypeUnknown]) := by
  have hInv1 := TrackedAreObjects_of_grows X V V1 hInv (Visit_grows X reg s V V1 s1 hrun)
  refine ⟨hInv1, ?_, ?_, ?_⟩
  · intro decls hs
    rw [hs, Visit] at hrun
    cases hd : VisitDeclStmt X V decls with
    | error e => rw [hd] at hrun; cases hrun
    | ok r =>
      obtain ⟨V2, decls1⟩ := r
      rw [hd] at hrun
      simp only [Except.ok.injEq, Prod.mk.injEq] at hrun
      refine ⟨decls1, hrun.2.symm, ?_⟩
      rw [← hrun.1]
      exact (visitDecls_spec X decls V V2 decls1 hd).1
  · intro VD b VD1 hinit
    rw [(InitializeRSObject_flag X VD VD1 b hinit).1]
  · intro S hS VD hVD hmem
    have hobj := hInv1 S hS VD hVD
    simp only [List.mem_cons, List.mem_singleton, List.not_mem_nil, or_false] at hmem
    rcases hmem with h | h | h | h <;> rw [h] at hobj <;> exact absurd hobj (by decide)

/-- Witness of C6: of `rs_font a; rs_matrix3x3 m; int n;` only `a` is tracked. -/
theorem tracked_variables_are_objects_witness :
    Visit sampleCatalog Registry.initial ⟨[⟨0, []⟩], 1⟩
        (.DeclStmt [.Var varA, .Var varM, .Var varN])
      = .ok (⟨[⟨0, [.mk 1 (.Named "rs_font") 21
          (some (.InitListExpr (some (.Named "rs_font")) 21
            [.ImplicitCastExpr .NullPtrTy .CK_IntegralToPointer (.IntegerLiteral 0 .IntTy 21)
              .VK_RValue] 21))]⟩], 1⟩,
        .DeclStmt [.Var (.mk 1 (.Named "rs_font") 21
          (some (.InitListExpr (some (.Named "rs_font")) 21
            [.ImplicitCastExpr .NullPtrTy .CK_IntegralToPointer (.IntegerLiteral 0 .IntTy 21)
              .VK_RValue] 21))),
          .Var (.mk 3 (.Named "rs_matrix3x3") 23
            (some (.InitListExpr (some (.Named "rs_matrix3x3")) 23
              [.InitListExpr (some (.ConstantArray .FloatTy 4)) 23
                (List.replicate 9 (.FloatingLiteral 0 true .FloatTy 23)) 23] 23))),
          .Var varN])
    ∧ TrackedAreObjects sampleCatalog
        ⟨[⟨0, [.mk 1 (.Named "rs_font") 21
          (some (.InitListExpr (some (.Named "rs_font")) 21
            [.ImplicitCastExpr .NullPtrTy .CK_IntegralToPointer (.IntegerLiteral 0 .IntTy 21)
              .VK_RValue] 21))]⟩], 1⟩ :=
  ⟨rfl,
    (tracked_variables_are_objects sampleCatalog Registry.initial ⟨[⟨0, []⟩], 1⟩ _
      (.DeclStmt [.Var varA, .Var varM, .Var varN]) _
      (by
        intro S hS VD hVD
        rw [List.mem_singleton.mp hS] at hVD
        cases hVD)
      rfl).1⟩

/-! ### Idempotence of the zero initialisation -/

theorem InitializeRSObject_hasInit (X : Catalog) (VD : VarDecl) (hinit : VD.hasInit = true) :
    InitializeRSObject X VD
      = .ok (IsRSObjectType (X.GetRSSpecificType (RSExportType.GetTypeOfDecl VD)), VD) := by
  unfold InitializeRSObject
  by_cases h : X.GetRSSpecificType (RSExportType.GetTypeOfDecl VD) = DataTypeUnknown
  · simp only [h, if_true]
    rfl
  · simp only [h, if_false, hinit, if_true]

theorem setInit_hasInit (VD : VarDecl) (I : Stmt) : (VD.setInit I).hasInit = true := by
  cases VD
  rfl

/-- A variable whose category is a resource category or unknown is
initialised without failure; afterwards it has an initializer unless its
category is unknown, in which case it is untouched. -/
theorem InitializeRSObject_total (X : Catalog) (VD : VarDecl)
    (hcat : X.GetRSSpecificType (RSExportType.GetTypeOfDecl VD) ∈
      [DataTypeUnknown, DataTypeRSMatrix2x2, DataTypeRSMatrix3x3, DataTypeRSMatrix4x4,
        DataTypeRSElement, DataTypeRSType, DataTypeRSAllocation, DataTypeRSSampler,
        DataTypeRSScript, DataTypeRSMesh, DataTypeRSProgramFragment, DataTypeRSProgramVertex,
        DataTypeRSProgramRaster, DataTypeRSProgramStore, DataTypeRSFont]) :
    ∃ b VD1, InitializeRSObject X VD = .ok (b, VD1)
      ∧ (X.GetRSSpecificType (RSExportType.GetTypeOfDecl VD) = DataTypeUnknown → VD1 = VD)
      ∧ (X.GetRSSpecificType (RSExportType.GetTypeOfDecl VD) ≠ DataTypeUnknown →
          VD1.hasInit = true)
      ∧ (VD.hasInit = true → VD1 = VD) := by
  by_cases hinit : VD.hasInit = true
  · exact ⟨_, VD, InitializeRSObject_hasInit X VD hinit, fun _ => rfl, fun _ => hinit,
      fun _ => rfl⟩
  · have hno : VD.hasInit = false := by simpa using hinit
    by_cases hunk : X.GetRSSpecificType (RSExportType.GetTypeOfDecl VD) = DataTypeUnknown
    · refine ⟨false, VD, ?_, fun _ => rfl, fun h => absurd hunk h, fun _ => rfl⟩
      unfold InitializeRSObject
      simp only [hunk, if_true]
    · obtain ⟨z, hz⟩ : ∃ z, CreateZeroInitializerForRSSpecificType
          (X.GetRSSpecificType (RSExportType.GetTypeOfDecl VD)) VD.getLocation = .ok (some z) := by
        simp only [List.mem_cons, List.mem_singleton, List.not_mem_nil, or_false] at hcat
        rcases hcat with h | h | h | h | h | h | h | h | h | h | h | h | h | h | h
        · exact absurd h hunk
        all_goals (rw [h]; exact ⟨_, rfl⟩)
      refine ⟨IsRSObjectType (X.GetRSSpecificType (RSExportType.GetTypeOfDecl VD)),
        VD.setInit (z.setType (X.getCanonicalTypeInternal (RSExportType.GetTypeOfDecl VD))),
        ?_, fun h => absurd h hunk, fun _ => setInit_hasInit _ _, fun h => absurd h hinit⟩
      unfold InitializeRSObject
      simp only [hunk, if_false, hno, hz]
      rfl

/-- C11. The zero initialisation is idempotent: for a variable of an object,
matrix or unknown category, `InitializeRSObject` returns, and applied again to
the variable it has produced it returns the same flag and leaves that variable
(so its initializer) as it is. -/
theorem InitializeRSObject_idempotent (X : Catalog) (VD : VarDecl)
    (hcat : X.GetRSSpecificType (RSExportType.GetTypeOfDecl VD) ∈
      [DataTypeUnknown, DataTypeRSMatrix2x2, DataTypeRSMatrix3x3, DataTypeRSMatrix4x4,
        DataTypeRSElement, DataTypeRSType, DataTypeRSAllocation, DataTypeRSSampler,
        DataTypeRSScript, DataTypeRSMesh, DataTypeRSProgramFragment, DataTypeRSProgramVertex,
        DataTypeRSProgramRaster, DataTypeRSProgramStore, DataTypeRSFont]) :
    ∃ b VD1, InitializeRSObject X VD = .ok (b, VD1)
      ∧ InitializeRSObject X VD1 = .ok (b, VD1) := by
  obtain ⟨b, VD1, hrun, hunk, hknown, _⟩ := InitializeRSObject_total X VD hcat
  refine ⟨b, VD1, hrun, ?_⟩
  by_cases h : X.GetRSSpecificType (RSExportType.GetTypeOfDecl VD) = DataTypeUnknown
  · rw [hunk h]
    rw [hunk h] at hrun
    exact hrun
  · obtain ⟨hflag, hty⟩ := InitializeRSObject_flag X VD VD1 b hrun
    rw [InitializeRSObject_hasInit X VD1 (hknown h), hty, hflag]

/-- Witness of C11: `rs_matrix3x3 m;` initialised twice. -/
theorem InitializeRSObject_idempotent_witness :
    ∃ b VD1, InitializeRSObject sampleCatalog varM = .ok (b, VD1)
      ∧ InitializeRSObject sampleCatalog VD1 = .ok (b, VD1) :=
  InitializeRSObject_idempotent sampleCatalog varM (by decide)

/-! ### The array type of the matrix initializer -/

/-- C15, at the failing input: for `rs_matrix3x3` the inner initializer list
holds nine zero literals and is typed `float[4]`, the constant of line 322. -/
theorem CreateZeroInitializer_matrix3x3_array_type :
    ∃ (n : Nat) (elems : List Stmt),
      CreateZeroInitializerForRSSpecificType DataTypeRSMatrix3x3 7
          = .ok (some (.InitListExpr none 7
              [.InitListExpr (some (.ConstantArray .FloatTy n)) 7 elems 7] 7))
      ∧ n = 4 ∧ elems.length = 9 ∧ n ≠ elems.length :=
  ⟨4, _, rfl, rfl, rfl, by decide⟩

/-! ### Re-population of the registry -/

theorem resetTables_eq_initial (reg : Registry) : Scope.resetTables reg = Registry.initial := by
  have h1 : (Scope.resetTables reg).RSSetObjectFD = fun _ => none :=
    funext fun i => resetTables_table reg .RSSetObjectFD i
  have h2 : (Scope.resetTables reg).RSClearObjectFD = fun _ => none :=
    funext fun i => resetTables_table reg .RSClearObjectFD i
  cases hr : Scope.resetTables reg with
  | mk s c =>
    rw [hr] at h1 h2
    simp only at h1 h2
    rw [h1, h2]
    rfl

/-- C16. `GetRSRefCountingFunctions` gives the same outcome (the same tables,
or the same failure) from any two prior contents of the tables, namely the
outcome from tables that are null everywhere: nothing recorded earlier
survives. -/
theorem GetRSRefCountingFunctions_resets (X : Catalog) (prior1 prior2 : Registry)
    (TU : List Decl) :
    Scope.GetRSRefCountingFunctions X prior1 TU = Scope.GetRSRefCountingFunctions X prior2 TU
    ∧ Scope.GetRSRefCountingFunctions X prior1 TU
        = Scope.GetRSRefCountingFunctions X Registry.initial TU := by
  unfold Scope.GetRSRefCountingFunctions
  rw [resetTables_eq_initial prior1, resetTables_eq_initial prior2,
    resetTables_eq_initial Registry.initial]
  exact ⟨rfl, rfl⟩

/-! ### The scratch array of the splice -/

theorem writeStmt_in_bounds (A : List (Option Stmt)) (n : Nat) (s : Stmt)
    (r : List (Option Stmt) × Nat) (h : Scope.writeStmt A n s = .ok r) :
    n < A.length ∧ r.2 = n + 1 ∧ r.1.length = A.length := by
  unfold Scope.writeStmt at h
  split at h
  · cases h
    rename_i hlt
    exact ⟨hlt, rfl, by simp⟩
  · cases h

/-- C17. For a block of `m` statements and `k` cleanup calls the three copy
loops of `AppendToCompoundStatement` run without a write outside the scratch
array of `m + k` slots (a write succeeds only at an index below the size of
the array, and advances the counter by one); they leave the counter at
`m + k` with every slot written, so the closing assertion holds, and the new
body has `m + k` statements and is a rearrangement of the old statements and
the calls: none dropped, none duplicated. -/
theorem AppendToCompoundStatement_scratch_bounds (L E : List Stmt) :
    (∀ (A : List (Option Stmt)) (n : Nat) (s : Stmt) (r : List (Option Stmt) × Nat),
        Scope.writeStmt A n s = .ok r → n < A.length ∧ r.2 = n + 1 ∧ r.1.length = A.length)
    ∧ ∃ (bI : List Stmt) (S1 S2 S3 : List (Option Stmt)) (n1 n2 : Nat) (newBody : List Stmt),
        Scope.copyUntilReturn L (List.replicate (L.length + E.length) none) 0 = .ok (bI, S1, n1)
        ∧ Scope.copyAll E S1 n1 = .ok (S2, n2)
        ∧ Scope.copyAll bI S2 n2 = .ok (S3, L.length + E.length)
        ∧ S3.length = L.length + E.length
        ∧ S3 = newBody.map some
        ∧ Scope.AppendToCompoundStatement L E = .ok newBody
        ∧ newBody.length = L.length + E.length
        ∧ newBody.Perm (L ++ E) := by
  refine ⟨writeStmt_in_bounds, ?_⟩
  obtain ⟨P, R, hsplit, _, _, hrun⟩ := copyUntilReturn_scratch L [] E.length
  have hlen : L.length = P.length + R.length := by rw [hsplit]; simp
  have h2 := copyAll_scratch E P R.length
  have h3 := copyAll_scratch R (P ++ E) 0
  have h4 := setStmts_scratch (P ++ E ++ R) 0
  simp only [List.nil_append, List.length_nil, Nat.zero_add, Nat.add_comm R.length] at hrun
  simp only [Nat.add_zero, List.length_append] at h3 h4
  have h0 : scratch [] (L.length + E.length) = List.replicate (L.length + E.length) none := rfl
  rw [h0] at hrun
  have hcount : P.length + E.length + R.length = L.length + E.length := by omega
  rw [hcount] at h3 h4
  refine ⟨R, scratch P (E.length + R.length), scratch (P ++ E) R.length,
    scratch (P ++ E ++ R) 0, P.length, P.length + E.length, P ++ E ++ R,
    hrun, h2, h3, ?_, ?_, ?_, ?_, ?_⟩
  · rw [scratch_length]
    simp only [List.length_append]
    omega
  · simp [scratch]
  · unfold Scope.AppendToCompoundStatement
    simp only [hrun, h2, h3, h4]
    rw [if_pos trivial]
  · simp only [List.length_append]
    omega
  · rw [hsplit]
    simp only [List.append_assoc]
    exact List.Perm.append_left P List.perm_append_comm

/-! ### The effect of a visit on the Scopes and on the clear calls -/

theorem objAddrs_nil (X : Catalog) : objAddrs X [] = [] := rfl

theorem objAddrs_append (X : Catalog) (l1 l2 : List VarDecl) :
    objAddrs X (l1 ++ l2) = objAddrs X l1 ++ objAddrs X l2 := by
  simp [objAddrs]

theorem addTracked_ne_nil (st : List Scope) (vs : List VarDecl) (h : st ≠ []) :
    addTracked st vs ≠ [] := by
  cases st with
  | nil => exact absurd rfl h
  | cons S rest => simp [addTracked]

theorem VisitResult.same (X : Catalog) (V : RSObjectRefCount) (c : Nat → Nat) :
    VisitResult X V V [] [] c c :=
  ⟨[], (addTracked_nil _).symm, rfl, Nat.le_refl _, fun _ => rfl⟩

theorem VisitResult.comp {X : Catalog} {V V1 V2 : RSObjectRefCount}
    {sc1 sc2 vi1 vi2 : List VarDecl} {c0 c1 d0 d1 : Nat → Nat}
    (h1 : VisitResult X V V1 sc1 vi1 c0 c1) (h2 : VisitResult X V1 V2 sc2 vi2 d0 d1) :
    VisitResult X V V2 (sc1 ++ sc2) (vi1 ++ vi2) (fun a => c0 a + d0 a)
      (fun a => c1 a + d1 a) := by
  obtain ⟨vs, hst, hsig, hn, hc⟩ := h1
  obtain ⟨ws, hst2, hsig2, hn2, hc2⟩ := h2
  refine ⟨vs ++ ws, by rw [hst2, hst, addTracked_addTracked], ?_, Nat.le_trans hn hn2, ?_⟩
  · rw [List.map_append, List.map_append, List.filter_append, hsig, hsig2]
  · intro a
    have ha := hc a
    have hb := hc2 a
    simp only [objAddrs_append, List.count_append]
    omega

theorem VisitResult.nonempty {X : Catalog} {V V1 : RSObjectRefCount}
    {sc vi : List VarDecl} {c0 c1 : Nat → Nat} (h : VisitResult X V V1 sc vi c0 c1)
    (hV : V.mScopeStack ≠ []) : V1.mScopeStack ≠ [] := by
  obtain ⟨vs, hst, _⟩ := h
  rw [hst]
  exact addTracked_ne_nil _ _ hV

theorem clearCountList_append (a : Nat) (l1 l2 : List Stmt) :
    clearCountList a (l1 ++ l2) = clearCountList a l1 + clearCountList a l2 := by
  induction l1 with
  | nil => simp [clearCountList]
  | cons s rest ih =>
    rw [List.cons_append, clearCountList, clearCountList, ih]
    omega

mutual
theorem scopeDecls_subset : ∀ (s : Stmt) (v : VarDecl), v ∈ scopeDecls s → v ∈ visitedDecls s
  | .CompoundStmt body, v, h => by simp [scopeDecls] at h
  | .DeclStmt decls, v, h => by simpa [scopeDecls, visitedDecls] using h
  | .ReturnStmt r, v, h => by
    rw [scopeDecls] at h
    rw [visitedDecls]
    exact scopeDeclsOpt_subset r v h
  | .BinaryOperator lhs rhs .BO_Assign, v, h => by simp [scopeDecls] at h
  | .BinaryOperator lhs rhs (.BO_Other k), v, h => by
    rw [scopeDecls] at h
    rw [visitedDecls]
    rcases List.mem_append.mp h with h1 | h1
    · exact List.mem_append_left _ (scopeDecls_subset lhs v h1)
    · exact List.mem_append_right _ (scopeDecls_subset rhs v h1)
  | .IntegerLiteral _ _ _, v, h => by simp [scopeDecls] at h
  | .FloatingLiteral _ _ _ _, v, h => by simp [scopeDecls] at h
  | .ImplicitCastExpr _ _ op _, v, h => by
    rw [scopeDecls] at h
    rw [visitedDecls]
    exact scopeDecls_subset op v h
  | .InitListExpr _ _ es _, v, h => by
    rw [scopeDecls] at h
    rw [visitedDecls]
    exact scopeDeclsList_subset es v h
  | .DeclRefExpr _ _ _, v, h => by simp [scopeDecls] at h
  | .UnaryOperator input _ _ _, v, h => by
    rw [scopeDecls] at h
    rw [visitedDecls]
    exact scopeDecls_subset input v h
  | .CallExpr fn args _ _, v, h => by
    rw [scopeDecls] at h
    rw [visitedDecls]
    rcases List.mem_append.mp h with h1 | h1
    · exact List.mem_append_left _ (scopeDecls_subset fn v h1)
    · exact List.mem_append_right _ (scopeDeclsList_subset args v h1)
  | .Other _ cs, v, h => by
    rw [scopeDecls] at h
    rw [visitedDecls]
    exact scopeDeclsOptList_subset cs v h
theorem scopeDeclsList_subset :
    ∀ (l : List Stmt) (v : VarDecl), v ∈ scopeDeclsList l → v ∈ visitedDeclsList l
  | [], v, h => by simp [scopeDeclsList] at h
  | s :: rest, v, h => by
    rw [scopeDeclsList] at h
    rw [visitedDeclsList]
    rcases List.mem_append.mp h with h1 | h1
    · exact List.mem_append_left _ (scopeDecls_subset s v h1)
    · exact List.mem_append_right _ (scopeDeclsList_subset rest v h1)
theorem scopeDeclsOpt_subset :
    ∀ (c : Option Stmt) (v : VarDecl), v ∈ scopeDeclsOpt c → v ∈ visitedDeclsOpt c
  | none, v, h => by simp [scopeDeclsOpt] at h
  | some s, v, h => by
    rw [scopeDeclsOpt] at h
    rw [visitedDeclsOpt]
    exact scopeDecls_subset s v h
theorem scopeDeclsOptList_subset :
    ∀ (l : List (Option Stmt)) (v : VarDecl),
      v ∈ scopeDeclsOptList l → v ∈ visitedDeclsOptList l
  | [], v, h => by simp [scopeDeclsOptList] at h
  | s :: rest, v, h => by
    rw [scopeDeclsOptList] at h
    rw [visitedDeclsOptList]
    rcases List.mem_append.mp h with h1 | h1
    · exact List.mem_append_left _ (scopeDeclsOpt_subset s v h1)
    · exact List.mem_append_right _ (scopeDeclsOptList_subset rest v h1)
end

theorem CreateZeroInitializer_clearCount (DT : DataType) (Loc : SourceLocation) (z : Stmt)
    (h : CreateZeroInitializerForRSSpecificType DT Loc = .ok (some z)) (a : Nat) (T : QualType) :
    clearCount a (z.setType T) = 0 := by
  cases DT <;>
    simp only [CreateZeroInitializerForRSSpecificType, Except.ok.injEq, Option.some.injEq,
      reduceCtorEq] at h <;>
    subst h <;>
    simp only [Stmt.setType, clearCount, clearCountList, Nat.add_zero]

theorem InitializeRSObject_inv (X : Catalog) (VD VD1 : VarDecl) (b : Bool)
    (hrun : InitializeRSObject X VD = .ok (b, VD1)) :
    VD1 = VD ∨ (VD.hasInit = false ∧ ∃ z T,
      CreateZeroInitializerForRSSpecificType
        (X.GetRSSpecificType (RSExportType.GetTypeOfDecl VD)) VD.getLocation = .ok (some z)
      ∧ VD1 = VD.setInit (z.setType T)) := by
  unfold InitializeRSObject at hrun
  by_cases h : X.GetRSSpecificType (RSExportType.GetTypeOfDecl VD) = DataTypeUnknown
  · simp only [h, if_true, Except.ok.injEq, Prod.mk.injEq] at hrun
    exact Or.inl hrun.2.symm
  · simp only [h, if_false] at hrun
    by_cases hinit : VD.hasInit = true
    · simp only [hinit, if_true, Except.ok.injEq, Prod.mk.injEq] at hrun
      exact Or.inl hrun.2.symm
    · have hno : VD.hasInit = false := by simpa using hinit
      simp only [hno, Bool.false_eq_true, if_false] at hrun
      cases hz : CreateZeroInitializerForRSSpecificType
          (X.GetRSSpecificType (RSExportType.GetTypeOfDecl VD)) VD.getLocation with
      | error e => rw [hz] at hrun; cases hrun
      | ok r =>
        rw [hz] at hrun
        cases r with
        | none =>
          simp only [Except.ok.injEq, Prod.mk.injEq] at hrun
          exact Or.inl hrun.2.symm
        | some z =>
          simp only [Except.ok.injEq, Prod.mk.injEq] at hrun
          exact Or.inr ⟨hno, z, _, rfl, hrun.2.symm⟩

theorem setInit_addr (VD : VarDecl) (I : Stmt) : (VD.setInit I).addr = VD.addr := by
  cases VD
  rfl

theorem setInit_type (VD : VarDecl) (I : Stmt) :
    RSExportType.GetTypeOfDecl (VD.setInit I) = RSExportType.GetTypeOfDecl VD := by
  cases VD
  rfl

theorem setInit_clearCount (VD : VarDecl) (I : Stmt) (a : Nat) :
    clearCountVar a (VD.setInit I) = clearCount a I := by
  cases VD
  rfl

theorem clearCountVar_no_init (VD : VarDecl) (a : Nat) (h : VD.hasInit = false) :
    clearCountVar a VD = 0 := by
  cases VD with
  | mk ad T L I =>
    cases I with
    | none => rfl
    | some s => cases h

/-- What `InitializeRSObject` keeps of the variable: its address, its type and
the clear calls of its initializer. -/
theorem InitializeRSObject_keeps (X : Catalog) (VD VD1 : VarDecl) (b : Bool)
    (hrun : InitializeRSObject X VD = .ok (b, VD1)) :
    VD1.sig = VD.sig ∧ ∀ a, clearCountVar a VD1 = clearCountVar a VD := by
  rcases InitializeRSObject_inv X VD VD1 b hrun with h | ⟨hno, z, T, hz, h⟩
  · rw [h]
    exact ⟨rfl, fun _ => rfl⟩
  · rw [h]
    refine ⟨?_, fun a => ?_⟩
    · simp only [VarDecl.sig, setInit_addr, setInit_type]
    · rw [setInit_clearCount, clearCountVar_no_init VD a hno]
      exact CreateZeroInitializer_clearCount _ _ z hz a T

theorem visitDecl_total (X : Catalog) (hX : X.ClassifiesResources) (V : RSObjectRefCount)
    (hV : V.mScopeStack ≠ []) (D : Decl) :
    ∃ V1 D1, visitDecl X V D = .ok (V1, D1)
      ∧ (declaredVars [D1]).map VarDecl.sig = (declaredVars [D]).map VarDecl.sig
      ∧ ∀ a, clearCountDecl a D1 = clearCountDecl a D := by
  cases D with
  | Var VD =>
    obtain ⟨b, VD1, hrun, _⟩ := InitializeRSObject_total X VD (hX _)
    obtain ⟨hsig, hcount⟩ := InitializeRSObject_keeps X VD VD1 b hrun
    have hres : (declaredVars [Decl.Var VD1]).map VarDecl.sig
        = (declaredVars [Decl.Var VD]).map VarDecl.sig := by
      simp only [declaredVars, List.map_cons, List.map_nil, hsig]
    cases b with
    | false =>
      refine ⟨V, .Var VD1, ?_, hres, fun a => hcount a⟩
      rw [visitDecl, hrun]
      rfl
    | true =>
      cases hst : V.mScopeStack with
      | nil => exact absurd hst hV
      | cons S rest =>
        refine ⟨{ V with mScopeStack := S.addRSObject VD1 :: rest }, .Var VD1, ?_, hres,
          fun a => hcount a⟩
        rw [visitDecl, hrun]
        simp only [if_true, addToCurrentScope, hst]
  | Function FD => exact ⟨V, _, rfl, rfl, fun _ => rfl⟩
  | Other k => exact ⟨V, _, rfl, rfl, fun _ => rfl⟩

theorem visitDecls_total (X : Catalog) (hX : X.ClassifiesResources) (decls : List Decl) :
    ∀ (V : RSObjectRefCount), V.mScopeStack ≠ [] →
      ∃ V1 decls1, visitDecls X V decls = .ok (V1, decls1)
        ∧ (declaredVars decls1).map VarDecl.sig = (declaredVars decls).map VarDecl.sig
        ∧ ∀ a, clearCountDecls a decls1 = clearCountDecls a decls := by
  induction decls with
  | nil =>
    intro V _
    exact ⟨V, [], rfl, rfl, fun _ => rfl⟩
  | cons D rest ih =>
    intro V hV
    obtain ⟨V1, D1, hD, hsig, hcount⟩ := visitDecl_total X hX V hV D
    have hV1 : V1.mScopeStack ≠ [] := by
      rw [(visitDecl_spec X V V1 D D1 hD).1]
      exact addTracked_ne_nil _ _ hV
    obtain ⟨V2, rest1, hrest, hsig2, hcount2⟩ := ih V1 hV1
    refine ⟨V2, D1 :: rest1, ?_, ?_, fun a => ?_⟩
    · rw [visitDecls, hD]
      simp only [hrest]
    · rw [declaredVars_cons, declaredVars_cons D, List.map_append, List.map_append, hsig, hsig2]
    · rw [clearCountDecls, clearCountDecls, hcount a, hcount2 a]

theorem ClearRSObject_total (X : Catalog) (reg : Registry) (hwf : reg.WellFormed) (v : VarDecl)
    (hobj : IsRSObjectType (X.GetRSSpecificType (RSExportType.GetTypeOfDecl v)) = true)
    (hreg : ClearRegistered X reg (RSExportType.GetTypeOfDecl v)) :
    ∃ call, (Scope.ClearRSObject X reg v).1 = .ok (some call)
      ∧ isClearCallOn v.addr call = true
      ∧ (∀ a, clearCount a call = if v.addr = a then 1 else 0)
      ∧ ∃ F, reg.RSClearObjectFD
            (objectIndex (X.GetRSSpecificType (RSExportType.GetTypeOfDecl v)) hobj) = some F
          ∧ IsClearCall F v call := by
  obtain ⟨F, hF⟩ := hreg hobj
  obtain ⟨P, hP⟩ := getParamDecl_zero_of_numParams F 0 (hwf.2 _ F hF)
  refine ⟨_, ClearRSObject_ok X reg v F P hobj hF hP, ?_, ?_, F, hF, rfl, rfl⟩
  · simp [isClearCallOn, isDecayedFunctionRef, isFunctionRef, isAddrOfVar, isDeclRefVar]
  · intro a
    simp only [clearCount, clearCountList, isClearCallOn, isDecayedFunctionRef, isFunctionRef,
      isAddrOfVar, isDeclRefVar, Bool.true_and, decide_eq_true_eq, Nat.add_zero]

theorem collectClearCalls_total (X : Catalog) (reg : Registry) (hwf : reg.WellFormed)
    (vs : List VarDecl)
    (hvs : ∀ v ∈ vs,
      IsRSObjectType (X.GetRSSpecificType (RSExportType.GetTypeOfDecl v)) = true
        ∧ ClearRegistered X reg (RSExportType.GetTypeOfDecl v)) :
    ∃ calls : List Stmt, Scope.collectClearCalls X reg vs = .ok calls
      ∧ List.Forall₂ (fun v call => isClearCallOn v.addr call = true) vs calls
      ∧ ∀ a, clearCountList a calls = (vs.map VarDecl.addr).count a := by
  induction vs with
  | nil => exact ⟨[], rfl, List.Forall₂.nil, fun _ => rfl⟩
  | cons v vs ih =>
    obtain ⟨calls, hrun, hshape, hcount⟩ := ih (fun w hw => hvs w (List.mem_cons_of_mem _ hw))
    obtain ⟨hobj, hreg⟩ := hvs v (List.mem_cons_self _ _)
    obtain ⟨call, hcall, hon, hc, _⟩ := ClearRSObject_total X reg hwf v hobj hreg
    refine ⟨call :: calls, ?_, List.Forall₂.cons hon hshape, fun a => ?_⟩
    · rw [Scope.collectClearCalls, hcall]
      simp only [hrun]
    · rw [clearCountList, hc a, hcount a, List.map_cons, List.count_cons]
      by_cases h : v.addr = a
      · simp [h]
        omega
      · have h2 : ¬ (a = v.addr) := fun e => h e.symm
        simp [h, h2]

theorem InsertLocalVarDestructors_total (X : Catalog) (reg : Registry) (hwf : reg.WellFormed)
    (S : Scope) (body : List Stmt)
    (hvs : ∀ v ∈ S.mRSO,
      IsRSObjectType (X.GetRSSpecificType (RSExportType.GetTypeOfDecl v)) = true
        ∧ ClearRegistered X reg (RSExportType.GetTypeOfDecl v)) :
    ∃ (calls P R : List Stmt), body = P ++ R
      ∧ (∀ s ∈ P, s.getStmtClass ≠ StmtClass.ReturnStmtClass)
      ∧ (∀ r ∈ R.head?, r.getStmtClass = StmtClass.ReturnStmtClass)
      ∧ List.Forall₂ (fun v call => isClearCallOn v.addr call = true) S.mRSO calls
      ∧ (∀ a, clearCountList a calls = (S.mRSO.map VarDecl.addr).count a)
      ∧ S.InsertLocalVarDestructors X reg body = .ok (P ++ calls ++ R) := by
  obtain ⟨calls, hrun, hshape, hcount⟩ := collectClearCalls_total X reg hwf S.mRSO hvs
  obtain ⟨P, R, hsplit, hP, hR, happ⟩ := AppendToCompoundStatement_split body calls
  refine ⟨calls, P, R, hsplit, hP, hR, hshape, hcount, ?_⟩
  unfold Scope.InsertLocalVarDestructors
  simp only [hrun]
  by_cases hlen : calls.length > 0
  · rw [if_pos hlen]
    exact happ
  · rw [if_neg hlen]
    have hnil : calls = [] := List.length_eq_zero.mp (by omega)
    rw [hnil, hsplit]
    simp

theorem popScope_total (X : Catalog) (reg : Registry) (hwf : reg.WellFormed) (S Cur : Scope)
    (V1 : RSObjectRefCount) (rest : List Scope) (body : List Stmt)
    (hst : V1.mScopeStack = Cur :: rest) (haddr : Cur.addr = S.addr)
    (hvs : ∀ v ∈ Cur.mRSO,
      IsRSObjectType (X.GetRSSpecificType (RSExportType.GetTypeOfDecl v)) = true
        ∧ ClearRegistered X reg (RSExportType.GetTypeOfDecl v)) :
    ∃ (calls P R : List Stmt), body = P ++ R
      ∧ (∀ s ∈ P, s.getStmtClass ≠ StmtClass.ReturnStmtClass)
      ∧ (∀ r ∈ R.head?, r.getStmtClass = StmtClass.ReturnStmtClass)
      ∧ List.Forall₂ (fun v call => isClearCallOn v.addr call = true) Cur.mRSO calls
      ∧ (∀ a, clearCountList a calls = (Cur.mRSO.map VarDecl.addr).count a)
      ∧ popScope X reg S V1 body = .ok ({ V1 with mScopeStack := rest }, P ++ calls ++ R) := by
  obtain ⟨calls, P, R, hsplit, hP, hR, hshape, hcount, hrun⟩ :=
    InsertLocalVarDestructors_total X reg hwf Cur body hvs
  refine ⟨calls, P, R, hsplit, hP, hR, hshape, hcount, ?_⟩
  unfold popScope
  rw [hst]
  simp only [haddr, if_true, hrun]

/-! ### The shape of a statement under a visit -/

theorem Visit_class (X : Catalog) (reg : Registry) (V V1 : RSObjectRefCount) (s s1 : Stmt)
    (h : Visit X reg V s = .ok (V1, s1)) : s1.getStmtClass = s.getStmtClass := by
  cases s with
  | BinaryOperator lhs rhs opc =>
    cases opc <;> rw [Visit] at h <;> (repeat' split at h) <;>
      first | (cases h; done) | (cases h; rfl)
  | _ =>
    rw [Visit] at h
    (repeat' split at h) <;> first | (cases h; done) | (cases h; rfl)

theorem Visit_isFunctionRef (X : Catalog) (reg : Registry) (V V1 : RSObjectRefCount)
    (s s1 : Stmt) (h : Visit X reg V s = .ok (V1, s1)) :
    isFunctionRef s1 = isFunctionRef s := by
  cases s with
  | BinaryOperator lhs rhs opc =>
    cases opc <;> rw [Visit] at h <;> (repeat' split at h) <;>
      first | (cases h; done) | (cases h; rfl)
  | _ =>
    rw [Visit] at h
    (repeat' split at h) <;> first | (cases h; done) | (cases h; rfl)

theorem Visit_isDeclRefVar (X : Catalog) (reg : Registry) (V V1 : RSObjectRefCount)
    (s s1 : Stmt) (a : Nat) (h : Visit X reg V s = .ok (V1, s1)) :
    isDeclRefVar a s1 = isDeclRefVar a s := by
  cases s with
  | BinaryOperator lhs rhs opc =>
    cases opc <;> rw [Visit] at h <;> (repeat' split at h) <;>
      first | (cases h; done) | (cases h; rfl)
  | _ =>
    rw [Visit] at h
    (repeat' split at h) <;> first | (cases h; done) | (cases h; rfl)

theorem Visit_isDecayedFunctionRef (X : Catalog) (reg : Registry) (V V1 : RSObjectRefCount)
    (s s1 : Stmt) (h : Visit X reg V s = .ok (V1, s1)) :
    isDecayedFunctionRef s1 = isDecayedFunctionRef s := by
  cases s with
  | ImplicitCastExpr T k op c =>
    rw [Visit] at h
    cases hop : Visit X reg V op with
    | error e => rw [hop] at h; cases h
    | ok r =>
      obtain ⟨V2, op1⟩ := r
      rw [hop] at h
      cases h
      cases k with
      | CK_FunctionToPointerDecay =>
        simp only [isDecayedFunctionRef]
        exact Visit_isFunctionRef X reg V V1 op op1 hop
      | CK_IntegralToPointer => rfl
      | CK_Other n => rfl
  | BinaryOperator lhs rhs opc =>
    cases opc <;> rw [Visit] at h <;> (repeat' split at h) <;>
      first | (cases h; done) | (cases h; rfl)
  | _ =>
    rw [Visit] at h
    (repeat' split at h) <;> first | (cases h; done) | (cases h; rfl)

theorem Visit_isAddrOfVar (X : Catalog) (reg : Registry) (V V1 : RSObjectRefCount)
    (s s1 : Stmt) (a : Nat) (h : Visit X reg V s = .ok (V1, s1)) :
    isAddrOfVar a s1 = isAddrOfVar a s := by
  cases s with
  | UnaryOperator input opc T l =>
    rw [Visit] at h
    cases hop : Visit X reg V input with
    | error e => rw [hop] at h; cases h
    | ok r =>
      obtain ⟨V2, input1⟩ := r
      rw [hop] at h
      cases h
      cases opc with
      | UO_AddrOf =>
        simp only [isAddrOfVar]
        exact Visit_isDeclRefVar X reg V V1 input input1 a hop
      | UO_Other n => rfl
  | BinaryOperator lhs rhs opc =>
    cases opc <;> rw [Visit] at h <;> (repeat' split at h) <;>
      first | (cases h; done) | (cases h; rfl)
  | _ =>
    rw [Visit] at h
    (repeat' split at h) <;> first | (cases h; done) | (cases h; rfl)

theorem VisitChildren_cons_inv (X : Catalog) (reg : Registry) (V V1 : RSObjectRefCount)
    (x : Stmt) (rest l1 : List Stmt) (h : VisitChildren X reg V (x :: rest) = .ok (V1, l1)) :
    ∃ V2 x1 rest1, Visit X reg V x = .ok (V2, x1)
      ∧ VisitChildren X reg V2 rest = .ok (V1, rest1) ∧ l1 = x1 :: rest1 := by
  rw [VisitChildren] at h
  cases hx : Visit X reg V x with
  | error e => rw [hx] at h; cases h
  | ok r =>
    obtain ⟨V2, x1⟩ := r
    rw [hx] at h
    simp only at h
    cases hr : VisitChildren X reg V2 rest with
    | error e => rw [hr] at h; cases h
    | ok r2 =>
      obtain ⟨V3, rest1⟩ := r2
      rw [hr] at h
      cases h
      exact ⟨V2, x1, rest1, rfl, hr, rfl⟩

theorem VisitChildren_nil_inv (X : Catalog) (reg : Registry) (V V1 : RSObjectRefCount)
    (l1 : List Stmt) (h : VisitChildren X reg V [] = .ok (V1, l1)) : V1 = V ∧ l1 = [] := by
  rw [VisitChildren] at h
  cases h
  exact ⟨rfl, rfl⟩

/-- A visited call is a clear call on `a` exactly when it was one before. -/
theorem Visit_isClearCallOn (X : Catalog) (reg : Registry) (V V2 V3 : RSObjectRefCount)
    (fn fn1 : Stmt) (args args1 : List Stmt) (t : QualType) (r : SourceLocation) (a : Nat)
    (hfn : Visit X reg V fn = .ok (V2, fn1))
    (hargs : VisitChildren X reg V2 args = .ok (V3, args1)) :
    isClearCallOn a (.CallExpr fn1 args1 t r) = isClearCallOn a (.CallExpr fn args t r) := by
  cases args with
  | nil =>
    obtain ⟨_, h1⟩ := VisitChildren_nil_inv X reg V2 V3 args1 hargs
    rw [h1]
    rfl
  | cons x rest =>
    obtain ⟨V4, x1, rest1, hx, hrest, h1⟩ := VisitChildren_cons_inv X reg V2 V3 x rest args1 hargs
    rw [h1]
    cases rest with
    | nil =>
      obtain ⟨_, h2⟩ := VisitChildren_nil_inv X reg V4 V3 rest1 hrest
      rw [h2]
      simp only [isClearCallOn]
      rw [Visit_isDecayedFunctionRef X reg V V2 fn fn1 hfn,
        Visit_isAddrOfVar X reg V2 V4 x x1 a hx]
    | cons y rest2 =>
      obtain ⟨_, y1, rest3, _, _, h2⟩ := VisitChildren_cons_inv X reg V4 V3 y rest2 rest1 hrest
      rw [h2]
      rfl

/-! ### The traversal returns -/

theorem VisitResult.add_const {X : Catalog} {V V1 : RSObjectRefCount} {sc vi : List VarDecl}
    {c0 c1 : Nat → Nat} (h : VisitResult X V V1 sc vi c0 c1) (k d0 d1 : Nat → Nat)
    (h0 : ∀ a, d0 a = k a + c0 a) (h1 : ∀ a, d1 a = k a + c1 a) :
    VisitResult X V V1 sc vi d0 d1 := by
  obtain ⟨vs, hst, hsig, hn, hc⟩ := h
  refine ⟨vs, hst, hsig, hn, fun a => ?_⟩
  have ha := hc a
  rw [h0 a, h1 a]
  omega

theorem map_filter_sig (X : Catalog) (l : List VarDecl) :
    (l.filter (fun VD => IsRSObjectType (X.GetRSSpecificType (RSExportType.GetTypeOfDecl VD)))).map
        VarDecl.sig
      = (l.map VarDecl.sig).filter (objSig X) := by
  induction l with
  | nil => rfl
  | cons v rest ih =>
    by_cases h : IsRSObjectType (X.GetRSSpecificType (RSExportType.GetTypeOfDecl v)) = true
    · have h2 : objSig X v.sig = true := h
      simp only [List.filter_cons, List.map_cons, h, h2, if_true, ih]
    · have h2 : ¬ objSig X v.sig = true := h
      simp only [List.filter_cons, List.map_cons, h, h2, Bool.false_eq_true, if_false, ih]

theorem map_sig_addr (vs : List VarDecl) :
    (vs.map VarDecl.sig).map Prod.fst = vs.map VarDecl.addr := by
  induction vs with
  | nil => rfl
  | cons v rest ih =>
    rw [List.map_cons, List.map_cons, List.map_cons, ih]
    rfl

/-- The variables added to a Scope are object-typed, and a clear function is
registered for them when one is for the declared variables. -/
theorem tracked_ok (X : Catalog) (reg : Registry) (vs sc : List VarDecl)
    (hsig : vs.map VarDecl.sig = (sc.map VarDecl.sig).filter (objSig X))
    (hreg : ∀ v ∈ sc, ClearRegistered X reg (RSExportType.GetTypeOfDecl v)) :
    ∀ v ∈ vs, IsRSObjectType (X.GetRSSpecificType (RSExportType.GetTypeOfDecl v)) = true
      ∧ ClearRegistered X reg (RSExportType.GetTypeOfDecl v) := by
  intro v hv
  have hmem : v.sig ∈ (sc.map VarDecl.sig).filter (objSig X) := by
    rw [← hsig]
    exact List.mem_map_of_mem _ hv
  obtain ⟨hin, hobj⟩ := List.mem_filter.mp hmem
  obtain ⟨v0, hv0, hv0sig⟩ := List.mem_map.mp hin
  refine ⟨hobj, ?_⟩
  have hty : RSExportType.GetTypeOfDecl v0 = RSExportType.GetTypeOfDecl v :=
    congrArg Prod.snd hv0sig
  rw [← hty]
  exact hreg v0 hv0

theorem VisitDeclStmt_total (X : Catalog) (hX : X.ClassifiesResources) (V : RSObjectRefCount)
    (hV : V.mScopeStack ≠ []) (decls : List Decl) :
    ∃ V1 decls1, VisitDeclStmt X V decls = .ok (V1, decls1)
      ∧ VisitResult X V V1 (declaredVars decls) (declaredVars decls)
          (fun a => clearCountDecls a decls) (fun a => clearCountDecls a decls1) := by
  obtain ⟨V1, decls1, hrun, hsig, hcount⟩ := visitDecls_total X hX decls V hV
  obtain ⟨hst, hn⟩ := visitDecls_spec X decls V V1 decls1 hrun
  refine ⟨V1, decls1, hrun, _, hst, ?_, by rw [hn], fun a => ?_⟩
  · rw [map_filter_sig, hsig]
  · show clearCountDecls a decls1 + _ = clearCountDecls a decls + _
    rw [hcount a]

/-- The exit of a block whose children have been visited: the Scope pushed
for the block is finalized and popped, and the block has got one clear call
for each variable its Scope tracks. -/
theorem VisitCompoundStmt_exit (X : Catalog) (reg : Registry) (hwf : reg.WellFormed)
    (V V1 : RSObjectRefCount) (body body1 : List Stmt)
    (hreg : ∀ v ∈ scopeDeclsList body, ClearRegistered X reg (RSExportType.GetTypeOfDecl v))
    (hres : VisitResult X (pushScope V).2 V1 (scopeDeclsList body) (visitedDeclsList body)
      (fun a => clearCountList a body) (fun a => clearCountList a body1)) :
    ∃ (vs : List VarDecl) (calls P R : List Stmt),
      V1.mScopeStack = { addr := V.nextScope, mRSO := vs } :: V.mScopeStack
      ∧ vs.map VarDecl.sig = ((scopeDeclsList body).map VarDecl.sig).filter (objSig X)
      ∧ body1 = P ++ R
      ∧ (∀ s ∈ P, s.getStmtClass ≠ StmtClass.ReturnStmtClass)
      ∧ (∀ r ∈ R.head?, r.getStmtClass = StmtClass.ReturnStmtClass)
      ∧ List.Forall₂ (fun v call => isClearCallOn v.addr call = true) vs calls
      ∧ popScope X reg (pushScope V).1 V1 body1
          = .ok ({ V1 with mScopeStack := V.mScopeStack }, P ++ calls ++ R)
      ∧ VisitResult X V { V1 with mScopeStack := V.mScopeStack } [] (visitedDeclsList body)
          (fun a => clearCountList a body) (fun a => clearCountList a (P ++ calls ++ R)) := by
  obtain ⟨vs, hst, hsig, hn, hc⟩ := hres
  have hst1 : V1.mScopeStack = { addr := V.nextScope, mRSO := vs } :: V.mScopeStack := by
    rw [hst]
    simp [pushScope, addTracked]
  obtain ⟨calls, P, R, hsplit, hP, hR, hshape, hcount, hpop⟩ :=
    popScope_total X reg hwf (pushScope V).1 { addr := V.nextScope, mRSO := vs } V1
      V.mScopeStack body1 hst1 rfl (tracked_ok X reg vs _ hsig hreg)
  refine ⟨vs, calls, P, R, hst1, hsig, hsplit, hP, hR, hshape, hpop, [], ?_, rfl, ?_, ?_⟩
  · exact (addTracked_nil _).symm
  · exact Nat.le_trans (Nat.le_succ _) hn
  · intro a
    have ha : clearCountList a body1 + (objAddrs X (scopeDeclsList body)).count a
        = clearCountList a body + (objAddrs X (visitedDeclsList body)).count a := hc a
    have haddr : vs.map VarDecl.addr = objAddrs X (scopeDeclsList body) := by
      unfold objAddrs
      rw [← hsig, map_sig_addr]
    have hcalls : clearCountList a calls = (objAddrs X (scopeDeclsList body)).count a := by
      rw [← haddr]
      exact hcount a
    have hbody : clearCountList a body1 = clearCountList a P + clearCountList a R := by
      rw [hsplit, clearCountList_append]
    show clearCountList a (P ++ calls ++ R) + (objAddrs X []).count a
      = clearCountList a body + (objAddrs X (visitedDeclsList body)).count a
    rw [clearCountList_append, clearCountList_append, objAddrs_nil, List.count_nil]
    omega

mutual
/-- With a Catalog that classifies resources, a registry as a scan leaves it
and a clear function registered for every variable whose declaration is
visited, the visit of a statement from a non-empty scope stack returns, with
the effect `VisitResult` describes. -/
theorem Visit_total (X : Catalog) (reg : Registry) (hX : X.ClassifiesResources)
    (hwf : reg.WellFormed) :
    ∀ (s : Stmt) (V : RSObjectRefCount), V.mScopeStack ≠ [] →
      (∀ v ∈ visitedDecls s, ClearRegistered X reg (RSExportType.GetTypeOfDecl v)) →
      ∃ V1 s1, Visit X reg V s = .ok (V1, s1)
        ∧ VisitResult X V V1 (scopeDecls s) (visitedDecls s)
            (fun a => clearCount a s) (fun a => clearCount a s1)
  | .CompoundStmt [], V, _, _ => by
    refine ⟨V, .CompoundStmt [], ?_, ?_⟩
    · rw [Visit]
      rfl
    · exact VisitResult.same X V _
  | .CompoundStmt (x :: xs), V, _, hreg => by
    rw [visitedDecls] at hreg
    obtain ⟨V1, body1, hrun, hres⟩ :=
      VisitChildren_total X reg hX hwf (x :: xs) (pushScope V).2 (by simp [pushScope]) hreg
    obtain ⟨vs, calls, P, R, _, _, _, _, _, _, hpop, hfin⟩ :=
      VisitCompoundStmt_exit X reg hwf V V1 (x :: xs) body1
        (fun v hv => hreg v (scopeDeclsList_subset _ v hv)) hres
    refine ⟨{ V1 with mScopeStack := V.mScopeStack }, .CompoundStmt (P ++ calls ++ R), ?_, ?_⟩
    · rw [Visit]
      simp only [List.isEmpty_cons, Bool.false_eq_true, if_false, hrun, hpop]
    · rw [scopeDecls, visitedDecls]
      exact hfin.add_const (fun _ => 0) _ _ (fun a => by rw [clearCount]; exact (Nat.zero_add _).symm)
        (fun a => by rw [clearCount]; exact (Nat.zero_add _).symm)
  | .DeclStmt decls, V, hV, _ => by
    obtain ⟨V1, decls1, hrun, hres⟩ := VisitDeclStmt_total X hX V hV decls
    refine ⟨V1, .DeclStmt decls1, ?_, ?_⟩
    · rw [Visit, hrun]
    · rw [scopeDecls, visitedDecls]
      exact hres.add_const (fun _ => 0) _ _ (fun a => by rw [clearCount]; exact (Nat.zero_add _).symm)
        (fun a => by rw [clearCount]; exact (Nat.zero_add _).symm)
  | .BinaryOperator lhs rhs .BO_Assign, V, _, _ => by
    refine ⟨V, _, by rw [Visit], ?_⟩
    rw [scopeDecls, visitedDecls]
    exact VisitResult.same X V _
  | .BinaryOperator lhs rhs (.BO_Other k), V, hV, hreg => by
    rw [visitedDecls] at hreg
    obtain ⟨V1, lhs1, h1, r1⟩ := Visit_total X reg hX hwf lhs V hV
      (fun v hv => hreg v (List.mem_append_left _ hv))
    obtain ⟨V2, rhs1, h2, r2⟩ := Visit_total X reg hX hwf rhs V1 (r1.nonempty hV)
      (fun v hv => hreg v (List.mem_append_right _ hv))
    refine ⟨V2, .BinaryOperator lhs1 rhs1 (.BO_Other k), ?_, ?_⟩
    · rw [Visit, h1]
      simp only [h2]
    · rw [scopeDecls, visitedDecls]
      exact (r1.comp r2).add_const (fun _ => 0) _ _ (fun a => by rw [clearCount]; exact (Nat.zero_add _).symm)
        (fun a => by rw [clearCount]; exact (Nat.zero_add _).symm)
  | .ReturnStmt RetExpr, V, hV, hreg => by
    rw [visitedDecls] at hreg
    obtain ⟨V1, r1, h1, res⟩ := VisitChild_total X reg hX hwf RetExpr V hV hreg
    refine ⟨V1, .ReturnStmt r1, ?_, ?_⟩
    · rw [Visit, h1]
    · rw [scopeDecls, visitedDecls]
      exact res.add_const (fun _ => 0) _ _ (fun a => by rw [clearCount]; exact (Nat.zero_add _).symm)
        (fun a => by rw [clearCount]; exact (Nat.zero_add _).symm)
  | .IntegerLiteral v T l, V, _, _ => by
    refine ⟨V, _, by rw [Visit], ?_⟩
    rw [scopeDecls, visitedDecls]
    exact VisitResult.same X V _
  | .FloatingLiteral v e T l, V, _, _ => by
    refine ⟨V, _, by rw [Visit], ?_⟩
    rw [scopeDecls, visitedDecls]
    exact VisitResult.same X V _
  | .ImplicitCastExpr T k op c, V, hV, hreg => by
    rw [visitedDecls] at hreg
    obtain ⟨V1, op1, h1, res⟩ := Visit_total X reg hX hwf op V hV hreg
    refine ⟨V1, .ImplicitCastExpr T k op1 c, ?_, ?_⟩
    · rw [Visit, h1]
    · rw [scopeDecls, visitedDecls]
      exact res.add_const (fun _ => 0) _ _ (fun a => by rw [clearCount]; exact (Nat.zero_add _).symm)
        (fun a => by rw [clearCount]; exact (Nat.zero_add _).symm)
  | .InitListExpr T l es r, V, hV, hreg => by
    rw [visitedDecls] at hreg
    obtain ⟨V1, es1, h1, res⟩ := VisitChildren_total X reg hX hwf es V hV hreg
    refine ⟨V1, .InitListExpr T l es1 r, ?_, ?_⟩
    · rw [Visit, h1]
    · rw [scopeDecls, visitedDecls]
      exact res.add_const (fun _ => 0) _ _ (fun a => by rw [clearCount]; exact (Nat.zero_add _).symm)
        (fun a => by rw [clearCount]; exact (Nat.zero_add _).symm)
  | .DeclRefExpr D l T, V, _, _ => by
    refine ⟨V, _, by rw [Visit], ?_⟩
    rw [scopeDecls, visitedDecls]
    exact VisitResult.same X V _
  | .UnaryOperator input opc T l, V, hV, hreg => by
    rw [visitedDecls] at hreg
    obtain ⟨V1, input1, h1, res⟩ := Visit_total X reg hX hwf input V hV hreg
    refine ⟨V1, .UnaryOperator input1 opc T l, ?_, ?_⟩
    · rw [Visit, h1]
    · rw [scopeDecls, visitedDecls]
      exact res.add_const (fun _ => 0) _ _ (fun a => by rw [clearCount]; exact (Nat.zero_add _).symm)
        (fun a => by rw [clearCount]; exact (Nat.zero_add _).symm)
  | .CallExpr fn args t r, V, hV, hreg => by
    rw [visitedDecls] at hreg
    obtain ⟨V1, fn1, h1, r1⟩ := Visit_total X reg hX hwf fn V hV
      (fun v hv => hreg v (List.mem_append_left _ hv))
    obtain ⟨V2, args1, h2, r2⟩ := VisitChildren_total X reg hX hwf args V1 (r1.nonempty hV)
      (fun v hv => hreg v (List.mem_append_right _ hv))
    refine ⟨V2, .CallExpr fn1 args1 t r, ?_, ?_⟩
    · rw [Visit, h1]
      simp only [h2]
    · rw [scopeDecls, visitedDecls]
      exact (r1.comp r2).add_const
        (fun a => if isClearCallOn a (.CallExpr fn args t r) then 1 else 0) _ _
        (fun a => by rw [clearCount])
        (fun a => by rw [clearCount, Visit_isClearCallOn X reg V V1 V2 fn fn1 args args1 t r a h1 h2])
  | .Other cls children, V, hV, hreg => by
    rw [visitedDecls] at hreg
    obtain ⟨V1, cs1, h1, res⟩ := VisitOptChildren_total X reg hX hwf children V hV hreg
    refine ⟨V1, .Other cls cs1, ?_, ?_⟩
    · rw [Visit, h1]
    · rw [scopeDecls, visitedDecls]
      exact res.add_const (fun _ => 0) _ _ (fun a => by rw [clearCount]; exact (Nat.zero_add _).symm)
        (fun a => by rw [clearCount]; exact (Nat.zero_add _).symm)
theorem VisitChildren_total (X : Catalog) (reg : Registry) (hX : X.ClassifiesResources)
    (hwf : reg.WellFormed) :
    ∀ (l : List Stmt) (V : RSObjectRefCount), V.mScopeStack ≠ [] →
      (∀ v ∈ visitedDeclsList l, ClearRegistered X reg (RSExportType.GetTypeOfDecl v)) →
      ∃ V1 l1, VisitChildren X reg V l = .ok (V1, l1)
        ∧ VisitResult X V V1 (scopeDeclsList l) (visitedDeclsList l)
            (fun a => clearCountList a l) (fun a => clearCountList a l1)
  | [], V, _, _ => ⟨V, [], rfl, VisitResult.same X V _⟩
  | Child :: rest, V, hV, hreg => by
    rw [visitedDeclsList] at hreg
    obtain ⟨V1, c1, h1, r1⟩ := Visit_total X reg hX hwf Child V hV
      (fun v hv => hreg v (List.mem_append_left _ hv))
    obtain ⟨V2, rest1, h2, r2⟩ := VisitChildren_total X reg hX hwf rest V1 (r1.nonempty hV)
      (fun v hv => hreg v (List.mem_append_right _ hv))
    refine ⟨V2, c1 :: rest1, ?_, ?_⟩
    · rw [VisitChildren, h1]
      simp only [h2]
    · rw [scopeDeclsList, visitedDeclsList]
      exact (r1.comp r2).add_const (fun _ => 0) _ _ (fun a => by rw [clearCountList]; exact (Nat.zero_add _).symm)
        (fun a => by rw [clearCountList]; exact (Nat.zero_add _).symm)
theorem VisitChild_total (X : Catalog) (reg : Registry) (hX : X.ClassifiesResources)
    (hwf : reg.WellFormed) :
    ∀ (c : Option Stmt) (V : RSObjectRefCount), V.mScopeStack ≠ [] →
      (∀ v ∈ visitedDeclsOpt c, ClearRegistered X reg (RSExportType.GetTypeOfDecl v)) →
      ∃ V1 c1, VisitChild X reg V c = .ok (V1, c1)
        ∧ VisitResult X V V1 (scopeDeclsOpt c) (visitedDeclsOpt c)
            (fun a => clearCountOpt a c) (fun a => clearCountOpt a c1)
  | none, V, _, _ => ⟨V, none, rfl, VisitResult.same X V _⟩
  | some Child, V, hV, hreg => by
    rw [visitedDeclsOpt] at hreg
    obtain ⟨V1, c1, h1, r1⟩ := Visit_total X reg hX hwf Child V hV hreg
    refine ⟨V1, some c1, ?_, ?_⟩
    · rw [VisitChild, h1]
    · rw [scopeDeclsOpt, visitedDeclsOpt]
      exact r1.add_const (fun _ => 0) _ _ (fun a => by rw [clearCountOpt]; exact (Nat.zero_add _).symm)
        (fun a => by rw [clearCountOpt]; exact (Nat.zero_add _).symm)
theorem VisitOptChildren_total (X : Catalog) (reg : Registry) (hX : X.ClassifiesResources)
    (hwf : reg.WellFormed) :
    ∀ (l : List (Option Stmt)) (V : RSObjectRefCount), V.mScopeStack ≠ [] →
      (∀ v ∈ visitedDeclsOptList l, ClearRegistered X reg (RSExportType.GetTypeOfDecl v)) →
      ∃ V1 l1, VisitOptChildren X reg V l = .ok (V1, l1)
        ∧ VisitResult X V V1 (scopeDeclsOptList l) (visitedDeclsOptList l)
            (fun a => clearCountOptList a l) (fun a => clearCountOptList a l1)
  | [], V, _, _ => ⟨V, [], rfl, VisitResult.same X V _⟩
  | Child :: rest, V, hV, hreg => by
    rw [visitedDeclsOptList] at hreg
    obtain ⟨V1, c1, h1, r1⟩ := VisitChild_total X reg hX hwf Child V hV
      (fun v hv => hreg v (List.mem_append_left _ hv))
    obtain ⟨V2, rest1, h2, r2⟩ :=
      VisitOptChildren_total X reg hX hwf rest V1 (r1.nonempty hV)
        (fun v hv => hreg v (List.mem_append_right _ hv))
    refine ⟨V2, c1 :: rest1, ?_, ?_⟩
    · rw [VisitOptChildren, h1]
      simp only [h2]
    · rw [scopeDeclsOptList, visitedDeclsOptList]
      exact (r1.comp r2).add_const (fun _ => 0) _ _
        (fun a => by rw [clearCountOptList]; exact (Nat.zero_add _).symm)
        (fun a => by rw [clearCountOptList]; exact (Nat.zero_add _).symm)
end

/-! ### The failures of the traversal -/

theorem ClearRSObject_error (X : Catalog) (reg : Registry) (v : VarDecl) (e : Fatal)
    (h : (Scope.ClearRSObject X reg v).1 = .error e) :
    e ≠ .CorruptedScopeStack ∧ e ≠ .EmptyScopeStack := by
  unfold Scope.ClearRSObject at h
  simp only at h
  split at h
  · split at h
    · cases h
      exact ⟨by decide, by decide⟩
    · split at h
      · cases h
        exact ⟨by decide, by decide⟩
      · cases h
  · cases h
    exact ⟨by decide, by decide⟩

theorem collectClearCalls_error (X : Catalog) (reg : Registry) (vs : List VarDecl) (e : Fatal)
    (h : Scope.collectClearCalls X reg vs = .error e) :
    e ≠ .CorruptedScopeStack ∧ e ≠ .EmptyScopeStack := by
  induction vs with
  | nil => cases h
  | cons v rest ih =>
    rw [Scope.collectClearCalls] at h
    cases hv : (Scope.ClearRSObject X reg v).1 with
    | error e1 =>
      rw [hv] at h
      cases h
      exact ClearRSObject_error X reg v e hv
    | ok E =>
      rw [hv] at h
      simp only at h
      cases hr : Scope.collectClearCalls X reg rest with
      | error e1 =>
        rw [hr] at h
        cases h
        exact ih hr
      | ok calls =>
        rw [hr] at h
        cases E <;> cases h

theorem InsertLocalVarDestructors_error (X : Catalog) (reg : Registry) (S : Scope)
    (body : List Stmt) (e : Fatal) (h : S.InsertLocalVarDestructors X reg body = .error e) :
    e ≠ .CorruptedScopeStack ∧ e ≠ .EmptyScopeStack := by
  unfold Scope.InsertLocalVarDestructors at h
  cases hc : Scope.collectClearCalls X reg S.mRSO with
  | error e1 =>
    rw [hc] at h
    cases h
    exact collectClearCalls_error X reg S.mRSO e hc
  | ok calls =>
    rw [hc] at h
    simp only at h
    split at h
    · obtain ⟨P, R, _, _, _, happ⟩ := AppendToCompoundStatement_split body calls
      rw [happ] at h
      cases h
    · cases h

/-- After the visit of its children the block finds its own Scope on top of
the stack: the exit fails neither on the assertion nor on an empty stack. -/
theorem popScope_error (X : Catalog) (reg : Registry) (V V1 : RSObjectRefCount)
    (body1 : List Stmt) (e : Fatal) (hg : Grows X (pushScope V).2 V1)
    (h : popScope X reg (pushScope V).1 V1 body1 = .error e) :
    e ≠ .CorruptedScopeStack ∧ e ≠ .EmptyScopeStack := by
  obtain ⟨vs, hst, _, _⟩ := hg
  simp only [pushScope, addTracked] at hst
  unfold popScope at h
  rw [hst] at h
  simp only [pushScope, if_true] at h
  split at h
  · rename_i e1 hins
    cases h
    exact InsertLocalVarDestructors_error X reg _ body1 e hins
  · cases h

theorem InitializeRSObject_error (X : Catalog) (VD : VarDecl) (e : Fatal)
    (h : InitializeRSObject X VD = .error e) : e = .NotRSObjectType := by
  unfold InitializeRSObject at h
  simp only at h
  split at h
  · cases h
  · split at h
    · cases h
    · split at h
      · rename_i e1 hz
        cases h
        generalize X.GetRSSpecificType (RSExportType.GetTypeOfDecl VD) = DT at hz
        cases DT <;> simp only [CreateZeroInitializerForRSSpecificType, reduceCtorEq] at hz <;>
          (cases hz; rfl)
      · cases h
      · cases h

theorem visitDecl_error (X : Catalog) (V : RSObjectRefCount) (hV : V.mScopeStack ≠ [])
    (D : Decl) (e : Fatal) (h : visitDecl X V D = .error e) :
    e ≠ .CorruptedScopeStack ∧ e ≠ .EmptyScopeStack := by
  cases D with
  | Var VD =>
    rw [visitDecl] at h
    cases hi : InitializeRSObject X VD with
    | error e1 =>
      rw [hi] at h
      cases h
      rw [InitializeRSObject_error X VD e hi]
      exact ⟨by decide, by decide⟩
    | ok r =>
      obtain ⟨b, VD1⟩ := r
      rw [hi] at h
      simp only at h
      cases b with
      | false => cases h
      | true =>
        simp only [if_true, addToCurrentScope] at h
        cases hst : V.mScopeStack with
        | nil => exact absurd hst hV
        | cons S rest =>
          rw [hst] at h
          cases h
  | Function FD => cases h
  | Other k => cases h

theorem visitDecls_error (X : Catalog) (decls : List Decl) :
    ∀ (V : RSObjectRefCount), V.mScopeStack ≠ [] → ∀ e, visitDecls X V decls = .error e →
      e ≠ .CorruptedScopeStack ∧ e ≠ .EmptyScopeStack := by
  induction decls with
  | nil => intro V _ e h; cases h
  | cons D rest ih =>
    intro V hV e h
    rw [visitDecls] at h
    cases hD : visitDecl X V D with
    | error e1 =>
      rw [hD] at h
      cases h
      exact visitDecl_error X V hV D e hD
    | ok r =>
      obtain ⟨V1, D1⟩ := r
      rw [hD] at h
      simp only at h
      have hV1 : V1.mScopeStack ≠ [] := by
        rw [(visitDecl_spec X V V1 D D1 hD).1]
        exact addTracked_ne_nil _ _ hV
      cases hr : visitDecls X V1 rest with
      | error e1 =>
        rw [hr] at h
        cases h
        exact ih V1 hV1 e hr
      | ok r2 =>
        rw [hr] at h
        cases h

theorem Grows.stack_ne_nil {X : Catalog} {V V1 : RSObjectRefCount} (h : Grows X V V1)
    (hV : V.mScopeStack ≠ []) : V1.mScopeStack ≠ [] := by
  obtain ⟨vs, hst, _⟩ := h
  rw [hst]
  exact addTracked_ne_nil _ _ hV

mutual
/-- A visit that starts on a non-empty scope stack, or at a block, fails
neither on the assertion "Corrupted scope stack!" nor on an empty stack. -/
theorem Visit_no_stack_error (X : Catalog) (reg : Registry) :
    ∀ (s : Stmt) (V : RSObjectRefCount),
      (V.mScopeStack ≠ [] ∨ s.getStmtClass = StmtClass.CompoundStmtClass) →
      ∀ e, Visit X reg V s = .error e → e ≠ .CorruptedScopeStack ∧ e ≠ .EmptyScopeStack
  | .CompoundStmt body, V, _, e, h => by
    rw [Visit] at h
    split at h
    · cases h
    · cases hch : VisitChildren X reg (pushScope V).2 body with
      | error e1 =>
        rw [hch] at h
        cases h
        exact VisitChildren_no_stack_error X reg body (pushScope V).2 (by simp [pushScope]) e hch
      | ok r =>
        obtain ⟨V1, body1⟩ := r
        rw [hch] at h
        simp only at h
        cases hpop : popScope X reg (pushScope V).1 V1 body1 with
        | error e1 =>
          rw [hpop] at h
          cases h
          exact popScope_error X reg V V1 body1 e
            (VisitChildren_grows X reg body (pushScope V).2 V1 body1 hch) hpop
        | ok r2 =>
          rw [hpop] at h
          cases h
  | .DeclStmt decls, V, hV, e, h => by
    have hV1 : V.mScopeStack ≠ [] := hV.resolve_right (by simp [Stmt.getStmtClass])
    rw [Visit] at h
    cases hd : VisitDeclStmt X V decls with
    | error e1 =>
      rw [hd] at h
      cases h
      exact visitDecls_error X decls V hV1 e hd
    | ok r =>
      rw [hd] at h
      cases h
  | .BinaryOperator lhs rhs .BO_Assign, V, _, e, h => by
    rw [Visit] at h
    cases h
  | .BinaryOperator lhs rhs (.BO_Other k), V, hV, e, h => by
    have hV1 : V.mScopeStack ≠ [] := hV.resolve_right (by simp [Stmt.getStmtClass])
    rw [Visit] at h
    cases h1 : Visit X reg V lhs with
    | error e1 =>
      rw [h1] at h
      cases h
      exact Visit_no_stack_error X reg lhs V (Or.inl hV1) e h1
    | ok r =>
      obtain ⟨V2, lhs1⟩ := r
      rw [h1] at h
      simp only at h
      cases h2 : Visit X reg V2 rhs with
      | error e1 =>
        rw [h2] at h
        cases h
        exact Visit_no_stack_error X reg rhs V2
          (Or.inl ((Visit_grows X reg lhs V V2 lhs1 h1).stack_ne_nil hV1)) e h2
      | ok r2 =>
        rw [h2] at h
        cases h
  | .ReturnStmt RetExpr, V, hV, e, h => by
    have hV1 : V.mScopeStack ≠ [] := hV.resolve_right (by simp [Stmt.getStmtClass])
    rw [Visit] at h
    cases h1 : VisitChild X reg V RetExpr with
    | error e1 =>
      rw [h1] at h
      cases h
      exact VisitChild_no_stack_error X reg RetExpr V hV1 e h1
    | ok r =>
      rw [h1] at h
      cases h
  | .IntegerLiteral v T l, V, _, e, h => by
    rw [Visit] at h
    cases h
  | .FloatingLiteral v ex T l, V, _, e, h => by
    rw [Visit] at h
    cases h
  | .ImplicitCastExpr T k op c, V, hV, e, h => by
    have hV1 : V.mScopeStack ≠ [] := hV.resolve_right (by simp [Stmt.getStmtClass])
    rw [Visit] at h
    cases h1 : Visit X reg V op with
    | error e1 =>
      rw [h1] at h
      cases h
      exact Visit_no_stack_error X reg op V (Or.inl hV1) e h1
    | ok r =>
      rw [h1] at h
      cases h
  | .InitListExpr T l es r, V, hV, e, h => by
    have hV1 : V.mScopeStack ≠ [] := hV.resolve_right (by simp [Stmt.getStmtClass])
    rw [Visit] at h
    cases h1 : VisitChildren X reg V es with
    | error e1 =>
      rw [h1] at h
      cases h
      exact VisitChildren_no_stack_error X reg es V hV1 e h1
    | ok r =>
      rw [h1] at h
      cases h
  | .DeclRefExpr D l T, V, _, e, h => by
    rw [Visit] at h
    cases h
  | .UnaryOperator input opc T l, V, hV, e, h => by
    have hV1 : V.mScopeStack ≠ [] := hV.resolve_right (by simp [Stmt.getStmtClass])
    rw [Visit] at h
    cases h1 : Visit X reg V input with
    | error e1 =>
      rw [h1] at h
      cases h
      exact Visit_no_stack_error X reg input V (Or.inl hV1) e h1
    | ok r =>
      rw [h1] at h
      cases h
  | .CallExpr fn args t r, V, hV, e, h => by
    have hV1 : V.mScopeStack ≠ [] := hV.resolve_right (by simp [Stmt.getStmtClass])
    rw [Visit] at h
    cases h1 : Visit X reg V fn with
    | error e1 =>
      rw [h1] at h
      cases h
      exact Visit_no_stack_error X reg fn V (Or.inl hV1) e h1
    | ok r =>
      obtain ⟨V2, fn1⟩ := r
      rw [h1] at h
      simp only at h
      cases h2 : VisitChildren X reg V2 args with
      | error e1 =>
        rw [h2] at h
        cases h
        exact VisitChildren_no_stack_error X reg args V2
          ((Visit_grows X reg fn V V2 fn1 h1).stack_ne_nil hV1) e h2
      | ok r2 =>
        rw [h2] at h
        cases h
  | .Other cls children, V, hV, e, h => by
    have hV1 : V.mScopeStack ≠ [] := hV.resolve_right (by simp [Stmt.getStmtClass])
    rw [Visit] at h
    cases h1 : VisitOptChildren X reg V children with
    | error e1 =>
      rw [h1] at h
      cases h
      exact VisitOptChildren_no_stack_error X reg children V hV1 e h1
    | ok r =>
      rw [h1] at h
      cases h
theorem VisitChildren_no_stack_error (X : Catalog) (reg : Registry) :
    ∀ (l : List Stmt) (V : RSObjectRefCount), V.mScopeStack ≠ [] →
      ∀ e, VisitChildren X reg V l = .error e →
        e ≠ .CorruptedScopeStack ∧ e ≠ .EmptyScopeStack
  | [], V, _, e, h => by
    rw [VisitChildren] at h
    cases h
  | Child :: rest, V, hV, e, h => by
    rw [VisitChildren] at h
    cases h1 : Visit X reg V Child with
    | error e1 =>
      rw [h1] at h
      cases h
      exact Visit_no_stack_error X reg Child V (Or.inl hV) e h1
    | ok r =>
      obtain ⟨V2, c1⟩ := r
      rw [h1] at h
      simp only at h
      cases h2 : VisitChildren X reg V2 rest with
      | error e1 =>
        rw [h2] at h
        cases h
        exact VisitChildren_no_stack_error X reg rest V2
          ((Visit_grows X reg Child V V2 c1 h1).stack_ne_nil hV) e h2
      | ok r2 =>
        rw [h2] at h
        cases h
theorem VisitChild_no_stack_error (X : Catalog) (reg : Registry) :
    ∀ (c : Option Stmt) (V : RSObjectRefCount), V.mScopeStack ≠ [] →
      ∀ e, VisitChild X reg V c = .error e →
        e ≠ .CorruptedScopeStack ∧ e ≠ .EmptyScopeStack
  | none, V, _, e, h => by
    rw [VisitChild] at h
    cases h
  | some Child, V, hV, e, h => by
    rw [VisitChild] at h
    cases h1 : Visit X reg V Child with
    | error e1 =>
      rw [h1] at h
      cases h
      exact Visit_no_stack_error X reg Child V (Or.inl hV) e h1
    | ok r =>
      rw [h1] at h
      cases h
theorem VisitOptChildren_no_stack_error (X : Catalog) (reg : Registry) :
    ∀ (l : List (Option Stmt)) (V : RSObjectRefCount), V.mScopeStack ≠ [] →
      ∀ e, VisitOptChildren X reg V l = .error e →
        e ≠ .CorruptedScopeStack ∧ e ≠ .EmptyScopeStack
  | [], V, _, e, h => by
    rw [VisitOptChildren] at h
    cases h
  | Child :: rest, V, hV, e, h => by
    rw [VisitOptChildren] at h
    cases h1 : VisitChild X reg V Child with
    | error e1 =>
      rw [h1] at h
      cases h
      exact VisitChild_no_stack_error X reg Child V hV e h1
    | ok r =>
      obtain ⟨V2, c1⟩ := r
      rw [h1] at h
      simp only at h
      cases h2 : VisitOptChildren X reg V2 rest with
      | error e1 =>
        rw [h2] at h
        cases h
        exact VisitOptChildren_no_stack_error X reg rest V2
          ((VisitChild_grows X reg Child V V2 c1 h1).stack_ne_nil hV) e h2
      | ok r2 =>
        rw [h2] at h
        cases h
end

/-! ### The variables a Scope tracks -/

theorem Tracks.nil (X : Catalog) (V : RSObjectRefCount) : Tracks X V V [] :=
  ⟨[], (addTracked_nil _).symm, rfl⟩

theorem Tracks.concat {X : Catalog} {V V1 V2 : RSObjectRefCount} {sc1 sc2 : List VarDecl}
    (h1 : Tracks X V V1 sc1) (h2 : Tracks X V1 V2 sc2) : Tracks X V V2 (sc1 ++ sc2) := by
  obtain ⟨vs, hst, hsig⟩ := h1
  obtain ⟨ws, hst2, hsig2⟩ := h2
  refine ⟨vs ++ ws, by rw [hst2, hst, addTracked_addTracked], ?_⟩
  rw [List.map_append, List.map_append, List.filter_append, hsig, hsig2]

theorem visitDecls_sig (X : Catalog) (decls : List Decl) :
    ∀ (V V1 : RSObjectRefCount) (decls1 : List Decl),
      visitDecls X V decls = .ok (V1, decls1) →
      (declaredVars decls1).map VarDecl.sig = (declaredVars decls).map VarDecl.sig := by
  induction decls with
  | nil =>
    intro V V1 decls1 h
    rw [visitDecls] at h
    cases h
    rfl
  | cons D rest ih =>
    intro V V1 decls1 h
    rw [visitDecls] at h
    cases hD : visitDecl X V D with
    | error e => rw [hD] at h; cases h
    | ok r =>
      obtain ⟨V2, D1⟩ := r
      rw [hD] at h
      simp only at h
      cases hr : visitDecls X V2 rest with
      | error e => rw [hr] at h; cases h
      | ok r2 =>
        obtain ⟨V3, rest1⟩ := r2
        rw [hr] at h
        simp only [Except.ok.injEq, Prod.mk.injEq] at h
        obtain ⟨hV, hdecls⟩ := h
        subst hV
        subst hdecls
        have hrest := ih V2 V3 rest1 hr
        have hone : (declaredVars [D1]).map VarDecl.sig = (declaredVars [D]).map VarDecl.sig := by
          cases D with
          | Var VD =>
            rw [visitDecl] at hD
            cases hi : InitializeRSObject X VD with
            | error e => rw [hi] at hD; cases hD
            | ok ri =>
              obtain ⟨b, VD1⟩ := ri
              rw [hi] at hD
              simp only at hD
              have hk := (InitializeRSObject_keeps X VD VD1 b hi).1
              have hD1 : D1 = .Var VD1 := by
                split at hD
                · split at hD
                  · cases hD
                  · cases hD; rfl
                · cases hD; rfl
              rw [hD1]
              simp only [declaredVars, List.map_cons, List.map_nil, hk]
          | Function FD => cases hD; rfl
          | Other k => cases hD; rfl
        rw [declaredVars_cons, declaredVars_cons D, List.map_append, List.map_append, hone, hrest]

theorem VisitDeclStmt_tracks (X : Catalog) (V V1 : RSObjectRefCount) (decls decls1 : List Decl)
    (h : VisitDeclStmt X V decls = .ok (V1, decls1)) : Tracks X V V1 (declaredVars decls) := by
  refine ⟨_, (visitDecls_spec X decls V V1 decls1 h).1, ?_⟩
  rw [map_filter_sig, visitDecls_sig X decls V V1 decls1 h]

mutual
/-- Whenever the visit of a statement returns, the current Scope has got the
object-typed variables declared in the statement outside of its blocks, and
nothing else has changed in the scope stack. -/
theorem Visit_tracks (X : Catalog) (reg : Registry) :
    ∀ (s : Stmt) (V V1 : RSObjectRefCount) (s1 : Stmt),
      Visit X reg V s = .ok (V1, s1) → Tracks X V V1 (scopeDecls s)
  | .CompoundStmt body, V, V1, s1, hrun => by
    rw [scopeDecls]
    rw [Visit] at hrun
    split at hrun
    · cases hrun
      exact Tracks.nil X V
    · cases hch : VisitChildren X reg (pushScope V).2 body with
      | error e => rw [hch] at hrun; cases hrun
      | ok r =>
        obtain ⟨V2, body1⟩ := r
        rw [hch] at hrun
        simp only at hrun
        cases hpop : popScope X reg (pushScope V).1 V2 body1 with
        | error e => rw [hpop] at hrun; cases hrun
        | ok r2 =>
          obtain ⟨V3, body2⟩ := r2
          rw [hpop] at hrun
          simp only [Except.ok.injEq, Prod.mk.injEq] at hrun
          obtain ⟨hst, _⟩ := popScope_spec X reg V V2 V3 body1 body2
            (VisitChildren_grows X reg body (pushScope V).2 V2 body1 hch) hpop
          rw [← hrun.1]
          exact ⟨[], by rw [hst, addTracked_nil], rfl⟩
  | .DeclStmt decls, V, V1, s1, hrun => by
    rw [scopeDecls]
    rw [Visit] at hrun
    cases hd : VisitDeclStmt X V decls with
    | error e => rw [hd] at hrun; cases hrun
    | ok r =>
      obtain ⟨V2, decls1⟩ := r
      rw [hd] at hrun
      cases hrun
      exact VisitDeclStmt_tracks X V V1 decls decls1 hd
  | .BinaryOperator lhs rhs .BO_Assign, V, V1, s1, hrun => by
    rw [scopeDecls]
    rw [Visit] at hrun
    cases hrun
    exact Tracks.nil X V
  | .BinaryOperator lhs rhs (.BO_Other k), V, V1, s1, hrun => by
    rw [scopeDecls]
    rw [Visit] at hrun
    cases h1 : Visit X reg V lhs with
    | error e => rw [h1] at hrun; cases hrun
    | ok r =>
      obtain ⟨V2, lhs1⟩ := r
      rw [h1] at hrun
      simp only at hrun
      cases h2 : Visit X reg V2 rhs with
      | error e => rw [h2] at hrun; cases hrun
      | ok r2 =>
        obtain ⟨V3, rhs1⟩ := r2
        rw [h2] at hrun
        cases hrun
        exact (Visit_tracks X reg lhs V V2 lhs1 h1).concat (Visit_tracks X reg rhs V2 V1 rhs1 h2)
  | .ReturnStmt RetExpr, V, V1, s1, hrun => by
    rw [scopeDecls]
    rw [Visit] at hrun
    cases h1 : VisitChild X reg V RetExpr with
    | error e => rw [h1] at hrun; cases hrun
    | ok r =>
      obtain ⟨V2, r1⟩ := r
      rw [h1] at hrun
      cases hrun
      exact VisitChild_tracks X reg RetExpr V V1 r1 h1
  | .IntegerLiteral v T l, V, V1, s1, hrun => by
    rw [scopeDecls]
    rw [Visit] at hrun
    cases hrun
    exact Tracks.nil X V
  | .FloatingLiteral v e T l, V, V1, s1, hrun => by
    rw [scopeDecls]
    rw [Visit] at hrun
    cases hrun
    exact Tracks.nil X V
  | .ImplicitCastExpr T k op c, V, V1, s1, hrun => by
    rw [scopeDecls]
    rw [Visit] at hrun
    cases h1 : Visit X reg V op with
    | error e => rw [h1] at hrun; cases hrun
    | ok r =>
      obtain ⟨V2, op1⟩ := r
      rw [h1] at hrun
      cases hrun
      exact Visit_tracks X reg op V V1 op1 h1
  | .InitListExpr T l es r, V, V1, s1, hrun => by
    rw [scopeDecls]
    rw [Visit] at hrun
    cases h1 : VisitChildren X reg V es with
    | error e => rw [h1] at hrun; cases hrun
    | ok r =>
      obtain ⟨V2, es1⟩ := r
      rw [h1] at hrun
      cases hrun
      exact VisitChildren_tracks X reg es V V1 es1 h1
  | .DeclRefExpr D l T, V, V1, s1, hrun => by
    rw [scopeDecls]
    rw [Visit] at hrun
    cases hrun
    exact Tracks.nil X V
  | .UnaryOperator input opc T l, V, V1, s1, hrun => by
    rw [scopeDecls]
    rw [Visit] at hrun
    cases h1 : Visit X reg V input with
    | error e => rw [h1] at hrun; cases hrun
    | ok r =>
      obtain ⟨V2, op1⟩ := r
      rw [h1] at hrun
      cases hrun
      exact Visit_tracks X reg input V V1 op1 h1
  | .CallExpr fn args t r, V, V1, s1, hrun => by
    rw [scopeDecls]
    rw [Visit] at hrun
    cases h1 : Visit X reg V fn with
    | error e => rw [h1] at hrun; cases hrun
    | ok r =>
      obtain ⟨V2, fn1⟩ := r
      rw [h1] at hrun
      simp only at hrun
      cases h2 : VisitChildren X reg V2 args with
      | error e => rw [h2] at hrun; cases hrun
      | ok r2 =>
        obtain ⟨V3, args1⟩ := r2
        rw [h2] at hrun
        cases hrun
        exact (Visit_tracks X reg fn V V2 fn1 h1).concat
          (VisitChildren_tracks X reg args V2 V1 args1 h2)
  | .Other cls children, V, V1, s1, hrun => by
    rw [scopeDecls]
    rw [Visit] at hrun
    cases h1 : VisitOptChildren X reg V children with
    | error e => rw [h1] at hrun; cases hrun
    | ok r =>
      obtain ⟨V2, cs1⟩ := r
      rw [h1] at hrun
      cases hrun
      exact VisitOptChildren_tracks X reg children V V1 cs1 h1
theorem VisitChildren_tracks (X : Catalog) (reg : Registry) :
    ∀ (l : List Stmt) (V V1 : RSObjectRefCount) (l1 : List Stmt),
      VisitChildren X reg V l = .ok (V1, l1) → Tracks X V V1 (scopeDeclsList l)
  | [], V, V1, l1, hrun => by
    rw [scopeDeclsList]
    rw [VisitChildren] at hrun
    cases hrun
    exact Tracks.nil X V
  | Child :: rest, V, V1, l1, hrun => by
    rw [scopeDeclsList]
    obtain ⟨V2, x1, rest1, h1, h2, _⟩ := VisitChildren_cons_inv X reg V V1 Child rest l1 hrun
    exact (Visit_tracks X reg Child V V2 x1 h1).concat
      (VisitChildren_tracks X reg rest V2 V1 rest1 h2)
theorem VisitChild_tracks (X : Catalog) (reg : Registry) :
    ∀ (c : Option Stmt) (V V1 : RSObjectRefCount) (c1 : Option Stmt),
      VisitChild X reg V c = .ok (V1, c1) → Tracks X V V1 (scopeDeclsOpt c)
  | none, V, V1, c1, hrun => by
    rw [scopeDeclsOpt]
    rw [VisitChild] at hrun
    cases hrun
    exact Tracks.nil X V
  | some Child, V, V1, c1, hrun => by
    rw [scopeDeclsOpt]
    rw [VisitChild] at hrun
    cases h1 : Visit X reg V Child with
    | error e => rw [h1] at hrun; cases hrun
    | ok r =>
      obtain ⟨V2, c2⟩ := r
      rw [h1] at hrun
      cases hrun
      exact Visit_tracks X reg Child V V1 c2 h1
theorem VisitOptChildren_tracks (X : Catalog) (reg : Registry) :
    ∀ (l : List (Option Stmt)) (V V1 : RSObjectRefCount) (l1 : List (Option Stmt)),
      VisitOptChildren X reg V l = .ok (V1, l1) → Tracks X V V1 (scopeDeclsOptList l)
  | [], V, V1, l1, hrun => by
    rw [scopeDeclsOptList]
    rw [VisitOptChildren] at hrun
    cases hrun
    exact Tracks.nil X V
  | Child :: rest, V, V1, l1, hrun => by
    rw [scopeDeclsOptList]
    rw [VisitOptChildren] at hrun
    cases h1 : VisitChild X reg V Child with
    | error e => rw [h1] at hrun; cases hrun
    | ok r =>
      obtain ⟨V2, c1⟩ := r
      rw [h1] at hrun
      simp only at hrun
      cases h2 : VisitOptChildren X reg V2 rest with
      | error e => rw [h2] at hrun; cases hrun
      | ok r2 =>
        obtain ⟨V3, rest1⟩ := r2
        rw [h2] at hrun
        cases hrun
        exact (VisitChild_tracks X reg Child V V2 c1 h1).concat
          (VisitOptChildren_tracks X reg rest V2 V1 rest1 h2)
end

/-! ### The blocks of a function body -/

theorem VisitCompoundStmt_total (X : Catalog) (reg : Registry) (hX : X.ClassifiesResources)
    (hwf : reg.WellFormed) (V : RSObjectRefCount) (body : List Stmt)
    (hreg : ∀ v ∈ visitedDeclsList body, ClearRegistered X reg (RSExportType.GetTypeOfDecl v)) :
    ∃ (V1 W : RSObjectRefCount) (children1 calls P R : List Stmt),
      VisitCompoundStmt X reg V body = .ok (V1, .CompoundStmt (P ++ calls ++ R))
      ∧ V1.mScopeStack = V.mScopeStack
      ∧ VisitChildren X reg (pushScope V).2 body = .ok (W, children1)
      ∧ children1 = P ++ R
      ∧ List.Forall₂ (fun a call => isClearCallOn a call = true)
          (objAddrs X (scopeDeclsList body)) calls
      ∧ ∀ a, clearCount a (.CompoundStmt (P ++ calls ++ R))
          = clearCount a (.CompoundStmt body) + (objAddrs X (visitedDeclsList body)).count a := by
  cases body with
  | nil =>
    refine ⟨V, (pushScope V).2, [], [], [], [], ?_, rfl, rfl, rfl, List.Forall₂.nil,
      fun a => rfl⟩
    unfold VisitCompoundStmt
    rw [Visit]
    rfl
  | cons x xs =>
    obtain ⟨V1, body1, hrun, hres⟩ :=
      VisitChildren_total X reg hX hwf (x :: xs) (pushScope V).2 (by simp [pushScope]) hreg
    obtain ⟨vs, calls, P, R, _, hsig, hsplit, _, _, hshape, hpop, hfin⟩ :=
      VisitCompoundStmt_exit X reg hwf V V1 (x :: xs) body1
        (fun v hv => hreg v (scopeDeclsList_subset _ v hv)) hres
    refine ⟨{ V1 with mScopeStack := V.mScopeStack }, V1, body1, calls, P, R, ?_, rfl, hrun,
      hsplit, ?_, fun a => ?_⟩
    · unfold VisitCompoundStmt
      rw [Visit]
      simp only [List.isEmpty_cons, Bool.false_eq_true, if_false, hrun, hpop]
    · have haddr : objAddrs X (scopeDeclsList (x :: xs)) = vs.map VarDecl.addr := by
        unfold objAddrs
        rw [← hsig, map_sig_addr]
      rw [haddr]
      exact List.forall₂_map_left_iff.mpr hshape
    · obtain ⟨_, _, _, _, hc⟩ := hfin
      have ha := hc a
      simp only [objAddrs_nil, List.count_nil, Nat.add_zero] at ha
      rw [clearCount, clearCount]
      exact ha

theorem VisitCompoundStmt_keeps_stack (X : Catalog) (reg : Registry) (V V1 : RSObjectRefCount)
    (body : List Stmt) (s1 : Stmt) (h : VisitCompoundStmt X reg V body = .ok (V1, s1)) :
    V1.mScopeStack = V.mScopeStack := by
  obtain ⟨vs, hst, hsig⟩ := Visit_tracks X reg (.CompoundStmt body) V V1 s1 h
  rw [scopeDecls] at hsig
  have hnil : vs = [] := by
    cases vs with
    | nil => rfl
    | cons v rest => simp at hsig
  rw [hst, hnil, addTracked_nil]

theorem VisitCompoundStmt_no_stack_error (X : Catalog) (reg : Registry) (V : RSObjectRefCount)
    (body : List Stmt) (e : Fatal) (h : VisitCompoundStmt X reg V body = .error e) :
    e ≠ .CorruptedScopeStack ∧ e ≠ .EmptyScopeStack :=
  Visit_no_stack_error X reg (.CompoundStmt body) V (Or.inr rfl) e h

theorem count_objAddrs_of_nodup (X : Catalog) (l : List VarDecl)
    (hnodup : (l.map VarDecl.addr).Nodup) (v : VarDecl) (hv : v ∈ l)
    (hobj : IsRSObjectType (X.GetRSSpecificType (RSExportType.GetTypeOfDecl v)) = true) :
    (objAddrs X l).count v.addr = 1 := by
  have hsub : List.Sublist (objAddrs X l) (l.map VarDecl.addr) := by
    rw [← map_sig_addr]
    exact List.Sublist.map _ (List.filter_sublist _)
  have hmem : v.addr ∈ objAddrs X l := by
    unfold objAddrs
    refine List.mem_map.mpr ⟨v.sig, List.mem_filter.mpr ⟨List.mem_map_of_mem _ hv, hobj⟩, rfl⟩
  exact List.count_eq_one_of_mem (hsub.nodup hnodup) hmem

theorem sampleCatalog_classifiesResources : sampleCatalog.ClassifiesResources := by
  intro T
  simp only [sampleCatalog]
  split <;> decide

theorem sampleBody_registered :
    ∀ v ∈ visitedDeclsList sampleBody,
      ClearRegistered sampleCatalog sampleRegistry (RSExportType.GetTypeOfDecl v) := by
  intro v hv
  have hlist : visitedDeclsList sampleBody = [varA, varB, varM] := rfl
  rw [hlist] at hv
  simp only [List.mem_cons, List.mem_singleton, List.not_mem_nil, or_false] at hv
  rcases hv with h | h | h <;> subst h <;> intro hc
  · exact ⟨clearFont, rfl⟩
  · exact ⟨clearAllocation, rfl⟩
  · exact absurd hc (by decide)

theorem sampleBody_nodup : ((visitedDeclsList sampleBody).map VarDecl.addr).Nodup := by
  have hlist : (visitedDeclsList sampleBody).map VarDecl.addr = [1, 2, 3] := rfl
  rw [hlist]
  decide

/-- C12. A block visited by `VisitCompoundStmt` from any scope stack (the
empty one of a function body included), with a Catalog that classifies
resources, a registry as a scan leaves it, a clear function registered for
every object category used and distinct declarations at distinct addresses:
the visit returns; every object-typed variable whose declaration is visited
has exactly one more clear call in the resulting tree than before; and the
calls spliced into the statement list of this block (`P ++ calls ++ R`, where
`P ++ R` are the visited children) are, one for one and in order, the clear
calls of the object-typed variables declared while the Scope of this block is
current. Every nested block is itself visited this way. -/
theorem VisitCompoundStmt_one_clear_call (X : Catalog) (reg : Registry) (V : RSObjectRefCount)
    (body : List Stmt) (hX : X.ClassifiesResources) (hreach : reg.Reachable X)
    (hreg : ∀ v ∈ visitedDeclsList body, ClearRegistered X reg (RSExportType.GetTypeOfDecl v))
    (hnodup : ((visitedDeclsList body).map VarDecl.addr).Nodup) :
    ∃ (V1 W : RSObjectRefCount) (children1 calls P R : List Stmt),
      VisitCompoundStmt X reg V body = .ok (V1, .CompoundStmt (P ++ calls ++ R))
      ∧ (∀ v ∈ visitedDeclsList body,
          IsRSObjectType (X.GetRSSpecificType (RSExportType.GetTypeOfDecl v)) = true →
          clearCount v.addr (.CompoundStmt (P ++ calls ++ R))
            = clearCount v.addr (.CompoundStmt body) + 1)
      ∧ VisitChildren X reg (pushScope V).2 body = .ok (W, children1)
      ∧ children1 = P ++ R
      ∧ List.Forall₂ (fun a call => isClearCallOn a call = true)
          (objAddrs X (scopeDeclsList body)) calls := by
  obtain ⟨V1, W, children1, calls, P, R, hrun, _, hch, hsplit, hshape, hcount⟩ :=
    VisitCompoundStmt_total X reg hX (Reachable_wellFormed X reg hreach) V body hreg
  refine ⟨V1, W, children1, calls, P, R, hrun, ?_, hch, hsplit, hshape⟩
  intro v hv hobj
  rw [hcount v.addr, count_objAddrs_of_nodup X _ hnodup v hv hobj]

/-- Witness of C12: the sample body, from the empty scope stack; `a`, declared
in the `for` statement, is cleared in the outer block before the return, `b`
in the inner block, the matrix `m` nowhere. -/
theorem VisitCompoundStmt_one_clear_call_witness :
    (∃ body1, VisitCompoundStmt sampleCatalog sampleRegistry ⟨[], 0⟩ sampleBody
        = .ok (⟨[], 2⟩, .CompoundStmt body1)
      ∧ clearCount 1 (.CompoundStmt body1) = 1
      ∧ clearCount 2 (.CompoundStmt body1) = 1
      ∧ clearCount 3 (.CompoundStmt body1) = 0
      ∧ body1.map Stmt.getStmtClass
          = [.OtherClass 3, .CompoundStmtClass, .CallExprClass, .ReturnStmtClass]
      ∧ body1.map (isClearCallOn 1) = [false, false, true, false])
    ∧ ∃ (V1 W : RSObjectRefCount) (children1 calls P R : List Stmt),
      VisitCompoundStmt sampleCatalog sampleRegistry ⟨[], 0⟩ sampleBody
        = .ok (V1, .CompoundStmt (P ++ calls ++ R))
      ∧ (∀ v ∈ visitedDeclsList sampleBody,
          IsRSObjectType (sampleCatalog.GetRSSpecificType (RSExportType.GetTypeOfDecl v)) = true →
          clearCount v.addr (.CompoundStmt (P ++ calls ++ R))
            = clearCount v.addr (.CompoundStmt sampleBody) + 1)
      ∧ VisitChildren sampleCatalog sampleRegistry (pushScope ⟨[], 0⟩).2 sampleBody
          = .ok (W, children1)
      ∧ children1 = P ++ R
      ∧ List.Forall₂ (fun a call => isClearCallOn a call = true)
          (objAddrs sampleCatalog (scopeDeclsList sampleBody)) calls :=
  ⟨⟨_, rfl, rfl, rfl, rfl, rfl, rfl⟩,
    VisitCompoundStmt_one_clear_call sampleCatalog sampleRegistry ⟨[], 0⟩ sampleBody
      sampleCatalog_classifiesResources sampleRegistry_reachable sampleBody_registered
      sampleBody_nodup⟩

/-- C13, as stated, fails: in the block `{ for (rs_font a; ; ) ; }` the Scope
of the block tracks `a` when its children have been visited, and no
declaration statement is an immediate child of the block. -/
theorem tracked_not_declared_directly :
    ∃ (V1 : RSObjectRefCount) (body1 : List Stmt) (S : Scope) (v : VarDecl),
      VisitChildren sampleCatalog Registry.initial (pushScope ⟨[], 0⟩).2 [forStmtA]
        = .ok (V1, body1)
      ∧ S ∈ V1.mScopeStack ∧ v ∈ S.mRSO ∧ ¬ DeclaredDirectlyIn [forStmtA] v := by
  refine ⟨⟨[⟨0, [varAInit]⟩], 1⟩, _, ⟨0, [varAInit]⟩, varAInit, rfl,
    List.mem_singleton.mpr rfl, List.mem_singleton.mpr rfl, ?_⟩
  rintro ⟨decls, hmem, _⟩
  have h := List.mem_singleton.mp hmem
  unfold forStmtA at h
  cases h

/-- C13, amended. When the children of a block have been visited (the moment
its Scope is finalized), the Scope on top of the stack is the one pushed for
the block and the variables it tracks are, by address and type and in order,
the object-typed variables of the declaration statements reached from the
statement list of the block without entering another block; below it the
stack is as on entry. -/
theorem tracked_declared_under_block (X : Catalog) (reg : Registry) (V V1 : RSObjectRefCount)
    (body body1 : List Stmt)
    (h : VisitChildren X reg (pushScope V).2 body = .ok (V1, body1)) :
    ∃ S : Scope, V1.mScopeStack = S :: V.mScopeStack
      ∧ S.addr = (pushScope V).1.addr
      ∧ S.mRSO.map VarDecl.sig = ((scopeDeclsList body).map VarDecl.sig).filter (objSig X)
      ∧ ∀ v ∈ S.mRSO, ∃ VD ∈ scopeDeclsList body, VD.sig = v.sig := by
  obtain ⟨vs, hst, hsig⟩ := VisitChildren_tracks X reg body (pushScope V).2 V1 body1 h
  refine ⟨{ addr := V.nextScope, mRSO := vs }, ?_, rfl, hsig, ?_⟩
  · rw [hst]
    simp [pushScope, addTracked]
  · intro v hv
    have hmem : v.sig ∈ ((scopeDeclsList body).map VarDecl.sig).filter (objSig X) := by
      rw [← hsig]
      exact List.mem_map_of_mem _ hv
    obtain ⟨VD, hVD, heq⟩ := List.mem_map.mp (List.mem_filter.mp hmem).1
    exact ⟨VD, hVD, heq⟩

/-- Witness of the amended C13: the block `{ for (rs_font a; ; ) ; }`. -/
theorem tracked_declared_under_block_witness :
    ∃ S : Scope, (⟨[⟨0, [varAInit]⟩], 1⟩ : RSObjectRefCount).mScopeStack
        = S :: (⟨[], 0⟩ : RSObjectRefCount).mScopeStack
      ∧ S.addr = (pushScope ⟨[], 0⟩).1.addr
      ∧ S.mRSO.map VarDecl.sig
          = ((scopeDeclsList [forStmtA]).map VarDecl.sig).filter (objSig sampleCatalog)
      ∧ ∀ v ∈ S.mRSO, ∃ VD ∈ scopeDeclsList [forStmtA], VD.sig = v.sig :=
  tracked_declared_under_block sampleCatalog Registry.initial ⟨[], 0⟩ ⟨[⟨0, [varAInit]⟩], 1⟩
    [forStmtA] _ rfl

/-- C14. Scope-stack discipline. With a Catalog that classifies resources, a
registry as a scan leaves it and a clear function registered for every object
category used, `VisitCompoundStmt` returns, from every initial scope stack,
with the scope stack it was entered with. Without any of these assumptions
it never fails on the assertion "Corrupted scope stack!", however deep the
blocks are nested (a failure in a nested block is the failure of the whole
visit), and whenever it returns the scope stack is the one on entry. -/
theorem VisitCompoundStmt_scope_stack (X : Catalog) (reg : Registry) (V : RSObjectRefCount)
    (body : List Stmt) (hX : X.ClassifiesResources) (hreach : reg.Reachable X)
    (hreg : ∀ v ∈ visitedDeclsList body, ClearRegistered X reg (RSExportType.GetTypeOfDecl v)) :
    (∃ V1 s1, VisitCompoundStmt X reg V body = .ok (V1, s1)
      ∧ V1.mScopeStack = V.mScopeStack)
    ∧ ∀ (Y : Catalog) (reg1 : Registry) (W : RSObjectRefCount) (b : List Stmt),
        VisitCompoundStmt Y reg1 W b ≠ .error .CorruptedScopeStack
        ∧ ∀ W1 s1, VisitCompoundStmt Y reg1 W b = .ok (W1, s1) →
            W1.mScopeStack = W.mScopeStack := by
  obtain ⟨V1, _, _, calls, P, R, hrun, hst, _⟩ :=
    VisitCompoundStmt_total X reg hX (Reachable_wellFormed X reg hreach) V body hreg
  refine ⟨⟨V1, _, hrun, hst⟩, fun Y reg1 W b => ⟨fun herr => ?_, fun W1 s1 hok => ?_⟩⟩
  · exact (VisitCompoundStmt_no_stack_error Y reg1 W b _ herr).1 rfl
  · exact VisitCompoundStmt_keeps_stack Y reg1 W W1 b s1 hok

/-- Witness of C14: the sample body visited inside an enclosing Scope. -/
theorem VisitCompoundStmt_scope_stack_witness :
    (∃ V1 s1, VisitCompoundStmt sampleCatalog sampleRegistry ⟨[⟨7, [varN]⟩], 8⟩ sampleBody
        = .ok (V1, s1)
      ∧ V1.mScopeStack = (⟨[⟨7, [varN]⟩], 8⟩ : RSObjectRefCount).mScopeStack)
    ∧ ∀ (Y : Catalog) (reg1 : Registry) (W : RSObjectRefCount) (b : List Stmt),
        VisitCompoundStmt Y reg1 W b ≠ .error .CorruptedScopeStack
        ∧ ∀ W1 s1, VisitCompoundStmt Y reg1 W b = .ok (W1, s1) →
            W1.mScopeStack = W.mScopeStack :=
  VisitCompoundStmt_scope_stack sampleCatalog sampleRegistry ⟨[⟨7, [varN]⟩], 8⟩ sampleBody
    sampleCatalog_classifiesResources sampleRegistry_reachable sampleBody_registered

/-- C18. A visit by `VisitCompoundStmt` from the empty scope stack never fails
on an empty stack: a non-empty block pushes its Scope before any child is
visited, a visit started on a non-empty stack leaves it non-empty, and on a
non-empty stack neither `VisitDeclStmt` nor the visit of any statement fails
for want of a current Scope; so the current Scope is defined whenever a
variable is registered. -/
theorem getCurrentScope_defined (X : Catalog) (reg : Registry) (n : Nat) (body : List Stmt) :
    VisitCompoundStmt X reg ⟨[], n⟩ body ≠ .error .EmptyScopeStack
    ∧ (∀ V : RSObjectRefCount, (pushScope V).2.mScopeStack ≠ [])
    ∧ (∀ (V V1 : RSObjectRefCount) (s s1 : Stmt), V.mScopeStack ≠ [] →
        Visit X reg V s = .ok (V1, s1) → V1.mScopeStack ≠ [])
    ∧ (∀ (V : RSObjectRefCount) (decls : List Decl), V.mScopeStack ≠ [] →
        VisitDeclStmt X V decls ≠ .error .EmptyScopeStack)
    ∧ (∀ (V : RSObjectRefCount) (s : Stmt), V.mScopeStack ≠ [] →
        Visit X reg V s ≠ .error .EmptyScopeStack) := by
  refine ⟨fun herr => ?_, fun V => ?_, fun V V1 s s1 hV hok => ?_, fun V decls hV herr => ?_,
    fun V s hV herr => ?_⟩
  · exact (VisitCompoundStmt_no_stack_error X reg _ body _ herr).2 rfl
  · simp [pushScope]
  · exact (Visit_grows X reg s V V1 s1 hok).stack_ne_nil hV
  · exact (visitDecls_error X decls V hV _ herr).2 rfl
  · exact (Visit_no_stack_error X reg s V (Or.inl hV) _ herr).2 rfl

end slang
